import Mathlib

/-!
Verification of the shanten engine and tile codec of a Riichi mahjong
hand-analysis library.

The Python sources (`mahjong/constants.py`, `mahjong/shanten.py`,
`mahjong/tile.py`, `mahjong/utils.py`) are embedded shallowly:

* a Python `int` becomes `Int` (`Nat` where the value is manifestly a count);
* a 34-count array becomes a `List Int` read through `List.getD` (the code
  only ever indexes positions `0..33` of a length-34 list);
* mutation of the solver state becomes explicit state passing over the
  structure `RState`;
* code that can raise becomes `Except String`.

Definitions keep the Python names (a leading underscore is dropped where
Lean style demands it).
-/

/-! ## constants.py -/

/-- `TERMINAL_AND_HONOR_INDICES` from `constants.py`.  The Python value is a
`frozenset`; the code only iterates it (summing per-element contributions)
and membership-tests it, so a duplicate-free list with the same elements is
an exact model. -/
def TERMINAL_AND_HONOR_INDICES : List Nat :=
  [0, 8, 9, 17, 18, 26, 27, 28, 29, 30, 31, 32, 33]

/-- `EAST` (34-format index of the East wind). -/
def EAST : Nat := 27

/-- `NORTH` (34-format index of the North wind). -/
def NORTH : Nat := 30

/-- `HAKU` (34-format index of the white dragon). -/
def HAKU : Nat := 31

/-- `FIVE_RED_MAN` (136-format id of the red five of man). -/
def FIVE_RED_MAN : Int := 16

/-- `FIVE_RED_PIN` (136-format id of the red five of pin). -/
def FIVE_RED_PIN : Int := 52

/-- `FIVE_RED_SOU` (136-format id of the red five of sou). -/
def FIVE_RED_SOU : Int := 88

/-- `AKA_DORAS` from `constants.py` as a list (the code only membership-tests
it). -/
def AKA_DORAS : List Int := [FIVE_RED_MAN, FIVE_RED_PIN, FIVE_RED_SOU]

/-! ## shanten.py — chiitoitsu and kokushi solvers -/

/-- `Shanten.AGARI_STATE`. -/
def AGARI_STATE : Int := -1

/-- `Shanten.calculate_shanten_for_chiitoitsu_hand` from `shanten.py`:

    pairs = len([x for x in tiles_34 if x >= 2])
    if pairs == 7: return Shanten.AGARI_STATE
    kinds = len([x for x in tiles_34 if x >= 1])
    return 6 - pairs + (7 - kinds if kinds < 7 else 0)
-/
def calculate_shanten_for_chiitoitsu_hand (tiles_34 : List Int) : Int :=
  let pairs := (tiles_34.filter (fun x => decide (2 ≤ x))).length
  if pairs = 7 then AGARI_STATE
  else
    let kinds := (tiles_34.filter (fun x => decide (1 ≤ x))).length
    6 - (pairs : Int) + (if kinds < 7 then 7 - (kinds : Int) else 0)

/-- The chiitoitsu formula as the spec words it: with
`P = |{t : count[t] >= 2}|` and `K = |{t : count[t] >= 1}|`, return `-1`
if `P = 7` and `6 - P + max(0, 7 - K)` otherwise. -/
def chiitoitsu_spec_formula (tiles_34 : List Int) : Int :=
  let P := (tiles_34.filter (fun x => decide (2 ≤ x))).length
  let K := (tiles_34.filter (fun x => decide (1 ≤ x))).length
  if P = 7 then -1 else 6 - (P : Int) + max 0 (7 - (K : Int))

/-- `Shanten.calculate_shanten_for_kokushi_hand` from `shanten.py`.  The loop

    for i in TERMINAL_AND_HONOR_INDICES:
        completed_terminals += tiles_34[i] >= 2
        terminals += tiles_34[i] != 0

sums boolean contributions over a frozenset (iteration order is irrelevant
to a sum), so both accumulators are counts over the 13 indices.  Note the
code counts `terminals` with `!= 0`, not `>= 1`. -/
def calculate_shanten_for_kokushi_hand (tiles_34 : List Int) : Int :=
  let completed_terminals :=
    (TERMINAL_AND_HONOR_INDICES.filter (fun i => decide (2 ≤ tiles_34.getD i 0))).length
  let terminals :=
    (TERMINAL_AND_HONOR_INDICES.filter (fun i => decide (tiles_34.getD i 0 ≠ 0))).length
  13 - (terminals : Int) - (if completed_terminals ≠ 0 then 1 else 0)

/-- The kokushi formula as the spec words it: over the 13 terminal-and-honor
types, with `T` the number with count ≥ 1 and `D` the number with count ≥ 2,
return `13 - T - (1 if D >= 1 else 0)`. -/
def kokushi_spec_formula (tiles_34 : List Int) : Int :=
  let T := (TERMINAL_AND_HONOR_INDICES.filter (fun i => decide (1 ≤ tiles_34.getD i 0))).length
  let D := (TERMINAL_AND_HONOR_INDICES.filter (fun i => decide (2 ≤ tiles_34.getD i 0))).length
  13 - (T : Int) - (if 1 ≤ D then 1 else 0)

/-! ## shanten.py — the regular-hand solver `_RegularShanten`

The Python class keeps a mutable list `self._tiles` plus integer counters and
two bit flags, and `_run` mutates them destructively, undoing every mutation
after the recursive call returns.  The embedding threads the whole state
explicitly: `RState` holds the count array as a `List Int` (the Python list
has length 34 and is only ever indexed at `0..33`), and
each `_increase_* / _decrease_*` method becomes a pure function
`RState → Nat → RState`.
-/

/-- The mutable state of `_RegularShanten`. -/
structure RState where
  tiles : List Int
  number_melds : Int
  number_tatsu : Int
  number_pairs : Int
  number_jidahai : Int
  flag_four_copies : Nat
  flag_isolated_tiles : Nat
  min_shanten : Int

/-- `self._tiles[k] += d` on the count array (every index the solver writes
is below the list's length, 34). -/
def modifyTile (tiles : List Int) (k : Nat) (d : Int) : List Int :=
  tiles.set k (tiles.getD k 0 + d)

/-- Python `flag & ~(1 << k)`.  Every flag value in the solver is below
`2 ^ 28` (bits are only ever set at positions `0..27`), and every cleared
position satisfies `k < 28`, so masking with the 28-bit complement of
`1 <<< k` computes the same value as Python's infinite-width `& ~`. -/
def clear_bit (f : Nat) (k : Nat) : Nat :=
  f &&& (((1 <<< 28) - 1) ^^^ (1 <<< k))

/-- `_increase_set`. -/
def increase_set (s : RState) (k : Nat) : RState :=
  { s with tiles := modifyTile s.tiles k (-3), number_melds := s.number_melds + 1 }

/-- `_decrease_set`. -/
def decrease_set (s : RState) (k : Nat) : RState :=
  { s with tiles := modifyTile s.tiles k 3, number_melds := s.number_melds - 1 }

/-- `_increase_pair`. -/
def increase_pair (s : RState) (k : Nat) : RState :=
  { s with tiles := modifyTile s.tiles k (-2), number_pairs := s.number_pairs + 1 }

/-- `_decrease_pair`. -/
def decrease_pair (s : RState) (k : Nat) : RState :=
  { s with tiles := modifyTile s.tiles k 2, number_pairs := s.number_pairs - 1 }

/-- `_increase_syuntsu`. -/
def increase_syuntsu (s : RState) (k : Nat) : RState :=
  { s with
    tiles := modifyTile (modifyTile (modifyTile s.tiles k (-1)) (k + 1) (-1)) (k + 2) (-1),
    number_melds := s.number_melds + 1 }

/-- `_decrease_syuntsu`. -/
def decrease_syuntsu (s : RState) (k : Nat) : RState :=
  { s with
    tiles := modifyTile (modifyTile (modifyTile s.tiles k 1) (k + 1) 1) (k + 2) 1,
    number_melds := s.number_melds - 1 }

/-- `_increase_tatsu_first`. -/
def increase_tatsu_first (s : RState) (k : Nat) : RState :=
  { s with
    tiles := modifyTile (modifyTile s.tiles k (-1)) (k + 1) (-1),
    number_tatsu := s.number_tatsu + 1 }

/-- `_decrease_tatsu_first`. -/
def decrease_tatsu_first (s : RState) (k : Nat) : RState :=
  { s with
    tiles := modifyTile (modifyTile s.tiles k 1) (k + 1) 1,
    number_tatsu := s.number_tatsu - 1 }

/-- `_increase_tatsu_second`. -/
def increase_tatsu_second (s : RState) (k : Nat) : RState :=
  { s with
    tiles := modifyTile (modifyTile s.tiles k (-1)) (k + 2) (-1),
    number_tatsu := s.number_tatsu + 1 }

/-- `_decrease_tatsu_second`. -/
def decrease_tatsu_second (s : RState) (k : Nat) : RState :=
  { s with
    tiles := modifyTile (modifyTile s.tiles k 1) (k + 2) 1,
    number_tatsu := s.number_tatsu - 1 }

/-- `_increase_isolated_tile`. -/
def increase_isolated_tile (s : RState) (k : Nat) : RState :=
  { s with
    tiles := modifyTile s.tiles k (-1),
    flag_isolated_tiles := s.flag_isolated_tiles ||| (1 <<< k) }

/-- `_decrease_isolated_tile`. -/
def decrease_isolated_tile (s : RState) (k : Nat) : RState :=
  { s with
    tiles := modifyTile s.tiles k 1,
    flag_isolated_tiles := clear_bit s.flag_isolated_tiles k }

/-- `_update_result`, step by step:

    ret_shanten = 8 - number_melds * 2 - number_tatsu - number_pairs
    n_mentsu_kouho = number_melds + number_tatsu
    if number_pairs: n_mentsu_kouho += number_pairs - 1
    elif flag_four_copies and flag_isolated_tiles and
         (flag_four_copies | flag_isolated_tiles) == flag_four_copies:
        ret_shanten += 1
    if n_mentsu_kouho > 4: ret_shanten += n_mentsu_kouho - 4
    if ret_shanten != AGARI_STATE and ret_shanten < number_jidahai:
        ret_shanten = number_jidahai
    min_shanten = min(min_shanten, ret_shanten)
-/
def update_result (s : RState) : RState :=
  let ret1 : Int := 8 - s.number_melds * 2 - s.number_tatsu - s.number_pairs
  let n1 : Int := s.number_melds + s.number_tatsu
  let n2 : Int := if s.number_pairs ≠ 0 then n1 + s.number_pairs - 1 else n1
  let ret2 : Int :=
    if s.number_pairs ≠ 0 then ret1
    else if s.flag_four_copies ≠ 0 ∧ s.flag_isolated_tiles ≠ 0 ∧
        (s.flag_four_copies ||| s.flag_isolated_tiles) = s.flag_four_copies then
      ret1 + 1
    else ret1
  let ret3 : Int := if 4 < n2 then ret2 + (n2 - 4) else ret2
  let ret4 : Int :=
    if ret3 ≠ AGARI_STATE ∧ ret3 < s.number_jidahai then s.number_jidahai else ret3
  { s with min_shanten := min s.min_shanten ret4 }

/-- The depth-advancing loop at the top of `_run`:

    while not self._tiles[depth]:
        depth += 1
        if depth >= 27: break

Python leaves `depth` at `28` when it enters the loop at `depth = 27`; the
model returns `27` in that case.  Both are `≥ 27` and the value itself is
not used further, so the difference is unobservable. -/
def advance_depth_fuel : Nat → List Int → Nat → Nat
  | 0, _, depth => depth
  | n + 1, tiles, depth =>
    if 27 ≤ depth then depth
    else if tiles.getD depth 0 ≠ 0 then depth
    else advance_depth_fuel n tiles (depth + 1)

/-- The loop advances `depth` at most `27 - depth` times, so a fuel of 28
is never exhausted; structural recursion on the fuel keeps the definition
kernel-reducible. -/
def advance_depth (tiles : List Int) (depth : Nat) : Nat :=
  advance_depth_fuel 28 tiles depth

/-- Recursion fuel for `run`.  Along any chain of nested `_run` calls the
pair `(depth, value of tiles[depth])` evolves so that either `depth`
strictly increases (it never exceeds 27) or `depth` stays and
`tiles[depth]`, which lies in `{1, 2, 3, 4}` whenever a branch fires,
strictly decreases; hence no chain of nested calls is longer than
`28 * 5 = 140` and a fuel of 256 is never exhausted. -/
def RUN_FUEL : Nat := 256

/-- The recurring exploration block of `_run`

    if i < 7 and self._tiles[depth + 2]:
        if self._tiles[depth + 1]:
            self._increase_syuntsu(depth); self._run(dsy); self._decrease_syuntsu(depth)
        self._increase_tatsu_second(depth); self._run(depth + 1); self._decrease_tatsu_second(depth)

where `go` is the recursive call and `dsy` is the depth passed to the
recursion after taking the syuntsu (`depth + 1` everywhere except the
pair side of the count-4 block, which re-enters at the same depth). -/
def chi_block (go : RState → Nat → RState) (depth i dsy : Nat) (s : RState) : RState :=
  if i < 7 ∧ s.tiles.getD (depth + 2) 0 ≠ 0 then
    decrease_tatsu_second
      (go (increase_tatsu_second
          (if s.tiles.getD (depth + 1) 0 ≠ 0 then
            decrease_syuntsu (go (increase_syuntsu s depth) dsy) depth
          else s)
          depth)
        (depth + 1)) depth
  else s

/-- The `if i < 8 and tiles[depth + 1]` tatsu block of `_run`. -/
def tatsu_first_block (go : RState → Nat → RState) (depth i : Nat) (s : RState) : RState :=
  if i < 8 ∧ s.tiles.getD (depth + 1) 0 ≠ 0 then
    decrease_tatsu_first (go (increase_tatsu_first s depth) (depth + 1)) depth
  else s

/-- The `if i < 7 and tiles[depth + 2]` tatsu block inside the count-3
pair arm of `_run`. -/
def tatsu_second_block (go : RState → Nat → RState) (depth i : Nat) (s : RState) : RState :=
  if i < 7 ∧ s.tiles.getD (depth + 2) 0 ≠ 0 then
    decrease_tatsu_second (go (increase_tatsu_second s depth) (depth + 1)) depth
  else s

/-- The isolated-tile block of `_run`: mark, recurse at `depth + 1`,
unmark. -/
def iso_block (go : RState → Nat → RState) (depth : Nat) (s : RState) : RState :=
  decrease_isolated_tile (go (increase_isolated_tile s depth) (depth + 1)) depth

/-- The pair arm of the count-3 block of `_run`: a full chi if both
neighbours are present, otherwise the two optional tatsu blocks. -/
def three_pair_block (go : RState → Nat → RState) (depth i : Nat) (s : RState) : RState :=
  if i < 7 ∧ s.tiles.getD (depth + 1) 0 ≠ 0 ∧ s.tiles.getD (depth + 2) 0 ≠ 0 then
    decrease_syuntsu (go (increase_syuntsu s depth) (depth + 1)) depth
  else
    tatsu_first_block go depth i (tatsu_second_block go depth i s)

/-- The two-concurrent-chi arm at the end of the count-3 block of `_run`;
it re-enters the recursion at the same depth. -/
def double_chi_block (go : RState → Nat → RState) (depth i : Nat) (s : RState) : RState :=
  if i < 7 ∧ 2 ≤ s.tiles.getD (depth + 2) 0 ∧ 2 ≤ s.tiles.getD (depth + 1) 0 then
    decrease_syuntsu
      (decrease_syuntsu
        (go (increase_syuntsu (increase_syuntsu s depth) depth) depth) depth) depth
  else s

/-- The single-chi arm of the count-2 block of `_run`; it re-enters the
recursion at the same depth. -/
def two_chi_block (go : RState → Nat → RState) (depth i : Nat) (s : RState) : RState :=
  if i < 7 ∧ s.tiles.getD (depth + 2) 0 ≠ 0 ∧ s.tiles.getD (depth + 1) 0 ≠ 0 then
    decrease_syuntsu (go (increase_syuntsu s depth) depth) depth
  else s

/-- The `tiles[depth] == 4` block of `_run` (Python lines 195-231): the
blocks are applied to the state in exactly Python's statement order —
triplet, chi/tatsu exploration, isolated single, then undo the triplet,
take the pair, explore again, undo the pair. -/
def branch_four (go : RState → Nat → RState) (s0 : RState) (depth i : Nat) : RState :=
  decrease_pair
    (tatsu_first_block go depth i
      (chi_block go depth i depth
        (increase_pair
          (decrease_set
            (iso_block go depth
              (tatsu_first_block go depth i
                (chi_block go depth i (depth + 1) (increase_set s0 depth))))
            depth) depth)))
    depth

/-- The `tiles[depth] == 3` block of `_run` (Python lines 233-261). -/
def branch_three (go : RState → Nat → RState) (s0 : RState) (depth i : Nat) : RState :=
  double_chi_block go depth i
    (decrease_pair
      (three_pair_block go depth i
        (increase_pair
          (decrease_set (go (increase_set s0 depth) (depth + 1)) depth) depth))
      depth)

/-- The `tiles[depth] == 2` block of `_run` (Python lines 263-270). -/
def branch_two (go : RState → Nat → RState) (s0 : RState) (depth i : Nat) : RState :=
  two_chi_block go depth i
    (decrease_pair (go (increase_pair s0 depth) (depth + 1)) depth)

/-- The `tiles[depth] == 1` block of `_run` (Python lines 272-294). -/
def branch_one (go : RState → Nat → RState) (s0 : RState) (depth i : Nat) : RState :=
  if i < 6 ∧ s0.tiles.getD (depth + 1) 0 = 1 ∧ s0.tiles.getD (depth + 2) 0 ≠ 0 ∧
      s0.tiles.getD (depth + 3) 0 ≠ 4 then
    decrease_syuntsu (go (increase_syuntsu s0 depth) (depth + 2)) depth
  else
    tatsu_first_block go depth i
      (chi_block go depth i (depth + 1) (iso_block go depth s0))

/-- `_run` from `shanten.py`.  The recursion is driven by fuel (see
`RUN_FUEL`).  Python re-reads `self._tiles[depth]` for the four `if`
blocks, but each block restores `tiles[depth]` before it ends, so
dispatching once on the entry value `v` is equivalent. -/
def run : Nat → RState → Nat → RState
  | 0, s0, _ => s0
  | fuel + 1, s0, depth0 =>
    if s0.min_shanten = AGARI_STATE then s0
    else
      let depth := advance_depth s0.tiles depth0
      if 27 ≤ depth then update_result s0
      else
        -- i = depth; if i > 8: i -= 9; if i > 8: i -= 9
        let i0 := depth
        let i1 := if 8 < i0 then i0 - 9 else i0
        let i := if 8 < i1 then i1 - 9 else i1
        let v := s0.tiles.getD depth 0
        if v = 4 then branch_four (run fuel) s0 depth i
        else if v = 3 then branch_three (run fuel) s0 depth i
        else if v = 2 then branch_two (run fuel) s0 depth i
        else if v = 1 then branch_one (run fuel) s0 depth i
        else s0

/-- `_remove_character_tiles` — the per-honor-type accumulation step.  The
accumulator is `(number_melds, number_pairs, number_jidahai, four_copies,
isolated)`; `b` is the bit index `i - 27`. -/
def honor_step (tiles : List Int) (acc : Int × Int × Int × Nat × Nat) (b : Nat) :
    Int × Int × Int × Nat × Nat :=
  let m := acc.1
  let p := acc.2.1
  let j := acc.2.2.1
  let fc := acc.2.2.2.1
  let iso := acc.2.2.2.2
  let c := tiles.getD (27 + b) 0
  let m := if c = 4 then m + 1 else m
  let j := if c = 4 then j + 1 else j
  let fc := if c = 4 then fc ||| (1 <<< b) else fc
  let iso := if c = 4 then iso ||| (1 <<< b) else iso
  let m := if c = 3 then m + 1 else m
  let p := if c = 2 then p + 1 else p
  let iso := if c = 1 then iso ||| (1 <<< b) else iso
  (m, p, j, fc, iso)

/-- `_remove_character_tiles` from `shanten.py`: the loop over honor types
(the local masks use bit indices `i - 27`), followed by the `jidahai`
correction and the honor summary bits. -/
def remove_character_tiles (s : RState) (nc : Int) : RState :=
  let acc := [0, 1, 2, 3, 4, 5, 6].foldl (honor_step s.tiles)
    (s.number_melds, s.number_pairs, s.number_jidahai, 0, 0)
  let m := acc.1
  let p := acc.2.1
  let j := acc.2.2.1
  let four_copies := acc.2.2.2.1
  let isolated := acc.2.2.2.2
  let j := if j ≠ 0 ∧ nc % 3 = 2 then j - 1 else j
  let fi := if isolated ≠ 0 then s.flag_isolated_tiles ||| (1 <<< 27) else s.flag_isolated_tiles
  let ff := if isolated ≠ 0 ∧ (four_copies ||| isolated) = four_copies then
      s.flag_four_copies ||| (1 <<< 27)
    else s.flag_four_copies
  { s with number_melds := m, number_pairs := p, number_jidahai := j,
           flag_isolated_tiles := fi, flag_four_copies := ff }

/-- `_scan`: set the suited four-copy bits (`(tiles[i] == 4) << i` ORed in
is the identity when the count is not 4), add `init_mentsu` to
`number_melds`, and start the recursion at depth 0. -/
def scan (s : RState) (init_mentsu : Int) : RState :=
  let ff := (List.range 27).foldl
    (fun f i => if s.tiles.getD i 0 = 4 then f ||| (1 <<< i) else f) s.flag_four_copies
  run RUN_FUEL
    { s with flag_four_copies := ff, number_melds := s.number_melds + init_mentsu } 0

/-- `_RegularShanten.__init__`: the solver copies the caller's array
(`self._tiles = list(tiles_34)`) and zeroes every counter;
`_min_shanten` starts at the sentinel 8. -/
def initState (tiles_34 : List Int) : RState :=
  { tiles := tiles_34
    number_melds := 0
    number_tatsu := 0
    number_pairs := 0
    number_jidahai := 0
    flag_four_copies := 0
    flag_isolated_tiles := 0
    min_shanten := 8 }

/-- The state of the solver when `_RegularShanten.calculate` returns,
on the non-raising path (`sum <= 14`). -/
def regular_final_state (tiles_34 : List Int) : RState :=
  let count_of_tiles := tiles_34.sum
  let s := remove_character_tiles (initState tiles_34) count_of_tiles
  let init_mentsu := (14 - count_of_tiles) / 3
  scan s init_mentsu

/-- `_RegularShanten.calculate`: raise `ValueError` (Python message
`"Too many tiles = {n}"`) when the tile count exceeds 14, otherwise run the
search and return `_min_shanten`.  `(14 - count) // 3` is floor division;
both operands are non-negative on this path, so Lean's `Int` division
agrees with Python's. -/
def calculate (tiles_34 : List Int) : Except String Int :=
  let count_of_tiles := tiles_34.sum
  if 14 < count_of_tiles then Except.error "Too many tiles"
  else Except.ok (regular_final_state tiles_34).min_shanten

/-- `Shanten.calculate_shanten_for_regular_hand`. -/
def calculate_shanten_for_regular_hand (tiles_34 : List Int) : Except String Int :=
  calculate tiles_34

/-- `Shanten.calculate_shanten`: collect the regular result, then the
chiitoitsu and kokushi results per the flags, and return the minimum.
A `ValueError` raised by the regular solver propagates. -/
def calculate_shanten (tiles_34 : List Int)
    (use_chiitoitsu : Bool := true) (use_kokushi : Bool := true) : Except String Int := do
  let r ← calculate_shanten_for_regular_hand tiles_34
  let rest :=
    (if use_chiitoitsu then [calculate_shanten_for_chiitoitsu_hand tiles_34] else []) ++
    (if use_kokushi then [calculate_shanten_for_kokushi_hand tiles_34] else [])
  return rest.foldl min r


/-! ### `tile.py`: the mpsz-string codec

Python strings are modeled as `List Char`; an optional per-suit string is
`Option (List Char)` (`none` models Python `None`).  `int(ch)` on a single
character succeeds exactly on the (ASCII) digits and raises `ValueError`
otherwise, which we model as `Except String Int`. -/

def char_to_int (c : Char) : Except String Int :=
  if 48 ≤ c.toNat ∧ c.toNat ≤ 57 then Except.ok ((c.toNat : Int) - 48)
  else Except.error "invalid literal for int"

/-- Python `str(n)` for an integer. -/
def intStr (n : Int) : List Char :=
  if n < 0 then '-' :: Nat.toDigits 10 n.natAbs else Nat.toDigits 10 n.toNat

/-- The local helper `words` of `to_one_line_string`: render one suit's
sub-list (already offset-normalized) followed by the suit letter.  A tile
equal to `red_five` is rendered `0` when `print_aka_dora` is set. -/
def render_words (suits : List Int) (red_five : Int) (print_aka_dora : Bool)
    (suffix : Char) : List Char :=
  if suits = [] then []
  else (suits.map (fun i =>
    if i = red_five ∧ print_aka_dora then ['0'] else intStr (i / 4 + 1))).flatten ++ [suffix]

/-- `TilesConverter.to_one_line_string`: sort, partition into the four
suits (subtracting the suit base from all but man), and render each suit. -/
def to_one_line_string (tiles : List Int) (print_aka_dora : Bool) : List Char :=
  let sorted := List.insertionSort (fun a b => a ≤ b) tiles
  let man := sorted.filter (fun t => decide (t < 36))
  let pin := (sorted.filter (fun t => decide (36 ≤ t ∧ t < 72))).map (fun t => t - 36)
  let sou := (sorted.filter (fun t => decide (72 ≤ t ∧ t < 108))).map (fun t => t - 72)
  let honors := (sorted.filter (fun t => decide (108 ≤ t))).map (fun t => t - 108)
  render_words man FIVE_RED_MAN print_aka_dora 'm' ++
    render_words pin (FIVE_RED_PIN - 36) print_aka_dora 'p' ++
    render_words sou (FIVE_RED_SOU - 72) print_aka_dora 's' ++
    render_words honors (-1 - 108) print_aka_dora 'z'

/-- The tile id computed for one digit in `_split_string`: `offset +
(int(ch) - 1) * 4`, bumped off the aka id when aka support is present. -/
def split_tile (offset : Int) (red : Option Int) (d : Int) : Int :=
  let tile0 := offset + (d - 1) * 4
  if red ≠ none ∧ tile0 = red.getD 0 then tile0 + 1 else tile0

/-- The character loop of `TilesConverter._split_string`.  The Python
`Counter` is modeled as a function `Int → Int` (missing keys read 0). -/
def split_string_go (offset : Int) (red : Option Int) :
    List Char → (Int → Int) → Except String (List Int)
  | [], _ => Except.ok []
  | c :: cs, counts =>
    if (c = 'r' ∨ c = '0') ∧ red ≠ none then
      Except.map (fun rest => red.getD 0 :: rest) (split_string_go offset red cs counts)
    else
      match char_to_int c with
      | Except.error e => Except.error e
      | Except.ok d =>
        Except.map
          (fun rest => (split_tile offset red d + counts (split_tile offset red d)) :: rest)
          (split_string_go offset red cs
            (fun k => if k = split_tile offset red d then counts k + 1 else counts k))

/-- `TilesConverter._split_string` (`None` and the empty string return `[]`). -/
def split_string (s : Option (List Char)) (offset : Int) (red : Option Int) :
    Except String (List Int) :=
  match s with
  | none => Except.ok []
  | some cs => if cs = [] then Except.ok [] else split_string_go offset red cs (fun _ => 0)

/-- `TilesConverter.string_to_136_array`. -/
def string_to_136_array (sou pin man honors : Option (List Char))
    (has_aka_dora : Bool) : Except String (List Int) := do
  let rm ← split_string man 0 (if has_aka_dora then some FIVE_RED_MAN else none)
  let rp ← split_string pin 36 (if has_aka_dora then some FIVE_RED_PIN else none)
  let rs ← split_string sou 72 (if has_aka_dora then some FIVE_RED_SOU else none)
  let rh ← split_string honors 108 none
  return rm ++ rp ++ rs ++ rh

/-- The splitting loop of `one_line_string_to_136_array`.  The accumulator
component `pending` plays the role of `string[split_start:index]`: it holds
exactly the characters seen since the last suit letter, and a suit letter
flushes it into that suit's collected string. -/
def one_line_split_step (st : List Char × List Char × List Char × List Char × List Char)
    (c : Char) : List Char × List Char × List Char × List Char × List Char :=
  let (sou, pin, man, honors, pending) := st
  if c = 'm' then (sou, pin, man ++ pending, honors, [])
  else if c = 'p' then (sou, pin ++ pending, man, honors, [])
  else if c = 's' then (sou ++ pending, pin, man, honors, [])
  else if c = 'z' ∨ c = 'h' then (sou, pin, man, honors ++ pending, [])
  else (sou, pin, man, honors, pending ++ [c])

def one_line_split (s : List Char) : List Char × List Char × List Char × List Char :=
  let r := s.foldl one_line_split_step ([], [], [], [], [])
  (r.1, r.2.1, r.2.2.1, r.2.2.2.1)

/-- `TilesConverter.one_line_string_to_136_array`. -/
def one_line_string_to_136_array (s : List Char) (has_aka_dora : Bool) :
    Except String (List Int) :=
  let r := one_line_split s
  string_to_136_array (some r.1) (some r.2.1) (some r.2.2.1) (some r.2.2.2) has_aka_dora

/-! ### `utils.py`: dora counting -/

/-- `is_aka_dora`. -/
def is_aka_dora (tile_136 : Int) (aka_enabled : Bool) : Bool :=
  if ¬aka_enabled then false else decide (tile_136 ∈ AKA_DORAS)

/-- One iteration of the indicator loop in `plus_dora`. -/
def plus_dora_step (tile_index : Int) (dora_count : Int) (dora_indicator : Int) : Int :=
  let dora := dora_indicator / 4
  if tile_index < EAST then
    let dora := if dora = 8 then -1 else if dora = 17 then 8
      else if dora = 26 then 17 else dora
    if tile_index = dora + 1 then dora_count + 1 else dora_count
  else
    if dora < EAST then dora_count
    else
      let dora := dora - 9 * 3
      let tile_index_temp := tile_index - 9 * 3
      let dora := if dora = 3 then -1 else dora
      let dora := if dora = 6 then 3 else dora
      if tile_index_temp = dora + 1 then dora_count + 1 else dora_count

/-- `plus_dora`. -/
def plus_dora (tile_136 : Int) (dora_indicators_136 : List Int)
    (add_aka_dora : Bool) : Int :=
  let tile_index := tile_136 / 4
  let dora_count : Int := if add_aka_dora ∧ is_aka_dora tile_136 true then 1 else 0
  dora_indicators_136.foldl (plus_dora_step tile_index) dora_count

/-- `_indicator_to_dora_34` (the leading underscore is dropped). -/
def indicator_to_dora_34 (indicator_34 : Int) : Int :=
  if indicator_34 < EAST then
    let suit_base := (indicator_34 / 9) * 9
    suit_base + (indicator_34 - suit_base + 1) % 9
  else if indicator_34 ≤ NORTH then
    EAST + (indicator_34 - EAST + 1) % 4
  else
    HAKU + (indicator_34 - HAKU + 1) % 3

/-- A Python `dict[int, int]` is modeled as an insertion-ordered
association list; assignment replaces in place or appends at the end. -/
def dict_set : List (Int × Int) → Int → Int → List (Int × Int)
  | [], k, v => [(k, v)]
  | kv :: rest, k, v => if kv.1 = k then (k, v) :: rest else kv :: dict_set rest k v

/-- `dict.get(k, dflt)`. -/
def dict_get : List (Int × Int) → Int → Int → Int
  | [], _, dflt => dflt
  | kv :: rest, k, dflt => if kv.1 = k then kv.2 else dict_get rest k dflt

/-- `build_dora_count_map`. -/
def build_dora_count_map (dora_indicators_136 : List Int) : List (Int × Int) :=
  dora_indicators_136.foldl
    (fun m indicator =>
      let dora_34 := indicator_to_dora_34 (indicator / 4)
      dict_set m dora_34 (dict_get m dora_34 0 + 1))
    []

/-- `count_dora_for_hand` (iteration over `dict.items()`). -/
def count_dora_for_hand (tiles_34 : List Int) (dora_count_map : List (Int × Int)) : Int :=
  dora_count_map.foldl
    (fun total kv => total + tiles_34.getD kv.1.toNat 0 * kv.2) 0


/-! ### Definitions used by the verification below -/

/-! ## The restoration invariant -/

/-- `t` is `s` with every solver mutation undone; only `min_shanten`
may have decreased. -/
def Restores (s t : RState) : Prop :=
  t.tiles = s.tiles ∧ t.number_melds = s.number_melds ∧
  t.number_tatsu = s.number_tatsu ∧ t.number_pairs = s.number_pairs ∧
  t.number_jidahai = s.number_jidahai ∧ t.flag_four_copies = s.flag_four_copies ∧
  t.flag_isolated_tiles = s.flag_isolated_tiles ∧ t.min_shanten ≤ s.min_shanten

/-- At entry to `_run` at depth `d` the isolation mask has no bit set at a
suited position `≥ d` (ancestor frames only mark their own, strictly
smaller, depths) and is a 28-bit value. -/
def IsoOK (d : Nat) (s : RState) : Prop :=
  s.flag_isolated_tiles < 2 ^ 28 ∧
  ∀ k, d ≤ k → k < 27 → s.flag_isolated_tiles.testBit k = false


/-! ## The counting invariant behind `-1 <= min_shanten` -/

/-- Sum of the suited portion (indices `0..26`) of the count array. -/
def suitedSum (t : List Int) : Int := ∑ i in Finset.range 27, t.getD i 0

/-- The invariant maintained by the search: the array keeps length 34 and
non-negative entries, decompositions never claim more than the 14-tile
budget (each meld accounts for 3 tiles, each tatsu or pair for 2), the
counters stay non-negative, `jidahai` stays within the 7 honor types, and
`min_shanten` never drops below the agari sentinel. -/
def SearchInv (s : RState) : Prop :=
  s.tiles.length = 34 ∧ (∀ i, 0 ≤ s.tiles.getD i 0) ∧
  3 * s.number_melds + 2 * s.number_tatsu + 2 * s.number_pairs + suitedSum s.tiles ≤ 14 ∧
  0 ≤ s.number_melds ∧ 0 ≤ s.number_tatsu ∧ 0 ≤ s.number_pairs ∧
  0 ≤ s.number_jidahai ∧ s.number_jidahai ≤ 7 ∧ -1 ≤ s.min_shanten


/-- Characters the codec always accepts as tile data: ASCII digits. -/
def DigitOnly (l : List Char) : Prop := ∀ c ∈ l, 48 ≤ c.toNat ∧ c.toNat ≤ 57


/-- The characters accepted by `one_line_string_to_136_array` overall:
digits plus the suit letters. -/
def CodecChar (c : Char) : Prop :=
  (48 ≤ c.toNat ∧ c.toNat ≤ 57) ∨ c = 'm' ∨ c = 'p' ∨ c = 's' ∨ c = 'z' ∨ c = 'h'

instance (c : Char) : Decidable (CodecChar c) :=
  decidable_of_iff
    ((48 ≤ c.toNat ∧ c.toNat ≤ 57) ∨ c = 'm' ∨ c = 'p' ∨ c = 's' ∨ c = 'z' ∨ c = 'h')
    Iff.rfl


/-- The 34-type that parsing assigns to one rendered character of a suit
with base id `Off`: `0` is the suit's red five (type `Off/4 + 4`), a digit
`d` is rank `d` (type `Off/4 + d - 1`). -/
def typeOfChar (Off : Int) (c : Char) : Int :=
  if c = '0' then Off / 4 + 4 else Off / 4 + ((c.toNat : Int) - 48) - 1


/-- The character `to_one_line_string` prints for one (suit-normalized)
id: `0` for the padded red five, else the rank digit. -/
def renderChar (red_five : Int) (pad : Bool) (j : Int) : Char :=
  if j = red_five ∧ pad then '0' else Char.ofNat (48 + (j / 4 + 1).toNat)


/-- A character that none of the four splitter branches recognizes. -/
def NotLetter (c : Char) : Prop :=
  ¬(c = 'm') ∧ ¬(c = 'p') ∧ ¬(c = 's') ∧ ¬(c = 'z' ∨ c = 'h')



/-! ## Theorems -/

/-- C3: for every 34-count array, the chiitoitsu solver returns `-1` when
`P = 7` and `6 - P + max(0, 7 - K)` otherwise, where `P` counts tile types
with at least two copies and `K` counts types with at least one copy. -/
theorem C3_chiitoitsu_formula (tiles_34 : List Int) :
    calculate_shanten_for_chiitoitsu_hand tiles_34 = chiitoitsu_spec_formula tiles_34 := by
  unfold calculate_shanten_for_chiitoitsu_hand chiitoitsu_spec_formula AGARI_STATE
  by_cases h : (tiles_34.filter (fun x => decide (2 ≤ x))).length = 7
  · simp [h]
  · simp only [h, if_false]
    by_cases hk : (tiles_34.filter (fun x => decide (1 ≤ x))).length < 7
    · simp only [hk, if_true]
      omega
    · simp only [hk, if_false]
      omega

/-- C4: for every 34-count array (entries non-negative), the kokushi solver
returns `13 - T - (1 if D ≥ 1 else 0)` with `T` the number of the 13
terminal-and-honor types present and `D` the number of those types with at
least two copies; in particular the result is `-1` exactly when all 13 types
are present and at least one appears twice. -/
theorem C4_kokushi_formula (tiles_34 : List Int)
    (hnn : ∀ x ∈ tiles_34, 0 ≤ x) :
    calculate_shanten_for_kokushi_hand tiles_34 = kokushi_spec_formula tiles_34 ∧
    (calculate_shanten_for_kokushi_hand tiles_34 = -1 ↔
      ((TERMINAL_AND_HONOR_INDICES.filter
          (fun i => decide (1 ≤ tiles_34.getD i 0))).length = 13 ∧
        1 ≤ (TERMINAL_AND_HONOR_INDICES.filter
          (fun i => decide (2 ≤ tiles_34.getD i 0))).length)) := by
  have hget : ∀ i : Nat, 0 ≤ tiles_34.getD i 0 := by
    intro i
    rcases Nat.lt_or_ge i tiles_34.length with h | h
    · rw [List.getD_eq_getElem _ _ h]
      exact hnn _ (tiles_34.getElem_mem h)
    · rw [List.getD_eq_default _ _ h]
  have hcong :
      (TERMINAL_AND_HONOR_INDICES.filter (fun i => decide (tiles_34.getD i 0 ≠ 0))).length =
      (TERMINAL_AND_HONOR_INDICES.filter (fun i => decide (1 ≤ tiles_34.getD i 0))).length := by
    congr 1
    apply List.filter_congr
    intro i _
    have := hget i
    simp only [decide_eq_decide]
    omega
  have hT13 :
      (TERMINAL_AND_HONOR_INDICES.filter (fun i => decide (1 ≤ tiles_34.getD i 0))).length ≤ 13 := by
    have := List.length_filter_le (fun i => decide (1 ≤ tiles_34.getD i 0)) TERMINAL_AND_HONOR_INDICES
    simpa [TERMINAL_AND_HONOR_INDICES] using this
  constructor
  · unfold calculate_shanten_for_kokushi_hand kokushi_spec_formula
    rw [hcong]
    have hiff : ((TERMINAL_AND_HONOR_INDICES.filter
        (fun i => decide (2 ≤ tiles_34.getD i 0))).length ≠ 0) ↔
        (1 ≤ (TERMINAL_AND_HONOR_INDICES.filter
        (fun i => decide (2 ≤ tiles_34.getD i 0))).length) := by
      omega
    simp only [hiff]
  · unfold calculate_shanten_for_kokushi_hand
    rw [hcong]
    by_cases hD : (TERMINAL_AND_HONOR_INDICES.filter (fun i => decide (2 ≤ tiles_34.getD i 0))).length = 0
    · simp only [hD, ne_eq, not_true_eq_false, if_neg, if_false]
      constructor
      · intro h
        exfalso
        omega
      · intro ⟨_, h2⟩
        omega
    · have h1 : 1 ≤ (TERMINAL_AND_HONOR_INDICES.filter (fun i => decide (2 ≤ tiles_34.getD i 0))).length := by omega
      simp only [ne_eq, hD, not_false_eq_true, if_true]
      constructor
      · intro h
        constructor
        · omega
        · exact h1
      · intro ⟨hT, _⟩
        rw [hT]
        norm_num

/-- Witness for C4 at a concrete complete kokushi hand: one of each
terminal/honor type with two copies of type 33. -/
theorem C4_kokushi_formula_witness :
    (∀ x ∈ ([1, 0, 0, 0, 0, 0, 0, 0, 1, 1, 0, 0, 0, 0, 0, 0, 0, 1,
             1, 0, 0, 0, 0, 0, 0, 0, 1, 1, 1, 1, 1, 1, 1, 2] : List Int), 0 ≤ x) ∧
    calculate_shanten_for_kokushi_hand
      [1, 0, 0, 0, 0, 0, 0, 0, 1, 1, 0, 0, 0, 0, 0, 0, 0, 1,
       1, 0, 0, 0, 0, 0, 0, 0, 1, 1, 1, 1, 1, 1, 1, 2] = -1 := by
  refine ⟨by decide, ?_⟩
  have h := C4_kokushi_formula
    [1, 0, 0, 0, 0, 0, 0, 0, 1, 1, 0, 0, 0, 0, 0, 0, 0, 1,
     1, 0, 0, 0, 0, 0, 0, 0, 1, 1, 1, 1, 1, 1, 1, 2] (by decide)
  exact h.2.mpr (by decide)


-- appended to a copy of Spec2Proof.lean for development

/-! ## List update algebra -/

theorem getD_set_ne (t : List Int) (k i : Nat) (v : Int) (h : i ≠ k) :
    (t.set k v).getD i 0 = t.getD i 0 := by
  rcases Nat.lt_or_ge i t.length with hi | hi
  · rw [List.getD_eq_getElem _ _ (by simpa using hi), List.getD_eq_getElem _ _ hi,
      List.getElem_set_ne (by omega)]
  · rw [List.getD_eq_default _ _ (by simpa using hi), List.getD_eq_default _ _ hi]

theorem set_getD_self (t : List Int) (k : Nat) :
    t.set k (t.getD k 0) = t := by
  rcases Nat.lt_or_ge k t.length with h | h
  · apply List.ext_getElem (by simp)
    intro i h1 h2
    rw [List.getElem_set]
    split
    · next heq => subst heq; rw [List.getD_eq_getElem _ _ h]
    · rfl
  · rw [List.set_eq_of_length_le h]

@[simp] theorem modifyTile_length (t : List Int) (k : Nat) (d : Int) :
    (modifyTile t k d).length = t.length := by
  simp [modifyTile]

theorem getD_modifyTile_self (t : List Int) (k : Nat) (d : Int) (h : k < t.length) :
    (modifyTile t k d).getD k 0 = t.getD k 0 + d := by
  unfold modifyTile
  rw [List.getD_eq_getElem _ _ (by simpa using h), List.getElem_set_self]

theorem getD_modifyTile_ne (t : List Int) (k i : Nat) (d : Int) (h : i ≠ k) :
    (modifyTile t k d).getD i 0 = t.getD i 0 := getD_set_ne _ _ _ _ h

theorem modifyTile_cancel (t : List Int) (k : Nat) (a b : Int) (hab : a + b = 0) :
    modifyTile (modifyTile t k a) k b = t := by
  unfold modifyTile
  rcases Nat.lt_or_ge k t.length with h | h
  · rw [List.getD_eq_getElem (t.set k (t.getD k 0 + a)) _ (by simpa using h),
      List.getElem_set_self, List.set_set]
    have h2 : t.getD k 0 + a + b = t.getD k 0 := by omega
    rw [h2, set_getD_self]
  · rw [List.set_eq_of_length_le (by simpa using h), List.set_eq_of_length_le h]

theorem modifyTile_comm (t : List Int) (i j : Nat) (a b : Int) (h : i ≠ j) :
    modifyTile (modifyTile t i a) j b = modifyTile (modifyTile t j b) i a := by
  unfold modifyTile
  rw [getD_set_ne _ _ _ _ (Ne.symm h), getD_set_ne _ _ _ _ h,
    List.set_comm _ _ _ h]

theorem modify2_cancel (t : List Int) (i j : Nat) (a b a' b' : Int)
    (hij : i ≠ j) (ha : a + a' = 0) (hb : b + b' = 0) :
    modifyTile (modifyTile (modifyTile (modifyTile t i a) j b) i a') j b' = t := by
  rw [modifyTile_comm _ j i _ _ (Ne.symm hij), modifyTile_cancel _ _ _ _ ha,
    modifyTile_cancel _ _ _ _ hb]

theorem modify3_cancel (t : List Int) (i j k : Nat) (a b c a' b' c' : Int)
    (hij : i ≠ j) (hik : i ≠ k) (hjk : j ≠ k)
    (ha : a + a' = 0) (hb : b + b' = 0) (hc : c + c' = 0) :
    modifyTile (modifyTile (modifyTile
      (modifyTile (modifyTile (modifyTile t i a) j b) k c) i a') j b') k c' = t := by
  rw [modifyTile_comm _ k i _ _ (Ne.symm hik), modifyTile_comm _ j i _ _ (Ne.symm hij),
    modifyTile_cancel _ _ _ _ ha, modifyTile_comm _ k j _ _ (Ne.symm hjk),
    modifyTile_cancel _ _ _ _ hb, modifyTile_cancel _ _ _ _ hc]

/-! ## Bit-flag algebra -/

theorem one_shiftLeft_eq (k : Nat) : (1 <<< k) = 2 ^ k := by
  rw [Nat.shiftLeft_eq, one_mul]

theorem testBit_one_shiftLeft (k j : Nat) : (1 <<< k).testBit j = decide (k = j) := by
  rw [one_shiftLeft_eq]
  rcases eq_or_ne k j with h | h
  · subst h; simp
  · simp [Nat.testBit_two_pow_of_ne h, h]

theorem or_one_shiftLeft_lt (f k : Nat) (hf : f < 2 ^ 28) (hk : k < 28) :
    f ||| (1 <<< k) < 2 ^ 28 := by
  apply Nat.or_lt_two_pow hf
  rw [one_shiftLeft_eq]
  exact Nat.pow_lt_pow_right (by norm_num) hk

theorem testBit_or_one (f k j : Nat) :
    (f ||| (1 <<< k)).testBit j = (f.testBit j || decide (k = j)) := by
  rw [Nat.testBit_or, testBit_one_shiftLeft]

theorem clear_bit_or_self (f k : Nat) (hk : k < 28) (hf : f < 2 ^ 28)
    (hbit : f.testBit k = false) :
    clear_bit (f ||| (1 <<< k)) k = f := by
  apply Nat.eq_of_testBit_eq
  intro j
  unfold clear_bit
  rw [Nat.testBit_and, testBit_or_one, Nat.testBit_xor, testBit_one_shiftLeft]
  have hmask : ((1 <<< 28) - 1 : Nat).testBit j = decide (j < 28) := by
    rw [one_shiftLeft_eq]
    exact Nat.testBit_two_pow_sub_one 28 j
  rw [hmask]
  rcases eq_or_ne k j with h | h
  · subst h
    simp [hbit, hk]
  · simp only [h, decide_False]
    rcases Nat.lt_or_ge j 28 with hj | hj
    · simp [hj]
    · have : f.testBit j = false :=
        Nat.testBit_eq_false_of_lt
          (lt_of_lt_of_le hf (Nat.pow_le_pow_right (by norm_num) hj))
      simp [this, hj]

theorem restores_refl (s : RState) : Restores s s :=
  ⟨rfl, rfl, rfl, rfl, rfl, rfl, rfl, le_refl _⟩

theorem restores_trans {s t u : RState} (h1 : Restores s t) (h2 : Restores t u) :
    Restores s u := by
  obtain ⟨a1, a2, a3, a4, a5, a6, a7, a8⟩ := h1
  obtain ⟨b1, b2, b3, b4, b5, b6, b7, b8⟩ := h2
  exact ⟨b1.trans a1, b2.trans a2, b3.trans a3, b4.trans a4, b5.trans a5,
    b6.trans a6, b7.trans a7, le_trans b8 a8⟩

theorem isoOK_mono {d d' : Nat} (h : d ≤ d') {s : RState} (hs : IsoOK d s) : IsoOK d' s :=
  ⟨hs.1, fun k hk1 hk2 => hs.2 k (le_trans h hk1) hk2⟩

theorem restores_isoOK {s t : RState} (h : Restores s t) {d : Nat} (hs : IsoOK d s) :
    IsoOK d t := by
  obtain ⟨-, -, -, -, -, -, h7, -⟩ := h
  exact ⟨h7 ▸ hs.1, fun k hk1 hk2 => h7 ▸ hs.2 k hk1 hk2⟩


/-! ## Projection lemmas for the solver primitives -/

@[simp] theorem increase_set_tiles (s : RState) (k : Nat) : (increase_set s k).tiles = modifyTile s.tiles k (-3) := rfl
@[simp] theorem increase_set_number_melds (s : RState) (k : Nat) : (increase_set s k).number_melds = s.number_melds + 1 := rfl
@[simp] theorem increase_set_number_tatsu (s : RState) (k : Nat) : (increase_set s k).number_tatsu = s.number_tatsu := rfl
@[simp] theorem increase_set_number_pairs (s : RState) (k : Nat) : (increase_set s k).number_pairs = s.number_pairs := rfl
@[simp] theorem increase_set_number_jidahai (s : RState) (k : Nat) : (increase_set s k).number_jidahai = s.number_jidahai := rfl
@[simp] theorem increase_set_flag_four_copies (s : RState) (k : Nat) : (increase_set s k).flag_four_copies = s.flag_four_copies := rfl
@[simp] theorem increase_set_flag_isolated_tiles (s : RState) (k : Nat) : (increase_set s k).flag_isolated_tiles = s.flag_isolated_tiles := rfl
@[simp] theorem increase_set_min_shanten (s : RState) (k : Nat) : (increase_set s k).min_shanten = s.min_shanten := rfl

@[simp] theorem decrease_set_tiles (s : RState) (k : Nat) : (decrease_set s k).tiles = modifyTile s.tiles k 3 := rfl
@[simp] theorem decrease_set_number_melds (s : RState) (k : Nat) : (decrease_set s k).number_melds = s.number_melds - 1 := rfl
@[simp] theorem decrease_set_number_tatsu (s : RState) (k : Nat) : (decrease_set s k).number_tatsu = s.number_tatsu := rfl
@[simp] theorem decrease_set_number_pairs (s : RState) (k : Nat) : (decrease_set s k).number_pairs = s.number_pairs := rfl
@[simp] theorem decrease_set_number_jidahai (s : RState) (k : Nat) : (decrease_set s k).number_jidahai = s.number_jidahai := rfl
@[simp] theorem decrease_set_flag_four_copies (s : RState) (k : Nat) : (decrease_set s k).flag_four_copies = s.flag_four_copies := rfl
@[simp] theorem decrease_set_flag_isolated_tiles (s : RState) (k : Nat) : (decrease_set s k).flag_isolated_tiles = s.flag_isolated_tiles := rfl
@[simp] theorem decrease_set_min_shanten (s : RState) (k : Nat) : (decrease_set s k).min_shanten = s.min_shanten := rfl

@[simp] theorem increase_pair_tiles (s : RState) (k : Nat) : (increase_pair s k).tiles = modifyTile s.tiles k (-2) := rfl
@[simp] theorem increase_pair_number_melds (s : RState) (k : Nat) : (increase_pair s k).number_melds = s.number_melds := rfl
@[simp] theorem increase_pair_number_tatsu (s : RState) (k : Nat) : (increase_pair s k).number_tatsu = s.number_tatsu := rfl
@[simp] theorem increase_pair_number_pairs (s : RState) (k : Nat) : (increase_pair s k).number_pairs = s.number_pairs + 1 := rfl
@[simp] theorem increase_pair_number_jidahai (s : RState) (k : Nat) : (increase_pair s k).number_jidahai = s.number_jidahai := rfl
@[simp] theorem increase_pair_flag_four_copies (s : RState) (k : Nat) : (increase_pair s k).flag_four_copies = s.flag_four_copies := rfl
@[simp] theorem increase_pair_flag_isolated_tiles (s : RState) (k : Nat) : (increase_pair s k).flag_isolated_tiles = s.flag_isolated_tiles := rfl
@[simp] theorem increase_pair_min_shanten (s : RState) (k : Nat) : (increase_pair s k).min_shanten = s.min_shanten := rfl

@[simp] theorem decrease_pair_tiles (s : RState) (k : Nat) : (decrease_pair s k).tiles = modifyTile s.tiles k 2 := rfl
@[simp] theorem decrease_pair_number_melds (s : RState) (k : Nat) : (decrease_pair s k).number_melds = s.number_melds := rfl
@[simp] theorem decrease_pair_number_tatsu (s : RState) (k : Nat) : (decrease_pair s k).number_tatsu = s.number_tatsu := rfl
@[simp] theorem decrease_pair_number_pairs (s : RState) (k : Nat) : (decrease_pair s k).number_pairs = s.number_pairs - 1 := rfl
@[simp] theorem decrease_pair_number_jidahai (s : RState) (k : Nat) : (decrease_pair s k).number_jidahai = s.number_jidahai := rfl
@[simp] theorem decrease_pair_flag_four_copies (s : RState) (k : Nat) : (decrease_pair s k).flag_four_copies = s.flag_four_copies := rfl
@[simp] theorem decrease_pair_flag_isolated_tiles (s : RState) (k : Nat) : (decrease_pair s k).flag_isolated_tiles = s.flag_isolated_tiles := rfl
@[simp] theorem decrease_pair_min_shanten (s : RState) (k : Nat) : (decrease_pair s k).min_shanten = s.min_shanten := rfl

@[simp] theorem increase_syuntsu_tiles (s : RState) (k : Nat) : (increase_syuntsu s k).tiles = modifyTile (modifyTile (modifyTile s.tiles k (-1)) (k + 1) (-1)) (k + 2) (-1) := rfl
@[simp] theorem increase_syuntsu_number_melds (s : RState) (k : Nat) : (increase_syuntsu s k).number_melds = s.number_melds + 1 := rfl
@[simp] theorem increase_syuntsu_number_tatsu (s : RState) (k : Nat) : (increase_syuntsu s k).number_tatsu = s.number_tatsu := rfl
@[simp] theorem increase_syuntsu_number_pairs (s : RState) (k : Nat) : (increase_syuntsu s k).number_pairs = s.number_pairs := rfl
@[simp] theorem increase_syuntsu_number_jidahai (s : RState) (k : Nat) : (increase_syuntsu s k).number_jidahai = s.number_jidahai := rfl
@[simp] theorem increase_syuntsu_flag_four_copies (s : RState) (k : Nat) : (increase_syuntsu s k).flag_four_copies = s.flag_four_copies := rfl
@[simp] theorem increase_syuntsu_flag_isolated_tiles (s : RState) (k : Nat) : (increase_syuntsu s k).flag_isolated_tiles = s.flag_isolated_tiles := rfl
@[simp] theorem increase_syuntsu_min_shanten (s : RState) (k : Nat) : (increase_syuntsu s k).min_shanten = s.min_shanten := rfl

@[simp] theorem decrease_syuntsu_tiles (s : RState) (k : Nat) : (decrease_syuntsu s k).tiles = modifyTile (modifyTile (modifyTile s.tiles k 1) (k + 1) 1) (k + 2) 1 := rfl
@[simp] theorem decrease_syuntsu_number_melds (s : RState) (k : Nat) : (decrease_syuntsu s k).number_melds = s.number_melds - 1 := rfl
@[simp] theorem decrease_syuntsu_number_tatsu (s : RState) (k : Nat) : (decrease_syuntsu s k).number_tatsu = s.number_tatsu := rfl
@[simp] theorem decrease_syuntsu_number_pairs (s : RState) (k : Nat) : (decrease_syuntsu s k).number_pairs = s.number_pairs := rfl
@[simp] theorem decrease_syuntsu_number_jidahai (s : RState) (k : Nat) : (decrease_syuntsu s k).number_jidahai = s.number_jidahai := rfl
@[simp] theorem decrease_syuntsu_flag_four_copies (s : RState) (k : Nat) : (decrease_syuntsu s k).flag_four_copies = s.flag_four_copies := rfl
@[simp] theorem decrease_syuntsu_flag_isolated_tiles (s : RState) (k : Nat) : (decrease_syuntsu s k).flag_isolated_tiles = s.flag_isolated_tiles := rfl
@[simp] theorem decrease_syuntsu_min_shanten (s : RState) (k : Nat) : (decrease_syuntsu s k).min_shanten = s.min_shanten := rfl

@[simp] theorem increase_tatsu_first_tiles (s : RState) (k : Nat) : (increase_tatsu_first s k).tiles = modifyTile (modifyTile s.tiles k (-1)) (k + 1) (-1) := rfl
@[simp] theorem increase_tatsu_first_number_melds (s : RState) (k : Nat) : (increase_tatsu_first s k).number_melds = s.number_melds := rfl
@[simp] theorem increase_tatsu_first_number_tatsu (s : RState) (k : Nat) : (increase_tatsu_first s k).number_tatsu = s.number_tatsu + 1 := rfl
@[simp] theorem increase_tatsu_first_number_pairs (s : RState) (k : Nat) : (increase_tatsu_first s k).number_pairs = s.number_pairs := rfl
@[simp] theorem increase_tatsu_first_number_jidahai (s : RState) (k : Nat) : (increase_tatsu_first s k).number_jidahai = s.number_jidahai := rfl
@[simp] theorem increase_tatsu_first_flag_four_copies (s : RState) (k : Nat) : (increase_tatsu_first s k).flag_four_copies = s.flag_four_copies := rfl
@[simp] theorem increase_tatsu_first_flag_isolated_tiles (s : RState) (k : Nat) : (increase_tatsu_first s k).flag_isolated_tiles = s.flag_isolated_tiles := rfl
@[simp] theorem increase_tatsu_first_min_shanten (s : RState) (k : Nat) : (increase_tatsu_first s k).min_shanten = s.min_shanten := rfl

@[simp] theorem decrease_tatsu_first_tiles (s : RState) (k : Nat) : (decrease_tatsu_first s k).tiles = modifyTile (modifyTile s.tiles k 1) (k + 1) 1 := rfl
@[simp] theorem decrease_tatsu_first_number_melds (s : RState) (k : Nat) : (decrease_tatsu_first s k).number_melds = s.number_melds := rfl
@[simp] theorem decrease_tatsu_first_number_tatsu (s : RState) (k : Nat) : (decrease_tatsu_first s k).number_tatsu = s.number_tatsu - 1 := rfl
@[simp] theorem decrease_tatsu_first_number_pairs (s : RState) (k : Nat) : (decrease_tatsu_first s k).number_pairs = s.number_pairs := rfl
@[simp] theorem decrease_tatsu_first_number_jidahai (s : RState) (k : Nat) : (decrease_tatsu_first s k).number_jidahai = s.number_jidahai := rfl
@[simp] theorem decrease_tatsu_first_flag_four_copies (s : RState) (k : Nat) : (decrease_tatsu_first s k).flag_four_copies = s.flag_four_copies := rfl
@[simp] theorem decrease_tatsu_first_flag_isolated_tiles (s : RState) (k : Nat) : (decrease_tatsu_first s k).flag_isolated_tiles = s.flag_isolated_tiles := rfl
@[simp] theorem decrease_tatsu_first_min_shanten (s : RState) (k : Nat) : (decrease_tatsu_first s k).min_shanten = s.min_shanten := rfl

@[simp] theorem increase_tatsu_second_tiles (s : RState) (k : Nat) : (increase_tatsu_second s k).tiles = modifyTile (modifyTile s.tiles k (-1)) (k + 2) (-1) := rfl
@[simp] theorem increase_tatsu_second_number_melds (s : RState) (k : Nat) : (increase_tatsu_second s k).number_melds = s.number_melds := rfl
@[simp] theorem increase_tatsu_second_number_tatsu (s : RState) (k : Nat) : (increase_tatsu_second s k).number_tatsu = s.number_tatsu + 1 := rfl
@[simp] theorem increase_tatsu_second_number_pairs (s : RState) (k : Nat) : (increase_tatsu_second s k).number_pairs = s.number_pairs := rfl
@[simp] theorem increase_tatsu_second_number_jidahai (s : RState) (k : Nat) : (increase_tatsu_second s k).number_jidahai = s.number_jidahai := rfl
@[simp] theorem increase_tatsu_second_flag_four_copies (s : RState) (k : Nat) : (increase_tatsu_second s k).flag_four_copies = s.flag_four_copies := rfl
@[simp] theorem increase_tatsu_second_flag_isolated_tiles (s : RState) (k : Nat) : (increase_tatsu_second s k).flag_isolated_tiles = s.flag_isolated_tiles := rfl
@[simp] theorem increase_tatsu_second_min_shanten (s : RState) (k : Nat) : (increase_tatsu_second s k).min_shanten = s.min_shanten := rfl

@[simp] theorem decrease_tatsu_second_tiles (s : RState) (k : Nat) : (decrease_tatsu_second s k).tiles = modifyTile (modifyTile s.tiles k 1) (k + 2) 1 := rfl
@[simp] theorem decrease_tatsu_second_number_melds (s : RState) (k : Nat) : (decrease_tatsu_second s k).number_melds = s.number_melds := rfl
@[simp] theorem decrease_tatsu_second_number_tatsu (s : RState) (k : Nat) : (decrease_tatsu_second s k).number_tatsu = s.number_tatsu - 1 := rfl
@[simp] theorem decrease_tatsu_second_number_pairs (s : RState) (k : Nat) : (decrease_tatsu_second s k).number_pairs = s.number_pairs := rfl
@[simp] theorem decrease_tatsu_second_number_jidahai (s : RState) (k : Nat) : (decrease_tatsu_second s k).number_jidahai = s.number_jidahai := rfl
@[simp] theorem decrease_tatsu_second_flag_four_copies (s : RState) (k : Nat) : (decrease_tatsu_second s k).flag_four_copies = s.flag_four_copies := rfl
@[simp] theorem decrease_tatsu_second_flag_isolated_tiles (s : RState) (k : Nat) : (decrease_tatsu_second s k).flag_isolated_tiles = s.flag_isolated_tiles := rfl
@[simp] theorem decrease_tatsu_second_min_shanten (s : RState) (k : Nat) : (decrease_tatsu_second s k).min_shanten = s.min_shanten := rfl

@[simp] theorem increase_isolated_tile_tiles (s : RState) (k : Nat) : (increase_isolated_tile s k).tiles = modifyTile s.tiles k (-1) := rfl
@[simp] theorem increase_isolated_tile_number_melds (s : RState) (k : Nat) : (increase_isolated_tile s k).number_melds = s.number_melds := rfl
@[simp] theorem increase_isolated_tile_number_tatsu (s : RState) (k : Nat) : (increase_isolated_tile s k).number_tatsu = s.number_tatsu := rfl
@[simp] theorem increase_isolated_tile_number_pairs (s : RState) (k : Nat) : (increase_isolated_tile s k).number_pairs = s.number_pairs := rfl
@[simp] theorem increase_isolated_tile_number_jidahai (s : RState) (k : Nat) : (increase_isolated_tile s k).number_jidahai = s.number_jidahai := rfl
@[simp] theorem increase_isolated_tile_flag_four_copies (s : RState) (k : Nat) : (increase_isolated_tile s k).flag_four_copies = s.flag_four_copies := rfl
@[simp] theorem increase_isolated_tile_flag_isolated_tiles (s : RState) (k : Nat) : (increase_isolated_tile s k).flag_isolated_tiles = s.flag_isolated_tiles ||| (1 <<< k) := rfl
@[simp] theorem increase_isolated_tile_min_shanten (s : RState) (k : Nat) : (increase_isolated_tile s k).min_shanten = s.min_shanten := rfl

@[simp] theorem decrease_isolated_tile_tiles (s : RState) (k : Nat) : (decrease_isolated_tile s k).tiles = modifyTile s.tiles k 1 := rfl
@[simp] theorem decrease_isolated_tile_number_melds (s : RState) (k : Nat) : (decrease_isolated_tile s k).number_melds = s.number_melds := rfl
@[simp] theorem decrease_isolated_tile_number_tatsu (s : RState) (k : Nat) : (decrease_isolated_tile s k).number_tatsu = s.number_tatsu := rfl
@[simp] theorem decrease_isolated_tile_number_pairs (s : RState) (k : Nat) : (decrease_isolated_tile s k).number_pairs = s.number_pairs := rfl
@[simp] theorem decrease_isolated_tile_number_jidahai (s : RState) (k : Nat) : (decrease_isolated_tile s k).number_jidahai = s.number_jidahai := rfl
@[simp] theorem decrease_isolated_tile_flag_four_copies (s : RState) (k : Nat) : (decrease_isolated_tile s k).flag_four_copies = s.flag_four_copies := rfl
@[simp] theorem decrease_isolated_tile_flag_isolated_tiles (s : RState) (k : Nat) : (decrease_isolated_tile s k).flag_isolated_tiles = clear_bit s.flag_isolated_tiles k := rfl
@[simp] theorem decrease_isolated_tile_min_shanten (s : RState) (k : Nat) : (decrease_isolated_tile s k).min_shanten = s.min_shanten := rfl



/-! ## Restoration of the solver state

Every `_increase_*` in `_run` is paired with its `_decrease_*` around the
recursive call, so a completed call leaves every component of the state
unchanged except `min_shanten`, which can only decrease. -/

theorem restores_update_result (s : RState) : Restores s (update_result s) := by
  refine ⟨rfl, rfl, rfl, rfl, rfl, rfl, rfl, ?_⟩
  exact min_le_left _ _

theorem restores_set_arm (go : RState → Nat → RState)
    (hgo : ∀ s d, IsoOK d s → Restores s (go s d))
    (s : RState) (k d' : Nat) (hiso : IsoOK d' s) :
    Restores s (decrease_set (go (increase_set s k) d') k) := by
  have hne : IsoOK d' (increase_set s k) := hiso
  obtain ⟨h1, h2, h3, h4, h5, h6, h7, h8⟩ := hgo _ _ hne
  simp only [increase_set_tiles, increase_set_number_melds, increase_set_number_tatsu,
    increase_set_number_pairs, increase_set_number_jidahai, increase_set_flag_four_copies,
    increase_set_flag_isolated_tiles, increase_set_min_shanten, increase_pair_tiles,
    increase_pair_number_melds, increase_pair_number_tatsu, increase_pair_number_pairs,
    increase_pair_number_jidahai, increase_pair_flag_four_copies,
    increase_pair_flag_isolated_tiles, increase_pair_min_shanten, increase_syuntsu_tiles,
    increase_syuntsu_number_melds, increase_syuntsu_number_tatsu, increase_syuntsu_number_pairs,
    increase_syuntsu_number_jidahai, increase_syuntsu_flag_four_copies,
    increase_syuntsu_flag_isolated_tiles, increase_syuntsu_min_shanten,
    increase_tatsu_first_tiles, increase_tatsu_first_number_melds,
    increase_tatsu_first_number_tatsu, increase_tatsu_first_number_pairs,
    increase_tatsu_first_number_jidahai, increase_tatsu_first_flag_four_copies,
    increase_tatsu_first_flag_isolated_tiles, increase_tatsu_first_min_shanten,
    increase_tatsu_second_tiles, increase_tatsu_second_number_melds,
    increase_tatsu_second_number_tatsu, increase_tatsu_second_number_pairs,
    increase_tatsu_second_number_jidahai, increase_tatsu_second_flag_four_copies,
    increase_tatsu_second_flag_isolated_tiles, increase_tatsu_second_min_shanten]
    at h1 h2 h3 h4 h5 h6 h7 h8
  refine ⟨?_, ?_, ?_, ?_, ?_, ?_, ?_, ?_⟩ <;>
    simp [h1, h2, h3, h4, h5, h6, h7, h8, modifyTile_cancel]

theorem restores_pair_arm (go : RState → Nat → RState)
    (hgo : ∀ s d, IsoOK d s → Restores s (go s d))
    (s : RState) (k d' : Nat) (hiso : IsoOK d' s) :
    Restores s (decrease_pair (go (increase_pair s k) d') k) := by
  have hne : IsoOK d' (increase_pair s k) := hiso
  obtain ⟨h1, h2, h3, h4, h5, h6, h7, h8⟩ := hgo _ _ hne
  simp only [increase_set_tiles, increase_set_number_melds, increase_set_number_tatsu,
    increase_set_number_pairs, increase_set_number_jidahai, increase_set_flag_four_copies,
    increase_set_flag_isolated_tiles, increase_set_min_shanten, increase_pair_tiles,
    increase_pair_number_melds, increase_pair_number_tatsu, increase_pair_number_pairs,
    increase_pair_number_jidahai, increase_pair_flag_four_copies,
    increase_pair_flag_isolated_tiles, increase_pair_min_shanten, increase_syuntsu_tiles,
    increase_syuntsu_number_melds, increase_syuntsu_number_tatsu, increase_syuntsu_number_pairs,
    increase_syuntsu_number_jidahai, increase_syuntsu_flag_four_copies,
    increase_syuntsu_flag_isolated_tiles, increase_syuntsu_min_shanten,
    increase_tatsu_first_tiles, increase_tatsu_first_number_melds,
    increase_tatsu_first_number_tatsu, increase_tatsu_first_number_pairs,
    increase_tatsu_first_number_jidahai, increase_tatsu_first_flag_four_copies,
    increase_tatsu_first_flag_isolated_tiles, increase_tatsu_first_min_shanten,
    increase_tatsu_second_tiles, increase_tatsu_second_number_melds,
    increase_tatsu_second_number_tatsu, increase_tatsu_second_number_pairs,
    increase_tatsu_second_number_jidahai, increase_tatsu_second_flag_four_copies,
    increase_tatsu_second_flag_isolated_tiles, increase_tatsu_second_min_shanten]
    at h1 h2 h3 h4 h5 h6 h7 h8
  refine ⟨?_, ?_, ?_, ?_, ?_, ?_, ?_, ?_⟩ <;>
    simp [h1, h2, h3, h4, h5, h6, h7, h8, modifyTile_cancel]

theorem restores_syuntsu_arm (go : RState → Nat → RState)
    (hgo : ∀ s d, IsoOK d s → Restores s (go s d))
    (s : RState) (k d' : Nat) (hiso : IsoOK d' s) :
    Restores s (decrease_syuntsu (go (increase_syuntsu s k) d') k) := by
  have hne : IsoOK d' (increase_syuntsu s k) := hiso
  obtain ⟨h1, h2, h3, h4, h5, h6, h7, h8⟩ := hgo _ _ hne
  simp only [increase_set_tiles, increase_set_number_melds, increase_set_number_tatsu,
    increase_set_number_pairs, increase_set_number_jidahai, increase_set_flag_four_copies,
    increase_set_flag_isolated_tiles, increase_set_min_shanten, increase_pair_tiles,
    increase_pair_number_melds, increase_pair_number_tatsu, increase_pair_number_pairs,
    increase_pair_number_jidahai, increase_pair_flag_four_copies,
    increase_pair_flag_isolated_tiles, increase_pair_min_shanten, increase_syuntsu_tiles,
    increase_syuntsu_number_melds, increase_syuntsu_number_tatsu, increase_syuntsu_number_pairs,
    increase_syuntsu_number_jidahai, increase_syuntsu_flag_four_copies,
    increase_syuntsu_flag_isolated_tiles, increase_syuntsu_min_shanten,
    increase_tatsu_first_tiles, increase_tatsu_first_number_melds,
    increase_tatsu_first_number_tatsu, increase_tatsu_first_number_pairs,
    increase_tatsu_first_number_jidahai, increase_tatsu_first_flag_four_copies,
    increase_tatsu_first_flag_isolated_tiles, increase_tatsu_first_min_shanten,
    increase_tatsu_second_tiles, increase_tatsu_second_number_melds,
    increase_tatsu_second_number_tatsu, increase_tatsu_second_number_pairs,
    increase_tatsu_second_number_jidahai, increase_tatsu_second_flag_four_copies,
    increase_tatsu_second_flag_isolated_tiles, increase_tatsu_second_min_shanten]
    at h1 h2 h3 h4 h5 h6 h7 h8
  refine ⟨?_, ?_, ?_, ?_, ?_, ?_, ?_, ?_⟩ <;>
    simp [h1, h2, h3, h4, h5, h6, h7, h8, modify3_cancel]

theorem restores_tatsu_first_arm (go : RState → Nat → RState)
    (hgo : ∀ s d, IsoOK d s → Restores s (go s d))
    (s : RState) (k d' : Nat) (hiso : IsoOK d' s) :
    Restores s (decrease_tatsu_first (go (increase_tatsu_first s k) d') k) := by
  have hne : IsoOK d' (increase_tatsu_first s k) := hiso
  obtain ⟨h1, h2, h3, h4, h5, h6, h7, h8⟩ := hgo _ _ hne
  simp only [increase_set_tiles, increase_set_number_melds, increase_set_number_tatsu,
    increase_set_number_pairs, increase_set_number_jidahai, increase_set_flag_four_copies,
    increase_set_flag_isolated_tiles, increase_set_min_shanten, increase_pair_tiles,
    increase_pair_number_melds, increase_pair_number_tatsu, increase_pair_number_pairs,
    increase_pair_number_jidahai, increase_pair_flag_four_copies,
    increase_pair_flag_isolated_tiles, increase_pair_min_shanten, increase_syuntsu_tiles,
    increase_syuntsu_number_melds, increase_syuntsu_number_tatsu, increase_syuntsu_number_pairs,
    increase_syuntsu_number_jidahai, increase_syuntsu_flag_four_copies,
    increase_syuntsu_flag_isolated_tiles, increase_syuntsu_min_shanten,
    increase_tatsu_first_tiles, increase_tatsu_first_number_melds,
    increase_tatsu_first_number_tatsu, increase_tatsu_first_number_pairs,
    increase_tatsu_first_number_jidahai, increase_tatsu_first_flag_four_copies,
    increase_tatsu_first_flag_isolated_tiles, increase_tatsu_first_min_shanten,
    increase_tatsu_second_tiles, increase_tatsu_second_number_melds,
    increase_tatsu_second_number_tatsu, increase_tatsu_second_number_pairs,
    increase_tatsu_second_number_jidahai, increase_tatsu_second_flag_four_copies,
    increase_tatsu_second_flag_isolated_tiles, increase_tatsu_second_min_shanten]
    at h1 h2 h3 h4 h5 h6 h7 h8
  refine ⟨?_, ?_, ?_, ?_, ?_, ?_, ?_, ?_⟩ <;>
    simp [h1, h2, h3, h4, h5, h6, h7, h8, modify2_cancel]

theorem restores_tatsu_second_arm (go : RState → Nat → RState)
    (hgo : ∀ s d, IsoOK d s → Restores s (go s d))
    (s : RState) (k d' : Nat) (hiso : IsoOK d' s) :
    Restores s (decrease_tatsu_second (go (increase_tatsu_second s k) d') k) := by
  have hne : IsoOK d' (increase_tatsu_second s k) := hiso
  obtain ⟨h1, h2, h3, h4, h5, h6, h7, h8⟩ := hgo _ _ hne
  simp only [increase_set_tiles, increase_set_number_melds, increase_set_number_tatsu,
    increase_set_number_pairs, increase_set_number_jidahai, increase_set_flag_four_copies,
    increase_set_flag_isolated_tiles, increase_set_min_shanten, increase_pair_tiles,
    increase_pair_number_melds, increase_pair_number_tatsu, increase_pair_number_pairs,
    increase_pair_number_jidahai, increase_pair_flag_four_copies,
    increase_pair_flag_isolated_tiles, increase_pair_min_shanten, increase_syuntsu_tiles,
    increase_syuntsu_number_melds, increase_syuntsu_number_tatsu, increase_syuntsu_number_pairs,
    increase_syuntsu_number_jidahai, increase_syuntsu_flag_four_copies,
    increase_syuntsu_flag_isolated_tiles, increase_syuntsu_min_shanten,
    increase_tatsu_first_tiles, increase_tatsu_first_number_melds,
    increase_tatsu_first_number_tatsu, increase_tatsu_first_number_pairs,
    increase_tatsu_first_number_jidahai, increase_tatsu_first_flag_four_copies,
    increase_tatsu_first_flag_isolated_tiles, increase_tatsu_first_min_shanten,
    increase_tatsu_second_tiles, increase_tatsu_second_number_melds,
    increase_tatsu_second_number_tatsu, increase_tatsu_second_number_pairs,
    increase_tatsu_second_number_jidahai, increase_tatsu_second_flag_four_copies,
    increase_tatsu_second_flag_isolated_tiles, increase_tatsu_second_min_shanten]
    at h1 h2 h3 h4 h5 h6 h7 h8
  refine ⟨?_, ?_, ?_, ?_, ?_, ?_, ?_, ?_⟩ <;>
    simp [h1, h2, h3, h4, h5, h6, h7, h8, modify2_cancel]

theorem restores_double_syuntsu_arm (go : RState → Nat → RState)
    (hgo : ∀ s d, IsoOK d s → Restores s (go s d))
    (s : RState) (k d' : Nat) (hiso : IsoOK d' s) :
    Restores s
      (decrease_syuntsu
        (decrease_syuntsu (go (increase_syuntsu (increase_syuntsu s k) k) d') k) k) := by
  have hne : IsoOK d' (increase_syuntsu (increase_syuntsu s k) k) := hiso
  obtain ⟨h1, h2, h3, h4, h5, h6, h7, h8⟩ := hgo _ _ hne
  simp only [increase_set_tiles, increase_set_number_melds, increase_set_number_tatsu,
    increase_set_number_pairs, increase_set_number_jidahai, increase_set_flag_four_copies,
    increase_set_flag_isolated_tiles, increase_set_min_shanten, increase_pair_tiles,
    increase_pair_number_melds, increase_pair_number_tatsu, increase_pair_number_pairs,
    increase_pair_number_jidahai, increase_pair_flag_four_copies,
    increase_pair_flag_isolated_tiles, increase_pair_min_shanten, increase_syuntsu_tiles,
    increase_syuntsu_number_melds, increase_syuntsu_number_tatsu, increase_syuntsu_number_pairs,
    increase_syuntsu_number_jidahai, increase_syuntsu_flag_four_copies,
    increase_syuntsu_flag_isolated_tiles, increase_syuntsu_min_shanten,
    increase_tatsu_first_tiles, increase_tatsu_first_number_melds,
    increase_tatsu_first_number_tatsu, increase_tatsu_first_number_pairs,
    increase_tatsu_first_number_jidahai, increase_tatsu_first_flag_four_copies,
    increase_tatsu_first_flag_isolated_tiles, increase_tatsu_first_min_shanten,
    increase_tatsu_second_tiles, increase_tatsu_second_number_melds,
    increase_tatsu_second_number_tatsu, increase_tatsu_second_number_pairs,
    increase_tatsu_second_number_jidahai, increase_tatsu_second_flag_four_copies,
    increase_tatsu_second_flag_isolated_tiles, increase_tatsu_second_min_shanten]
    at h1 h2 h3 h4 h5 h6 h7 h8
  refine ⟨?_, ?_, ?_, ?_, ?_, ?_, ?_, ?_⟩ <;>
    simp [h1, h2, h3, h4, h5, h6, h7, h8, modify3_cancel]

theorem restores_iso_arm (go : RState → Nat → RState)
    (hgo : ∀ s d, IsoOK d s → Restores s (go s d))
    (s : RState) (k : Nat) (hk : k < 27) (hiso : IsoOK k s) :
    Restores s (decrease_isolated_tile (go (increase_isolated_tile s k) (k + 1)) k) := by
  have hbit : s.flag_isolated_tiles.testBit k = false := hiso.2 k (le_refl k) hk
  have hne : IsoOK (k + 1) (increase_isolated_tile s k) := by
    constructor
    · show s.flag_isolated_tiles ||| (1 <<< k) < 2 ^ 28
      exact or_one_shiftLeft_lt _ _ hiso.1 (by omega)
    · intro j hj1 hj2
      show (s.flag_isolated_tiles ||| (1 <<< k)).testBit j = false
      rw [testBit_or_one]
      have hne2 : k ≠ j := by omega
      simp [hne2, hiso.2 j (by omega) hj2]
  obtain ⟨h1, h2, h3, h4, h5, h6, h7, h8⟩ := hgo _ _ hne
  simp only [increase_isolated_tile_tiles, increase_isolated_tile_number_melds,
    increase_isolated_tile_number_tatsu, increase_isolated_tile_number_pairs,
    increase_isolated_tile_number_jidahai, increase_isolated_tile_flag_four_copies,
    increase_isolated_tile_flag_isolated_tiles, increase_isolated_tile_min_shanten]
    at h1 h2 h3 h4 h5 h6 h7 h8
  have hclear : clear_bit (s.flag_isolated_tiles ||| (1 <<< k)) k = s.flag_isolated_tiles :=
    clear_bit_or_self _ _ (by omega) hiso.1 hbit
  refine ⟨?_, ?_, ?_, ?_, ?_, ?_, ?_, ?_⟩ <;>
    simp [h1, h2, h3, h4, h5, h6, h7, h8, modifyTile_cancel, hclear]

theorem restores_chi_block (go : RState → Nat → RState)
    (hgo : ∀ s d, IsoOK d s → Restores s (go s d))
    (depth i dsy : Nat) (hdsy : depth ≤ dsy) (s : RState) (hiso : IsoOK depth s) :
    Restores s (chi_block go depth i dsy s) := by
  unfold chi_block
  split
  · have h3 : Restores s
        (if s.tiles.getD (depth + 1) 0 ≠ 0 then
          decrease_syuntsu (go (increase_syuntsu s depth) dsy) depth
        else s) := by
      split
      · exact restores_syuntsu_arm go hgo s depth dsy (isoOK_mono hdsy hiso)
      · exact restores_refl s
    refine restores_trans h3 ?_
    exact restores_tatsu_second_arm go hgo _ depth (depth + 1)
      (restores_isoOK h3 (isoOK_mono (by omega) hiso))
  · exact restores_refl s

theorem restores_tatsu_first_block (go : RState → Nat → RState)
    (hgo : ∀ s d, IsoOK d s → Restores s (go s d))
    (depth i : Nat) (s : RState) (hiso : IsoOK depth s) :
    Restores s (tatsu_first_block go depth i s) := by
  unfold tatsu_first_block
  split
  · exact restores_tatsu_first_arm go hgo s depth (depth + 1) (isoOK_mono (by omega) hiso)
  · exact restores_refl s

theorem restores_tatsu_second_block (go : RState → Nat → RState)
    (hgo : ∀ s d, IsoOK d s → Restores s (go s d))
    (depth i : Nat) (s : RState) (hiso : IsoOK depth s) :
    Restores s (tatsu_second_block go depth i s) := by
  unfold tatsu_second_block
  split
  · exact restores_tatsu_second_arm go hgo s depth (depth + 1) (isoOK_mono (by omega) hiso)
  · exact restores_refl s

theorem restores_iso_block (go : RState → Nat → RState)
    (hgo : ∀ s d, IsoOK d s → Restores s (go s d))
    (depth : Nat) (hd : depth < 27) (s : RState) (hiso : IsoOK depth s) :
    Restores s (iso_block go depth s) :=
  restores_iso_arm go hgo s depth hd hiso

theorem restores_three_pair_block (go : RState → Nat → RState)
    (hgo : ∀ s d, IsoOK d s → Restores s (go s d))
    (depth i : Nat) (s : RState) (hiso : IsoOK depth s) :
    Restores s (three_pair_block go depth i s) := by
  unfold three_pair_block
  split
  · exact restores_syuntsu_arm go hgo s depth (depth + 1) (isoOK_mono (by omega) hiso)
  · have h4 := restores_tatsu_second_block go hgo depth i s hiso
    exact restores_trans h4
      (restores_tatsu_first_block go hgo depth i _ (restores_isoOK h4 hiso))

theorem restores_double_chi_block (go : RState → Nat → RState)
    (hgo : ∀ s d, IsoOK d s → Restores s (go s d))
    (depth i : Nat) (s : RState) (hiso : IsoOK depth s) :
    Restores s (double_chi_block go depth i s) := by
  unfold double_chi_block
  split
  · exact restores_double_syuntsu_arm go hgo s depth depth hiso
  · exact restores_refl s

theorem restores_two_chi_block (go : RState → Nat → RState)
    (hgo : ∀ s d, IsoOK d s → Restores s (go s d))
    (depth i : Nat) (s : RState) (hiso : IsoOK depth s) :
    Restores s (two_chi_block go depth i s) := by
  unfold two_chi_block
  split
  · exact restores_syuntsu_arm go hgo s depth depth hiso
  · exact restores_refl s


theorem restores_branch_four (go : RState → Nat → RState)
    (hgo : ∀ s d, IsoOK d s → Restores s (go s d))
    (s : RState) (depth i : Nat) (hd : depth < 27) (hiso : IsoOK depth s) :
    Restores s (branch_four go s depth i) := by
  unfold branch_four
  have hiso1 : IsoOK depth (increase_set s depth) := hiso
  have e1 := restores_chi_block go hgo depth i (depth + 1) (by omega) _ hiso1
  have e2 := restores_tatsu_first_block go hgo depth i _ (restores_isoOK e1 hiso1)
  have e3 := restores_iso_block go hgo depth hd _
    (restores_isoOK e2 (restores_isoOK e1 hiso1))
  have E := restores_trans e1 (restores_trans e2 e3)
  obtain ⟨f1, f2, f3, f4, f5, f6, f7, f8⟩ := E
  simp only [increase_set_tiles, increase_set_number_melds, increase_set_number_tatsu,
    increase_set_number_pairs, increase_set_number_jidahai, increase_set_flag_four_copies,
    increase_set_flag_isolated_tiles, increase_set_min_shanten] at f1 f2 f3 f4 f5 f6 f7 f8
  have hmid : Restores (increase_pair s depth)
      (increase_pair
        (decrease_set
          (iso_block go depth
            (tatsu_first_block go depth i
              (chi_block go depth i (depth + 1) (increase_set s depth)))) depth) depth) := by
    refine ⟨?_, ?_, ?_, ?_, ?_, ?_, ?_, ?_⟩ <;>
      simp [f1, f2, f3, f4, f5, f6, f7, f8, modifyTile_cancel]
  have hisomid : IsoOK depth (increase_pair
        (decrease_set
          (iso_block go depth
            (tatsu_first_block go depth i
              (chi_block go depth i (depth + 1) (increase_set s depth)))) depth) depth) := by
    have : IsoOK depth (increase_pair s depth) := hiso
    exact restores_isoOK hmid this
  have e4 := restores_chi_block go hgo depth i depth (le_refl depth) _ hisomid
  have e5 := restores_tatsu_first_block go hgo depth i _ (restores_isoOK e4 hisomid)
  have F := restores_trans hmid (restores_trans e4 e5)
  obtain ⟨g1, g2, g3, g4, g5, g6, g7, g8⟩ := F
  simp only [increase_pair_tiles, increase_pair_number_melds, increase_pair_number_tatsu,
    increase_pair_number_pairs, increase_pair_number_jidahai, increase_pair_flag_four_copies,
    increase_pair_flag_isolated_tiles, increase_pair_min_shanten] at g1 g2 g3 g4 g5 g6 g7 g8
  refine ⟨?_, ?_, ?_, ?_, ?_, ?_, ?_, ?_⟩ <;>
    simp [g1, g2, g3, g4, g5, g6, g7, g8, modifyTile_cancel]

theorem restores_branch_three (go : RState → Nat → RState)
    (hgo : ∀ s d, IsoOK d s → Restores s (go s d))
    (s : RState) (depth i : Nat) (hd : depth < 27) (hiso : IsoOK depth s) :
    Restores s (branch_three go s depth i) := by
  unfold branch_three
  have e1 := restores_set_arm go hgo s depth (depth + 1) (isoOK_mono (by omega) hiso)
  obtain ⟨f1, f2, f3, f4, f5, f6, f7, f8⟩ := e1
  simp only [decrease_set_tiles, decrease_set_number_melds, decrease_set_number_tatsu,
    decrease_set_number_pairs, decrease_set_number_jidahai, decrease_set_flag_four_copies,
    decrease_set_flag_isolated_tiles, decrease_set_min_shanten] at f1 f2 f3 f4 f5 f6 f7 f8
  have hmid : Restores (increase_pair s depth)
      (increase_pair (decrease_set (go (increase_set s depth) (depth + 1)) depth) depth) := by
    refine ⟨?_, ?_, ?_, ?_, ?_, ?_, ?_, ?_⟩ <;>
      simp [f1, f2, f3, f4, f5, f6, f7, f8]
  have hisomid : IsoOK depth
      (increase_pair (decrease_set (go (increase_set s depth) (depth + 1)) depth) depth) := by
    have : IsoOK depth (increase_pair s depth) := hiso
    exact restores_isoOK hmid this
  have e2 := restores_three_pair_block go hgo depth i _ hisomid
  have F := restores_trans hmid e2
  obtain ⟨g1, g2, g3, g4, g5, g6, g7, g8⟩ := F
  simp only [increase_pair_tiles, increase_pair_number_melds, increase_pair_number_tatsu,
    increase_pair_number_pairs, increase_pair_number_jidahai, increase_pair_flag_four_copies,
    increase_pair_flag_isolated_tiles, increase_pair_min_shanten] at g1 g2 g3 g4 g5 g6 g7 g8
  have hout : Restores s
      (decrease_pair
        (three_pair_block go depth i
          (increase_pair
            (decrease_set (go (increase_set s depth) (depth + 1)) depth) depth))
        depth) := by
    refine ⟨?_, ?_, ?_, ?_, ?_, ?_, ?_, ?_⟩ <;>
      simp [g1, g2, g3, g4, g5, g6, g7, g8, modifyTile_cancel]
  refine restores_trans hout ?_
  exact restores_double_chi_block go hgo depth i _ (restores_isoOK hout hiso)

theorem restores_branch_two (go : RState → Nat → RState)
    (hgo : ∀ s d, IsoOK d s → Restores s (go s d))
    (s : RState) (depth i : Nat) (hiso : IsoOK depth s) :
    Restores s (branch_two go s depth i) := by
  unfold branch_two
  have e1 := restores_pair_arm go hgo s depth (depth + 1) (isoOK_mono (by omega) hiso)
  refine restores_trans e1 ?_
  exact restores_two_chi_block go hgo depth i _ (restores_isoOK e1 hiso)

theorem restores_branch_one (go : RState → Nat → RState)
    (hgo : ∀ s d, IsoOK d s → Restores s (go s d))
    (s : RState) (depth i : Nat) (hd : depth < 27) (hiso : IsoOK depth s) :
    Restores s (branch_one go s depth i) := by
  unfold branch_one
  split
  · exact restores_syuntsu_arm go hgo s depth (depth + 2) (isoOK_mono (by omega) hiso)
  · have e1 := restores_iso_block go hgo depth hd s hiso
    have e2 := restores_chi_block go hgo depth i (depth + 1) (by omega) _
      (restores_isoOK e1 hiso)
    have e3 := restores_tatsu_first_block go hgo depth i _
      (restores_isoOK e2 (restores_isoOK e1 hiso))
    exact restores_trans e1 (restores_trans e2 e3)

theorem advance_depth_fuel_ge (t : List Int) :
    ∀ (n d : Nat), d ≤ advance_depth_fuel n t d := by
  intro n
  induction n with
  | zero => intro d; exact le_refl d
  | succ n ih =>
    intro d
    unfold advance_depth_fuel
    split
    · exact le_refl d
    · split
      · exact le_refl d
      · exact le_trans (by omega) (ih (d + 1))

theorem advance_depth_ge (t : List Int) (d : Nat) : d ≤ advance_depth t d :=
  advance_depth_fuel_ge t 28 d

/-- A completed call of `_run` restores every component of the solver state
except `min_shanten`, which can only decrease. -/
theorem run_restores (fuel : Nat) :
    ∀ (s : RState) (d : Nat), IsoOK d s → Restores s (run fuel s d) := by
  induction fuel with
  | zero => intro s d _; exact restores_refl s
  | succ fuel IH =>
    intro s d hiso
    rw [run]
    by_cases hmin : s.min_shanten = AGARI_STATE
    · rw [if_pos hmin]; exact restores_refl s
    · rw [if_neg hmin]
      simp only []
      by_cases h27 : 27 ≤ advance_depth s.tiles d
      · rw [if_pos h27]; exact restores_update_result s
      · rw [if_neg h27]
        have hge : d ≤ advance_depth s.tiles d := advance_depth_ge s.tiles d
        have hlt : advance_depth s.tiles d < 27 := by omega
        have hiso' : IsoOK (advance_depth s.tiles d) s := isoOK_mono hge hiso
        by_cases h4 : s.tiles.getD (advance_depth s.tiles d) 0 = 4
        · rw [if_pos h4]
          exact restores_branch_four _ IH s _ _ hlt hiso'
        · rw [if_neg h4]
          by_cases h3 : s.tiles.getD (advance_depth s.tiles d) 0 = 3
          · rw [if_pos h3]
            exact restores_branch_three _ IH s _ _ hlt hiso'
          · rw [if_neg h3]
            by_cases h2 : s.tiles.getD (advance_depth s.tiles d) 0 = 2
            · rw [if_pos h2]
              exact restores_branch_two _ IH s _ _ hiso'
            · rw [if_neg h2]
              by_cases h1 : s.tiles.getD (advance_depth s.tiles d) 0 = 1
              · rw [if_pos h1]
                exact restores_branch_one _ IH s _ _ hlt hiso'
              · rw [if_neg h1]
                exact restores_refl s


theorem suitedSum_modifyTile (t : List Int) (k : Nat) (d : Int)
    (hk : k < 27) (hlen : 27 ≤ t.length) :
    suitedSum (modifyTile t k d) = suitedSum t + d := by
  unfold suitedSum
  have hstep : ∀ i ∈ Finset.range 27,
      (modifyTile t k d).getD i 0 = t.getD i 0 + (if i = k then d else 0) := by
    intro i _
    rcases eq_or_ne i k with h | h
    · subst h
      rw [getD_modifyTile_self _ _ _ (by omega), if_pos rfl]
    · rw [getD_modifyTile_ne _ _ _ _ h, if_neg h]
      ring
  rw [Finset.sum_congr rfl hstep, Finset.sum_add_distrib,
    Finset.sum_ite_eq' (Finset.range 27) k (fun _ => d)]
  simp [Finset.mem_range.mpr hk]

theorem nonneg_modifyTile (t : List Int) (k : Nat) (d : Int)
    (hnn : ∀ i, 0 ≤ t.getD i 0) (hk : 0 ≤ t.getD k 0 + d) :
    ∀ i, 0 ≤ (modifyTile t k d).getD i 0 := by
  intro i
  rcases eq_or_ne i k with h | h
  · subst h
    rcases Nat.lt_or_ge i t.length with hi | hi
    · rw [getD_modifyTile_self _ _ _ hi]; exact hk
    · unfold modifyTile
      rw [List.set_eq_of_length_le hi]
      exact hnn i
  · rw [getD_modifyTile_ne _ _ _ _ h]
    exact hnn i

/-- Transfer the invariant along a restored state whose `min_shanten` is
still above the sentinel. -/
theorem searchInv_of_restores {s t : RState} (h : Restores s t) (hinv : SearchInv s)
    (hmin : -1 ≤ t.min_shanten) : SearchInv t := by
  obtain ⟨h1, h2, h3, h4, h5, h6, h7, _⟩ := h
  obtain ⟨g1, g2, g3, g4, g5, g6, g7, g8, _⟩ := hinv
  exact ⟨by rw [h1]; exact g1, by rw [h1]; exact g2,
    by rw [h1, h2, h3, h4]; exact g3, by rw [h2]; exact g4, by rw [h3]; exact g5,
    by rw [h4]; exact g6, by rw [h5]; exact g7, by rw [h5]; exact g8, hmin⟩

theorem inv_increase_set (s : RState) (k : Nat) (hk : k < 27)
    (hv : 3 ≤ s.tiles.getD k 0) (hinv : SearchInv s) : SearchInv (increase_set s k) := by
  obtain ⟨g1, g2, g3, g4, g5, g6, g7, g8, g9⟩ := hinv
  refine ⟨by simpa using g1, ?_, ?_, by simp; omega, by simpa using g5,
    by simpa using g6, by simpa using g7, by simpa using g8, by simpa using g9⟩
  · exact nonneg_modifyTile _ _ _ g2 (by have := g2 k; omega)
  · simp only [increase_set_tiles, increase_set_number_melds, increase_set_number_tatsu,
      increase_set_number_pairs]
    rw [suitedSum_modifyTile _ _ _ hk (by omega)]
    omega

theorem inv_increase_pair (s : RState) (k : Nat) (hk : k < 27)
    (hv : 2 ≤ s.tiles.getD k 0) (hinv : SearchInv s) : SearchInv (increase_pair s k) := by
  obtain ⟨g1, g2, g3, g4, g5, g6, g7, g8, g9⟩ := hinv
  refine ⟨by simpa using g1, ?_, ?_, by simpa using g4, by simpa using g5,
    by simp; omega, by simpa using g7, by simpa using g8, by simpa using g9⟩
  · exact nonneg_modifyTile _ _ _ g2 (by have := g2 k; omega)
  · simp only [increase_pair_tiles, increase_pair_number_melds, increase_pair_number_tatsu,
      increase_pair_number_pairs]
    rw [suitedSum_modifyTile _ _ _ hk (by omega)]
    omega

theorem inv_increase_syuntsu (s : RState) (k : Nat) (hk2 : k + 2 < 27)
    (hv0 : 1 ≤ s.tiles.getD k 0) (hv1 : 1 ≤ s.tiles.getD (k + 1) 0)
    (hv2 : 1 ≤ s.tiles.getD (k + 2) 0) (hinv : SearchInv s) : SearchInv (increase_syuntsu s k) := by
  obtain ⟨g1, g2, g3, g4, g5, g6, g7, g8, g9⟩ := hinv
  have hlen : (27 : Nat) ≤ s.tiles.length := by omega
  have hn1 : ∀ i, 0 ≤ (modifyTile s.tiles k (-1)).getD i 0 :=
    nonneg_modifyTile _ _ _ g2 (by have := g2 k; omega)
  have hn2 : ∀ i, 0 ≤ (modifyTile (modifyTile s.tiles k (-1)) (k + 1) (-1)).getD i 0 := by
    apply nonneg_modifyTile _ _ _ hn1
    rw [getD_modifyTile_ne _ _ _ _ (by omega)]
    omega
  have hn3 : ∀ i, 0 ≤ (modifyTile (modifyTile (modifyTile s.tiles k (-1)) (k + 1) (-1)) (k + 2) (-1)).getD i 0 := by
    apply nonneg_modifyTile _ _ _ hn2
    rw [getD_modifyTile_ne _ _ _ _ (by omega), getD_modifyTile_ne _ _ _ _ (by omega)]
    omega
  refine ⟨by simpa using g1, by simpa using hn3, ?_, by simp; omega, by simpa using g5,
    by simpa using g6, by simpa using g7, by simpa using g8, by simpa using g9⟩
  simp only [increase_syuntsu_tiles, increase_syuntsu_number_melds,
    increase_syuntsu_number_tatsu, increase_syuntsu_number_pairs]
  rw [suitedSum_modifyTile _ _ _ (by omega) (by simp [modifyTile]; omega),
    suitedSum_modifyTile _ _ _ (by omega) (by simp [modifyTile]; omega),
    suitedSum_modifyTile _ _ _ (by omega) hlen]
  omega

theorem inv_increase_tatsu_first (s : RState) (k : Nat) (hk1 : k + 1 < 27)
    (hv0 : 1 ≤ s.tiles.getD k 0) (hv1 : 1 ≤ s.tiles.getD (k + 1) 0)
    (hinv : SearchInv s) : SearchInv (increase_tatsu_first s k) := by
  obtain ⟨g1, g2, g3, g4, g5, g6, g7, g8, g9⟩ := hinv
  have hn1 : ∀ i, 0 ≤ (modifyTile s.tiles k (-1)).getD i 0 :=
    nonneg_modifyTile _ _ _ g2 (by have := g2 k; omega)
  have hn2 : ∀ i, 0 ≤ (modifyTile (modifyTile s.tiles k (-1)) (k + 1) (-1)).getD i 0 := by
    apply nonneg_modifyTile _ _ _ hn1
    rw [getD_modifyTile_ne _ _ _ _ (by omega)]
    omega
  refine ⟨by simpa using g1, by simpa using hn2, ?_, by simpa using g4, by simp; omega,
    by simpa using g6, by simpa using g7, by simpa using g8, by simpa using g9⟩
  simp only [increase_tatsu_first_tiles, increase_tatsu_first_number_melds,
    increase_tatsu_first_number_tatsu, increase_tatsu_first_number_pairs]
  rw [suitedSum_modifyTile _ _ _ (by omega) (by simp [modifyTile]; omega),
    suitedSum_modifyTile _ _ _ (by omega) (by omega)]
  omega

theorem inv_increase_tatsu_second (s : RState) (k : Nat) (hk2 : k + 2 < 27)
    (hv0 : 1 ≤ s.tiles.getD k 0) (hv2 : 1 ≤ s.tiles.getD (k + 2) 0)
    (hinv : SearchInv s) : SearchInv (increase_tatsu_second s k) := by
  obtain ⟨g1, g2, g3, g4, g5, g6, g7, g8, g9⟩ := hinv
  have hn1 : ∀ i, 0 ≤ (modifyTile s.tiles k (-1)).getD i 0 :=
    nonneg_modifyTile _ _ _ g2 (by have := g2 k; omega)
  have hn2 : ∀ i, 0 ≤ (modifyTile (modifyTile s.tiles k (-1)) (k + 2) (-1)).getD i 0 := by
    apply nonneg_modifyTile _ _ _ hn1
    rw [getD_modifyTile_ne _ _ _ _ (by omega)]
    omega
  refine ⟨by simpa using g1, by simpa using hn2, ?_, by simpa using g4, by simp; omega,
    by simpa using g6, by simpa using g7, by simpa using g8, by simpa using g9⟩
  simp only [increase_tatsu_second_tiles, increase_tatsu_second_number_melds,
    increase_tatsu_second_number_tatsu, increase_tatsu_second_number_pairs]
  rw [suitedSum_modifyTile _ _ _ (by omega) (by simp [modifyTile]; omega),
    suitedSum_modifyTile _ _ _ (by omega) (by omega)]
  omega

theorem inv_increase_isolated_tile (s : RState) (k : Nat) (hk : k < 27)
    (hv : 1 ≤ s.tiles.getD k 0) (hinv : SearchInv s) : SearchInv (increase_isolated_tile s k) := by
  obtain ⟨g1, g2, g3, g4, g5, g6, g7, g8, g9⟩ := hinv
  refine ⟨by simpa using g1, ?_, ?_, by simpa using g4, by simpa using g5,
    by simpa using g6, by simpa using g7, by simpa using g8, by simpa using g9⟩
  · exact nonneg_modifyTile _ _ _ g2 (by have := g2 k; omega)
  · simp only [increase_isolated_tile_tiles, increase_isolated_tile_number_melds,
      increase_isolated_tile_number_tatsu, increase_isolated_tile_number_pairs]
    rw [suitedSum_modifyTile _ _ _ hk (by omega)]
    omega

/-- `_update_result` never writes a value below the sentinel `-1` into
`min_shanten`: with at most four meld slots accounted (the invariant gives
`3 * melds ≤ 14`), each scoring path stays at or above `-1`. -/
theorem update_result_min_ge (s : RState) (hinv : SearchInv s) :
    -1 ≤ (update_result s).min_shanten := by
  obtain ⟨g1, g2, g3, g4, g5, g6, g7, g8, g9⟩ := hinv
  have hS : 0 ≤ suitedSum s.tiles := by
    apply Finset.sum_nonneg
    intro i _
    exact g2 i
  show -1 ≤ min s.min_shanten _
  apply le_min g9
  unfold AGARI_STATE
  split_ifs <;> omega


theorem isoOK_increase_isolated (s : RState) (k : Nat) (hk : k < 27) (hiso : IsoOK k s) :
    IsoOK (k + 1) (increase_isolated_tile s k) := by
  constructor
  · show s.flag_isolated_tiles ||| (1 <<< k) < 2 ^ 28
    exact or_one_shiftLeft_lt _ _ hiso.1 (by omega)
  · intro j hj1 hj2
    show (s.flag_isolated_tiles ||| (1 <<< k)).testBit j = false
    rw [testBit_or_one]
    have hne2 : k ≠ j := by omega
    simp [hne2, hiso.2 j (by omega) hj2]

theorem minb_chi_block (go : RState → Nat → RState)
    (hH : ∀ s d, IsoOK d s → Restores s (go s d))
    (hG : ∀ s d, IsoOK d s → SearchInv s → -1 ≤ (go s d).min_shanten)
    (depth i dsy : Nat) (hdsy : depth ≤ dsy) (hd : depth < 27) (hi : i = depth % 9)
    (s : RState) (hiso : IsoOK depth s) (hinv : SearchInv s)
    (hdep : 1 ≤ s.tiles.getD depth 0) :
    -1 ≤ (chi_block go depth i dsy s).min_shanten := by
  unfold chi_block
  split
  · next hguard =>
    obtain ⟨hi7, hne2⟩ := hguard
    have hk2 : depth + 2 < 27 := by omega
    have hv2 : 1 ≤ s.tiles.getD (depth + 2) 0 := by
      have := hinv.2.1 (depth + 2); omega
    by_cases hne1 : s.tiles.getD (depth + 1) 0 ≠ 0
    · rw [if_pos hne1]
      have hv1 : 1 ≤ s.tiles.getD (depth + 1) 0 := by
        have := hinv.2.1 (depth + 1); omega
      have hinv_sy : SearchInv (increase_syuntsu s depth) :=
        inv_increase_syuntsu s depth hk2 hdep hv1 hv2 hinv
      have hiso_sy : IsoOK dsy (increase_syuntsu s depth) := isoOK_mono hdsy hiso
      have hres : Restores s (decrease_syuntsu (go (increase_syuntsu s depth) dsy) depth) :=
        restores_syuntsu_arm go hH s depth dsy (isoOK_mono hdsy hiso)
      have hmin3 : -1 ≤ (decrease_syuntsu (go (increase_syuntsu s depth) dsy) depth).min_shanten := by
        simp only [decrease_syuntsu_min_shanten]
        exact hG _ _ hiso_sy hinv_sy
      have hinv3 := searchInv_of_restores hres hinv hmin3
      have hiso3 : IsoOK depth (decrease_syuntsu (go (increase_syuntsu s depth) dsy) depth) :=
        restores_isoOK hres hiso
      simp only [decrease_tatsu_second_min_shanten]
      refine hG _ _ ?_ ?_
      · exact isoOK_mono (by omega) hiso3
      · apply inv_increase_tatsu_second _ _ hk2 _ _ hinv3
        · rw [hres.1]; exact hdep
        · rw [hres.1]; exact hv2
    · rw [if_neg hne1]
      simp only [decrease_tatsu_second_min_shanten]
      refine hG _ _ ?_ ?_
      · exact isoOK_mono (by omega) hiso
      · exact inv_increase_tatsu_second _ _ hk2 hdep hv2 hinv
  · exact hinv.2.2.2.2.2.2.2.2

theorem minb_tatsu_first_block (go : RState → Nat → RState)
    (hG : ∀ s d, IsoOK d s → SearchInv s → -1 ≤ (go s d).min_shanten)
    (depth i : Nat) (hd : depth < 27) (hi : i = depth % 9)
    (s : RState) (hiso : IsoOK depth s) (hinv : SearchInv s)
    (hdep : 1 ≤ s.tiles.getD depth 0) :
    -1 ≤ (tatsu_first_block go depth i s).min_shanten := by
  unfold tatsu_first_block
  split
  · next hguard =>
    obtain ⟨hi8, hne1⟩ := hguard
    have hk1 : depth + 1 < 27 := by omega
    have hv1 : 1 ≤ s.tiles.getD (depth + 1) 0 := by
      have := hinv.2.1 (depth + 1); omega
    simp only [decrease_tatsu_first_min_shanten]
    refine hG _ _ ?_ ?_
    · exact isoOK_mono (by omega) hiso
    · exact inv_increase_tatsu_first _ _ hk1 hdep hv1 hinv
  · exact hinv.2.2.2.2.2.2.2.2

theorem minb_tatsu_second_block (go : RState → Nat → RState)
    (hG : ∀ s d, IsoOK d s → SearchInv s → -1 ≤ (go s d).min_shanten)
    (depth i : Nat) (hd : depth < 27) (hi : i = depth % 9)
    (s : RState) (hiso : IsoOK depth s) (hinv : SearchInv s)
    (hdep : 1 ≤ s.tiles.getD depth 0) :
    -1 ≤ (tatsu_second_block go depth i s).min_shanten := by
  unfold tatsu_second_block
  split
  · next hguard =>
    obtain ⟨hi7, hne2⟩ := hguard
    have hk2 : depth + 2 < 27 := by omega
    have hv2 : 1 ≤ s.tiles.getD (depth + 2) 0 := by
      have := hinv.2.1 (depth + 2); omega
    simp only [decrease_tatsu_second_min_shanten]
    refine hG _ _ ?_ ?_
    · exact isoOK_mono (by omega) hiso
    · exact inv_increase_tatsu_second _ _ hk2 hdep hv2 hinv
  · exact hinv.2.2.2.2.2.2.2.2

theorem minb_iso_block (go : RState → Nat → RState)
    (hG : ∀ s d, IsoOK d s → SearchInv s → -1 ≤ (go s d).min_shanten)
    (depth : Nat) (hd : depth < 27)
    (s : RState) (hiso : IsoOK depth s) (hinv : SearchInv s)
    (hdep : 1 ≤ s.tiles.getD depth 0) :
    -1 ≤ (iso_block go depth s).min_shanten := by
  unfold iso_block
  simp only [decrease_isolated_tile_min_shanten]
  refine hG _ _ ?_ ?_
  · exact isoOK_increase_isolated s depth hd hiso
  · exact inv_increase_isolated_tile s depth hd hdep hinv

theorem minb_three_pair_block (go : RState → Nat → RState)
    (hH : ∀ s d, IsoOK d s → Restores s (go s d))
    (hG : ∀ s d, IsoOK d s → SearchInv s → -1 ≤ (go s d).min_shanten)
    (depth i : Nat) (hd : depth < 27) (hi : i = depth % 9)
    (s : RState) (hiso : IsoOK depth s) (hinv : SearchInv s)
    (hdep : 1 ≤ s.tiles.getD depth 0) :
    -1 ≤ (three_pair_block go depth i s).min_shanten := by
  unfold three_pair_block
  split
  · next hguard =>
    obtain ⟨hi7, hne1, hne2⟩ := hguard
    have hk2 : depth + 2 < 27 := by omega
    have hv1 : 1 ≤ s.tiles.getD (depth + 1) 0 := by
      have := hinv.2.1 (depth + 1); omega
    have hv2 : 1 ≤ s.tiles.getD (depth + 2) 0 := by
      have := hinv.2.1 (depth + 2); omega
    simp only [decrease_syuntsu_min_shanten]
    refine hG _ _ ?_ ?_
    · exact isoOK_mono (by omega) hiso
    · exact inv_increase_syuntsu s depth hk2 hdep hv1 hv2 hinv
  · have hts := restores_tatsu_second_block go hH depth i s hiso
    have hmin_ts := minb_tatsu_second_block go hG depth i hd hi s hiso hinv hdep
    have hinv_ts := searchInv_of_restores hts hinv hmin_ts
    apply minb_tatsu_first_block go hG depth i hd hi _ (restores_isoOK hts hiso) hinv_ts
    rw [hts.1]
    exact hdep

theorem minb_double_chi_block (go : RState → Nat → RState)
    (hG : ∀ s d, IsoOK d s → SearchInv s → -1 ≤ (go s d).min_shanten)
    (depth i : Nat) (hd : depth < 27) (hi : i = depth % 9)
    (s : RState) (hiso : IsoOK depth s) (hinv : SearchInv s)
    (hdep : 2 ≤ s.tiles.getD depth 0) :
    -1 ≤ (double_chi_block go depth i s).min_shanten := by
  unfold double_chi_block
  split
  · next hguard =>
    obtain ⟨hi7, hv2, hv1⟩ := hguard
    have hk2 : depth + 2 < 27 := by omega
    have hlen : depth + 2 < s.tiles.length := by
      have := hinv.1; omega
    have hinv1 : SearchInv (increase_syuntsu s depth) :=
      inv_increase_syuntsu s depth hk2 (by omega) (by omega) (by omega) hinv
    have e0 : (increase_syuntsu s depth).tiles.getD depth 0 = s.tiles.getD depth 0 - 1 := by
      simp only [increase_syuntsu_tiles]
      rw [getD_modifyTile_ne _ _ _ _ (by omega), getD_modifyTile_ne _ _ _ _ (by omega),
        getD_modifyTile_self _ _ _ (by omega)]
      ring
    have e1 : (increase_syuntsu s depth).tiles.getD (depth + 1) 0 =
        s.tiles.getD (depth + 1) 0 - 1 := by
      simp only [increase_syuntsu_tiles]
      rw [getD_modifyTile_ne _ _ _ _ (by omega),
        getD_modifyTile_self _ _ _ (by simp; omega),
        getD_modifyTile_ne _ _ _ _ (by omega)]
      ring
    have e2 : (increase_syuntsu s depth).tiles.getD (depth + 2) 0 =
        s.tiles.getD (depth + 2) 0 - 1 := by
      simp only [increase_syuntsu_tiles]
      rw [getD_modifyTile_self _ _ _ (by simp; omega),
        getD_modifyTile_ne _ _ _ _ (by omega), getD_modifyTile_ne _ _ _ _ (by omega)]
      ring
    have hinv2 : SearchInv (increase_syuntsu (increase_syuntsu s depth) depth) := by
      apply inv_increase_syuntsu _ _ hk2 _ _ _ hinv1
      · rw [e0]; omega
      · rw [e1]; omega
      · rw [e2]; omega
    simp only [decrease_syuntsu_min_shanten]
    refine hG _ _ ?_ ?_
    · exact hiso
    · exact hinv2
  · exact hinv.2.2.2.2.2.2.2.2

theorem minb_two_chi_block (go : RState → Nat → RState)
    (hG : ∀ s d, IsoOK d s → SearchInv s → -1 ≤ (go s d).min_shanten)
    (depth i : Nat) (hd : depth < 27) (hi : i = depth % 9)
    (s : RState) (hiso : IsoOK depth s) (hinv : SearchInv s)
    (hdep : 1 ≤ s.tiles.getD depth 0) :
    -1 ≤ (two_chi_block go depth i s).min_shanten := by
  unfold two_chi_block
  split
  · next hguard =>
    obtain ⟨hi7, hne2, hne1⟩ := hguard
    have hk2 : depth + 2 < 27 := by omega
    have hv1 : 1 ≤ s.tiles.getD (depth + 1) 0 := by
      have := hinv.2.1 (depth + 1); omega
    have hv2 : 1 ≤ s.tiles.getD (depth + 2) 0 := by
      have := hinv.2.1 (depth + 2); omega
    simp only [decrease_syuntsu_min_shanten]
    refine hG _ _ ?_ ?_
    · exact hiso
    · exact inv_increase_syuntsu s depth hk2 hdep hv1 hv2 hinv
  · exact hinv.2.2.2.2.2.2.2.2


theorem minb_branch_four (go : RState → Nat → RState)
    (hH : ∀ s d, IsoOK d s → Restores s (go s d))
    (hG : ∀ s d, IsoOK d s → SearchInv s → -1 ≤ (go s d).min_shanten)
    (s : RState) (depth i : Nat) (hd : depth < 27) (hi : i = depth % 9)
    (hiso : IsoOK depth s) (hinv : SearchInv s)
    (hv : s.tiles.getD depth 0 = 4) :
    -1 ≤ (branch_four go s depth i).min_shanten := by
  unfold branch_four
  simp only [decrease_pair_min_shanten]
  have hlen : s.tiles.length = 34 := hinv.1
  have hinv1 : SearchInv (increase_set s depth) := inv_increase_set s depth hd (by omega) hinv
  have hiso1 : IsoOK depth (increase_set s depth) := hiso
  have hv1 : (increase_set s depth).tiles.getD depth 0 = 1 := by
    simp only [increase_set_tiles]
    rw [getD_modifyTile_self _ _ _ (by omega)]
    omega
  have hres_c1 := restores_chi_block go hH depth i (depth + 1) (by omega) _ hiso1
  have hmin_c1 := minb_chi_block go hH hG depth i (depth + 1) (by omega) hd hi _ hiso1 hinv1
    (le_of_eq hv1.symm)
  have hinv_c1 := searchInv_of_restores hres_c1 hinv1 hmin_c1
  have hiso_c1 := restores_isoOK hres_c1 hiso1
  have hv_c1 : (chi_block go depth i (depth + 1) (increase_set s depth)).tiles.getD depth 0 = 1 := by
    rw [hres_c1.1]
    exact hv1
  have hres_t1 := restores_tatsu_first_block go hH depth i _ hiso_c1
  have hmin_t1 := minb_tatsu_first_block go hG depth i hd hi _ hiso_c1 hinv_c1
    (le_of_eq hv_c1.symm)
  have hinv_t1 := searchInv_of_restores hres_t1 hinv_c1 hmin_t1
  have hiso_t1 := restores_isoOK hres_t1 hiso_c1
  have hv_t1 : (tatsu_first_block go depth i
      (chi_block go depth i (depth + 1) (increase_set s depth))).tiles.getD depth 0 = 1 := by
    rw [hres_t1.1]
    exact hv_c1
  have hres_i1 := restores_iso_block go hH depth hd _ hiso_t1
  have hmin_i1 := minb_iso_block go hG depth hd _ hiso_t1 hinv_t1 (le_of_eq hv_t1.symm)
  have E := restores_trans hres_c1 (restores_trans hres_t1 hres_i1)
  obtain ⟨f1, f2, f3, f4, f5, f6, f7, f8⟩ := E
  simp only [increase_set_tiles, increase_set_number_melds, increase_set_number_tatsu,
    increase_set_number_pairs, increase_set_number_jidahai, increase_set_flag_four_copies,
    increase_set_flag_isolated_tiles, increase_set_min_shanten] at f1 f2 f3 f4 f5 f6 f7 f8
  have hmid_res : Restores (increase_pair s depth)
      (increase_pair
        (decrease_set
          (iso_block go depth
            (tatsu_first_block go depth i
              (chi_block go depth i (depth + 1) (increase_set s depth)))) depth) depth) := by
    refine ⟨?_, ?_, ?_, ?_, ?_, ?_, ?_, ?_⟩ <;>
      simp [f1, f2, f3, f4, f5, f6, f7, f8, modifyTile_cancel]
  have hmid_min : -1 ≤ (increase_pair
      (decrease_set
        (iso_block go depth
          (tatsu_first_block go depth i
            (chi_block go depth i (depth + 1) (increase_set s depth)))) depth) depth).min_shanten := by
    simpa using hmin_i1
  have hinv_ip : SearchInv (increase_pair s depth) := inv_increase_pair s depth hd (by omega) hinv
  have hinv_mid := searchInv_of_restores hmid_res hinv_ip hmid_min
  have hiso_ip : IsoOK depth (increase_pair s depth) := hiso
  have hiso_mid := restores_isoOK hmid_res hiso_ip
  have hv_mid : (increase_pair
      (decrease_set
        (iso_block go depth
          (tatsu_first_block go depth i
            (chi_block go depth i (depth + 1) (increase_set s depth)))) depth) depth).tiles.getD depth 0 = 2 := by
    rw [hmid_res.1]
    simp only [increase_pair_tiles]
    rw [getD_modifyTile_self _ _ _ (by omega)]
    omega
  have hres_c2 := restores_chi_block go hH depth i depth (le_refl depth) _ hiso_mid
  have hmin_c2 := minb_chi_block go hH hG depth i depth (le_refl depth) hd hi _ hiso_mid hinv_mid
    (by rw [hv_mid]; omega)
  have hinv_c2 := searchInv_of_restores hres_c2 hinv_mid hmin_c2
  have hiso_c2 := restores_isoOK hres_c2 hiso_mid
  have hv_c2 : (chi_block go depth i depth
      (increase_pair
        (decrease_set
          (iso_block go depth
            (tatsu_first_block go depth i
              (chi_block go depth i (depth + 1) (increase_set s depth)))) depth) depth)).tiles.getD depth 0 = 2 := by
    rw [hres_c2.1]
    exact hv_mid
  exact minb_tatsu_first_block go hG depth i hd hi _ hiso_c2 hinv_c2 (by rw [hv_c2]; omega)

theorem minb_branch_three (go : RState → Nat → RState)
    (hH : ∀ s d, IsoOK d s → Restores s (go s d))
    (hG : ∀ s d, IsoOK d s → SearchInv s → -1 ≤ (go s d).min_shanten)
    (s : RState) (depth i : Nat) (hd : depth < 27) (hi : i = depth % 9)
    (hiso : IsoOK depth s) (hinv : SearchInv s)
    (hv : s.tiles.getD depth 0 = 3) :
    -1 ≤ (branch_three go s depth i).min_shanten := by
  unfold branch_three
  have hlen : s.tiles.length = 34 := hinv.1
  have e1 := restores_set_arm go hH s depth (depth + 1) (isoOK_mono (by omega) hiso)
  have hmin_e1 : -1 ≤ (decrease_set (go (increase_set s depth) (depth + 1)) depth).min_shanten := by
    simp only [decrease_set_min_shanten]
    refine hG _ _ ?_ ?_
    · exact isoOK_mono (by omega) hiso
    · exact inv_increase_set s depth hd (by omega) hinv
  obtain ⟨f1, f2, f3, f4, f5, f6, f7, f8⟩ := e1
  simp only [decrease_set_tiles, decrease_set_number_melds, decrease_set_number_tatsu,
    decrease_set_number_pairs, decrease_set_number_jidahai, decrease_set_flag_four_copies,
    decrease_set_flag_isolated_tiles, decrease_set_min_shanten] at f1 f2 f3 f4 f5 f6 f7 f8
  have hmid_res : Restores (increase_pair s depth)
      (increase_pair (decrease_set (go (increase_set s depth) (depth + 1)) depth) depth) := by
    refine ⟨?_, ?_, ?_, ?_, ?_, ?_, ?_, ?_⟩ <;> simp [f1, f2, f3, f4, f5, f6, f7, f8]
  have hmid_min : -1 ≤ (increase_pair
      (decrease_set (go (increase_set s depth) (depth + 1)) depth) depth).min_shanten := by
    simpa using hmin_e1
  have hinv_ip : SearchInv (increase_pair s depth) := inv_increase_pair s depth hd (by omega) hinv
  have hinv_mid := searchInv_of_restores hmid_res hinv_ip hmid_min
  have hiso_ip : IsoOK depth (increase_pair s depth) := hiso
  have hiso_mid := restores_isoOK hmid_res hiso_ip
  have hv_mid : (increase_pair
      (decrease_set (go (increase_set s depth) (depth + 1)) depth) depth).tiles.getD depth 0 = 1 := by
    rw [hmid_res.1]
    simp only [increase_pair_tiles]
    rw [getD_modifyTile_self _ _ _ (by omega)]
    omega
  have hres_tp := restores_three_pair_block go hH depth i _ hiso_mid
  have hmin_tp := minb_three_pair_block go hH hG depth i hd hi _ hiso_mid hinv_mid
    (le_of_eq hv_mid.symm)
  have F := restores_trans hmid_res hres_tp
  obtain ⟨g1, g2, g3, g4, g5, g6, g7, g8⟩ := F
  simp only [increase_pair_tiles, increase_pair_number_melds, increase_pair_number_tatsu,
    increase_pair_number_pairs, increase_pair_number_jidahai, increase_pair_flag_four_copies,
    increase_pair_flag_isolated_tiles, increase_pair_min_shanten] at g1 g2 g3 g4 g5 g6 g7 g8
  have hout_res : Restores s
      (decrease_pair
        (three_pair_block go depth i
          (increase_pair
            (decrease_set (go (increase_set s depth) (depth + 1)) depth) depth)) depth) := by
    refine ⟨?_, ?_, ?_, ?_, ?_, ?_, ?_, ?_⟩ <;>
      simp [g1, g2, g3, g4, g5, g6, g7, g8, modifyTile_cancel]
  have hout_min : -1 ≤ (decrease_pair
      (three_pair_block go depth i
        (increase_pair
          (decrease_set (go (increase_set s depth) (depth + 1)) depth) depth)) depth).min_shanten := by
    simpa using hmin_tp
  have hinv_out := searchInv_of_restores hout_res hinv hout_min
  have hiso_out := restores_isoOK hout_res hiso
  have hv_out : (decrease_pair
      (three_pair_block go depth i
        (increase_pair
          (decrease_set (go (increase_set s depth) (depth + 1)) depth) depth)) depth).tiles.getD depth 0 = 3 := by
    rw [hout_res.1]
    exact hv
  exact minb_double_chi_block go hG depth i hd hi _ hiso_out hinv_out (by rw [hv_out]; omega)

theorem minb_branch_two (go : RState → Nat → RState)
    (hH : ∀ s d, IsoOK d s → Restores s (go s d))
    (hG : ∀ s d, IsoOK d s → SearchInv s → -1 ≤ (go s d).min_shanten)
    (s : RState) (depth i : Nat) (hd : depth < 27) (hi : i = depth % 9)
    (hiso : IsoOK depth s) (hinv : SearchInv s)
    (hv : s.tiles.getD depth 0 = 2) :
    -1 ≤ (branch_two go s depth i).min_shanten := by
  unfold branch_two
  have hlen : s.tiles.length = 34 := hinv.1
  have e1 := restores_pair_arm go hH s depth (depth + 1) (isoOK_mono (by omega) hiso)
  have hmin_e1 : -1 ≤ (decrease_pair (go (increase_pair s depth) (depth + 1)) depth).min_shanten := by
    simp only [decrease_pair_min_shanten]
    refine hG _ _ ?_ ?_
    · exact isoOK_mono (by omega) hiso
    · exact inv_increase_pair s depth hd (by omega) hinv
  have hinv_e1 := searchInv_of_restores e1 hinv hmin_e1
  have hiso_e1 := restores_isoOK e1 hiso
  have hv_e1 : (decrease_pair (go (increase_pair s depth) (depth + 1)) depth).tiles.getD depth 0 = 2 := by
    rw [e1.1]
    exact hv
  exact minb_two_chi_block go hG depth i hd hi _ hiso_e1 hinv_e1 (by rw [hv_e1]; omega)

theorem minb_branch_one (go : RState → Nat → RState)
    (hH : ∀ s d, IsoOK d s → Restores s (go s d))
    (hG : ∀ s d, IsoOK d s → SearchInv s → -1 ≤ (go s d).min_shanten)
    (s : RState) (depth i : Nat) (hd : depth < 27) (hi : i = depth % 9)
    (hiso : IsoOK depth s) (hinv : SearchInv s)
    (hv : s.tiles.getD depth 0 = 1) :
    -1 ≤ (branch_one go s depth i).min_shanten := by
  unfold branch_one
  split
  · next hguard =>
    obtain ⟨hi6, he1, hne2, _⟩ := hguard
    have hk2 : depth + 2 < 27 := by omega
    have hv2 : 1 ≤ s.tiles.getD (depth + 2) 0 := by
      have := hinv.2.1 (depth + 2); omega
    simp only [decrease_syuntsu_min_shanten]
    refine hG _ _ ?_ ?_
    · exact isoOK_mono (by omega) hiso
    · exact inv_increase_syuntsu s depth hk2 (by omega) (by omega) hv2 hinv
  · have hres_i1 := restores_iso_block go hH depth hd s hiso
    have hmin_i1 := minb_iso_block go hG depth hd s hiso hinv (by omega)
    have hinv_i1 := searchInv_of_restores hres_i1 hinv hmin_i1
    have hiso_i1 := restores_isoOK hres_i1 hiso
    have hv_i1 : (iso_block go depth s).tiles.getD depth 0 = 1 := by
      rw [hres_i1.1]
      exact hv
    have hres_c1 := restores_chi_block go hH depth i (depth + 1) (by omega) _ hiso_i1
    have hmin_c1 := minb_chi_block go hH hG depth i (depth + 1) (by omega) hd hi _ hiso_i1
      hinv_i1 (le_of_eq hv_i1.symm)
    have hinv_c1 := searchInv_of_restores hres_c1 hinv_i1 hmin_c1
    have hiso_c1 := restores_isoOK hres_c1 hiso_i1
    have hv_c1 : (chi_block go depth i (depth + 1) (iso_block go depth s)).tiles.getD depth 0 = 1 := by
      rw [hres_c1.1]
      exact hv_i1
    exact minb_tatsu_first_block go hG depth i hd hi _ hiso_c1 hinv_c1 (le_of_eq hv_c1.symm)

/-- `_run` keeps `min_shanten` at or above the agari sentinel whenever the
input state satisfies the counting invariant. -/
theorem run_min_ge (fuel : Nat) :
    ∀ (s : RState) (d : Nat), IsoOK d s → SearchInv s → -1 ≤ (run fuel s d).min_shanten := by
  induction fuel with
  | zero => intro s d _ hinv; exact hinv.2.2.2.2.2.2.2.2
  | succ fuel IH =>
    intro s d hiso hinv
    have hH : ∀ s d, IsoOK d s → Restores s (run fuel s d) := run_restores fuel
    rw [run]
    by_cases hmin : s.min_shanten = AGARI_STATE
    · rw [if_pos hmin]; exact hinv.2.2.2.2.2.2.2.2
    · rw [if_neg hmin]
      simp only []
      by_cases h27 : 27 ≤ advance_depth s.tiles d
      · rw [if_pos h27]; exact update_result_min_ge s hinv
      · rw [if_neg h27]
        have hge : d ≤ advance_depth s.tiles d := advance_depth_ge s.tiles d
        have hlt : advance_depth s.tiles d < 27 := by omega
        have hiso' : IsoOK (advance_depth s.tiles d) s := isoOK_mono hge hiso
        have hieq : (if 8 < (if 8 < advance_depth s.tiles d then advance_depth s.tiles d - 9
              else advance_depth s.tiles d) then
            (if 8 < advance_depth s.tiles d then advance_depth s.tiles d - 9
              else advance_depth s.tiles d) - 9
          else (if 8 < advance_depth s.tiles d then advance_depth s.tiles d - 9
              else advance_depth s.tiles d)) = advance_depth s.tiles d % 9 := by
          split_ifs <;> omega
        by_cases h4 : s.tiles.getD (advance_depth s.tiles d) 0 = 4
        · rw [if_pos h4]
          exact minb_branch_four _ hH IH s _ _ hlt hieq hiso' hinv h4
        · rw [if_neg h4]
          by_cases h3 : s.tiles.getD (advance_depth s.tiles d) 0 = 3
          · rw [if_pos h3]
            exact minb_branch_three _ hH IH s _ _ hlt hieq hiso' hinv h3
          · rw [if_neg h3]
            by_cases h2 : s.tiles.getD (advance_depth s.tiles d) 0 = 2
            · rw [if_pos h2]
              exact minb_branch_two _ hH IH s _ _ hlt hieq hiso' hinv h2
            · rw [if_neg h2]
              by_cases h1 : s.tiles.getD (advance_depth s.tiles d) 0 = 1
              · rw [if_pos h1]
                exact minb_branch_one _ hH IH s _ _ hlt hieq hiso' hinv h1
              · rw [if_neg h1]
                exact hinv.2.2.2.2.2.2.2.2


/-! ## The state handed to the suited search satisfies the invariant -/

theorem nonneg_getD (l : List Int) (hnn : ∀ x ∈ l, 0 ≤ x) : ∀ i, 0 ≤ l.getD i 0 := by
  intro i
  rcases Nat.lt_or_ge i l.length with h | h
  · rw [List.getD_eq_getElem _ _ h]
    exact hnn _ (l.getElem_mem h)
  · rw [List.getD_eq_default _ _ h]

theorem getD_range_sum (l : List Int) :
    ∑ i in Finset.range l.length, l.getD i 0 = l.sum := by
  induction l with
  | nil => simp
  | cons a t ih =>
    rw [List.length_cons, Finset.sum_range_succ']
    simp only [List.getD_cons_succ, List.getD_cons_zero, List.sum_cons]
    rw [ih]
    ring

theorem sum_split_34 (l : List Int) (hlen : l.length = 34) :
    l.sum = suitedSum l + (([0, 1, 2, 3, 4, 5, 6].map (fun b => l.getD (27 + b) 0)).sum) := by
  have h := getD_range_sum l
  rw [hlen] at h
  rw [← h]
  show ∑ i in Finset.range 34, l.getD i 0 = _
  rw [show (34 : Nat) = 33 + 1 from rfl, Finset.sum_range_succ,
    show (33 : Nat) = 32 + 1 from rfl, Finset.sum_range_succ,
    show (32 : Nat) = 31 + 1 from rfl, Finset.sum_range_succ,
    show (31 : Nat) = 30 + 1 from rfl, Finset.sum_range_succ,
    show (30 : Nat) = 29 + 1 from rfl, Finset.sum_range_succ,
    show (29 : Nat) = 28 + 1 from rfl, Finset.sum_range_succ,
    show (28 : Nat) = 27 + 1 from rfl, Finset.sum_range_succ]
  unfold suitedSum
  simp only [List.map_cons, List.map_nil, List.sum_cons, List.sum_nil]
  norm_num
  ring

theorem honor_fold_bounds (tiles : List Int) (hnn : ∀ i, 0 ≤ tiles.getD i 0) :
    ∀ (L : List Nat) (m p j : Int) (fc iso : Nat),
      m ≤ (L.foldl (honor_step tiles) (m, p, j, fc, iso)).1 ∧
      p ≤ (L.foldl (honor_step tiles) (m, p, j, fc, iso)).2.1 ∧
      j ≤ (L.foldl (honor_step tiles) (m, p, j, fc, iso)).2.2.1 ∧
      (L.foldl (honor_step tiles) (m, p, j, fc, iso)).2.2.1 ≤ j + L.length ∧
      3 * ((L.foldl (honor_step tiles) (m, p, j, fc, iso)).1 - m) +
        2 * ((L.foldl (honor_step tiles) (m, p, j, fc, iso)).2.1 - p) ≤
        (L.map (fun b => tiles.getD (27 + b) 0)).sum := by
  intro L
  induction L with
  | nil => intro m p j fc iso; simp
  | cons b L ih =>
    intro m p j fc iso
    rw [List.foldl_cons, List.map_cons, List.sum_cons, List.length_cons]
    have hc := hnn (27 + b)
    by_cases h4 : tiles.getD (27 + b) 0 = 4
    · have hstep : honor_step tiles (m, p, j, fc, iso) b =
          (m + 1, p, j + 1, fc ||| (1 <<< b), iso ||| (1 <<< b)) := by
        simp only [honor_step]
        split_ifs <;> first | rfl | omega
      rw [hstep]
      have h := ih (m + 1) p (j + 1) (fc ||| (1 <<< b)) (iso ||| (1 <<< b))
      push_cast
      omega
    · by_cases h3 : tiles.getD (27 + b) 0 = 3
      · have hstep : honor_step tiles (m, p, j, fc, iso) b = (m + 1, p, j, fc, iso) := by
          simp only [honor_step]
          split_ifs <;> first | rfl | omega
        rw [hstep]
        have h := ih (m + 1) p j fc iso
        push_cast
        omega
      · by_cases h2 : tiles.getD (27 + b) 0 = 2
        · have hstep : honor_step tiles (m, p, j, fc, iso) b = (m, p + 1, j, fc, iso) := by
            simp only [honor_step]
            split_ifs <;> first | rfl | omega
          rw [hstep]
          have h := ih m (p + 1) j fc iso
          push_cast
          omega
        · have hstep : honor_step tiles (m, p, j, fc, iso) b =
              (m, p, j, fc, if tiles.getD (27 + b) 0 = 1 then iso ||| (1 <<< b) else iso) := by
            simp only [honor_step]
            split_ifs <;> first | rfl | omega
          rw [hstep]
          have h := ih m p j fc (if tiles.getD (27 + b) 0 = 1 then iso ||| (1 <<< b) else iso)
          push_cast
          omega


theorem rct_tiles (s : RState) (nc : Int) :
    (remove_character_tiles s nc).tiles = s.tiles := rfl

theorem rct_tatsu (s : RState) (nc : Int) :
    (remove_character_tiles s nc).number_tatsu = s.number_tatsu := rfl

theorem rct_min (s : RState) (nc : Int) :
    (remove_character_tiles s nc).min_shanten = s.min_shanten := rfl

theorem rct_melds (s : RState) (nc : Int) :
    (remove_character_tiles s nc).number_melds =
    ([0, 1, 2, 3, 4, 5, 6].foldl (honor_step s.tiles)
      (s.number_melds, s.number_pairs, s.number_jidahai, 0, 0)).1 := rfl

theorem rct_pairs (s : RState) (nc : Int) :
    (remove_character_tiles s nc).number_pairs =
    ([0, 1, 2, 3, 4, 5, 6].foldl (honor_step s.tiles)
      (s.number_melds, s.number_pairs, s.number_jidahai, 0, 0)).2.1 := rfl

theorem rct_jid (s : RState) (nc : Int) :
    (remove_character_tiles s nc).number_jidahai =
    (if ([0, 1, 2, 3, 4, 5, 6].foldl (honor_step s.tiles)
          (s.number_melds, s.number_pairs, s.number_jidahai, 0, 0)).2.2.1 ≠ 0 ∧ nc % 3 = 2 then
      ([0, 1, 2, 3, 4, 5, 6].foldl (honor_step s.tiles)
        (s.number_melds, s.number_pairs, s.number_jidahai, 0, 0)).2.2.1 - 1
    else
      ([0, 1, 2, 3, 4, 5, 6].foldl (honor_step s.tiles)
        (s.number_melds, s.number_pairs, s.number_jidahai, 0, 0)).2.2.1) := rfl

theorem rct_iso (s : RState) (nc : Int) :
    (remove_character_tiles s nc).flag_isolated_tiles =
    (if ([0, 1, 2, 3, 4, 5, 6].foldl (honor_step s.tiles)
          (s.number_melds, s.number_pairs, s.number_jidahai, 0, 0)).2.2.2.2 ≠ 0 then
      s.flag_isolated_tiles ||| (1 <<< 27)
    else s.flag_isolated_tiles) := rfl

/-- The state handed to `_run` by `calculate` is a 28-bit isolation mask
with all suited bits clear. -/
theorem isoOK_calculate_start (l : List Int) (ff : Nat) (m : Int) :
    IsoOK 0 { remove_character_tiles (initState l) l.sum with
      flag_four_copies := ff, number_melds := m } := by
  constructor
  · show (remove_character_tiles (initState l) l.sum).flag_isolated_tiles < 2 ^ 28
    rw [rct_iso]
    split
    · show (0 : Nat) ||| (1 <<< 27) < 2 ^ 28
      exact or_one_shiftLeft_lt _ _ (by norm_num) (by norm_num)
    · show (0 : Nat) < 2 ^ 28
      norm_num
  · intro k _ hk
    show (remove_character_tiles (initState l) l.sum).flag_isolated_tiles.testBit k = false
    rw [rct_iso]
    split
    · show ((0 : Nat) ||| (1 <<< 27)).testBit k = false
      rw [testBit_or_one]
      have h27 : (27 : Nat) ≠ k := by omega
      simp [h27, Nat.zero_testBit]
    · show (0 : Nat).testBit k = false
      exact Nat.zero_testBit k

/-- The state handed to `_run` by `calculate` satisfies the counting
invariant whenever the input array is a valid hand. -/
theorem searchInv_calculate_start (l : List Int) (hlen : l.length = 34)
    (hnn : ∀ x ∈ l, 0 ≤ x) (hsum : l.sum ≤ 14) (ff : Nat) :
    SearchInv { remove_character_tiles (initState l) l.sum with
      flag_four_copies := ff,
      number_melds :=
        (remove_character_tiles (initState l) l.sum).number_melds + (14 - l.sum) / 3 } := by
  have hget := nonneg_getD l hnn
  have hfold := honor_fold_bounds l hget [0, 1, 2, 3, 4, 5, 6] 0 0 0 0 0
  have hsplit := sum_split_34 l hlen
  have hdiv1 : 0 ≤ (14 - l.sum) / 3 := by omega
  have hdiv2 : 3 * ((14 - l.sum) / 3) ≤ 14 - l.sum := by omega
  refine ⟨hlen, hget, ?_, ?_, ?_, ?_, ?_, ?_, ?_⟩
  · show 3 * ((remove_character_tiles (initState l) l.sum).number_melds + (14 - l.sum) / 3) +
      2 * (remove_character_tiles (initState l) l.sum).number_tatsu +
      2 * (remove_character_tiles (initState l) l.sum).number_pairs + suitedSum l ≤ 14
    rw [rct_melds, rct_tatsu, rct_pairs]
    show 3 * (([0, 1, 2, 3, 4, 5, 6].foldl (honor_step l) (0, 0, 0, 0, 0)).1 + (14 - l.sum) / 3) +
      2 * 0 + 2 * ([0, 1, 2, 3, 4, 5, 6].foldl (honor_step l) (0, 0, 0, 0, 0)).2.1 +
      suitedSum l ≤ 14
    have h5 := hfold.2.2.2.2
    have h1 := hfold.1
    have h2 := hfold.2.1
    simp only [sub_zero] at h5
    linarith [hsplit, hdiv2, h5]
  · show 0 ≤ (remove_character_tiles (initState l) l.sum).number_melds + (14 - l.sum) / 3
    rw [rct_melds]
    show 0 ≤ ([0, 1, 2, 3, 4, 5, 6].foldl (honor_step l) (0, 0, 0, 0, 0)).1 + (14 - l.sum) / 3
    have h1 := hfold.1
    linarith
  · show (0 : Int) ≤ (remove_character_tiles (initState l) l.sum).number_tatsu
    rw [rct_tatsu]
    exact le_refl 0
  · show (0 : Int) ≤ (remove_character_tiles (initState l) l.sum).number_pairs
    rw [rct_pairs]
    exact hfold.2.1
  · show (0 : Int) ≤ (remove_character_tiles (initState l) l.sum).number_jidahai
    rw [rct_jid]
    simp only [initState]
    have h3 := hfold.2.2.1
    have h4 := hfold.2.2.2.1
    split
    · next hcond =>
      have : ([0, 1, 2, 3, 4, 5, 6].foldl (honor_step l) (0, 0, 0, 0, 0)).2.2.1 ≠ 0 := hcond.1
      omega
    · omega
  · show (remove_character_tiles (initState l) l.sum).number_jidahai ≤ 7
    rw [rct_jid]
    simp only [initState]
    have h4 := hfold.2.2.2.1
    have hlen7 : ([0, 1, 2, 3, 4, 5, 6] : List Nat).length = 7 := rfl
    rw [hlen7] at h4
    push_cast at h4
    split <;> omega
  · show (-1 : Int) ≤ (remove_character_tiles (initState l) l.sum).min_shanten
    rw [rct_min]
    norm_num [initState]

/-- On the non-raising path the regular solver's `min_shanten` stays in
`[-1, 8]` for every valid hand. -/
theorem regular_final_min_bounds (l : List Int) (hlen : l.length = 34)
    (hnn : ∀ x ∈ l, 0 ≤ x) (hsum : l.sum ≤ 14) :
    -1 ≤ (regular_final_state l).min_shanten ∧ (regular_final_state l).min_shanten ≤ 8 := by
  unfold regular_final_state scan
  simp only []
  constructor
  · exact run_min_ge RUN_FUEL _ 0 (isoOK_calculate_start l _ _)
      (searchInv_calculate_start l hlen hnn hsum _)
  · have h := run_restores RUN_FUEL _ 0 (isoOK_calculate_start l
      ((List.range 27).foldl
        (fun f i =>
          if (remove_character_tiles (initState l) l.sum).tiles.getD i 0 = 4 then
            f ||| (1 <<< i)
          else f)
        (remove_character_tiles (initState l) l.sum).flag_four_copies)
      ((remove_character_tiles (initState l) l.sum).number_melds + (14 - l.sum) / 3))
    refine le_trans h.2.2.2.2.2.2.2 ?_
    show (remove_character_tiles (initState l) l.sum).min_shanten ≤ 8
    rw [rct_min]
    norm_num [initState]


/-! ## Facts about the chiitoitsu and kokushi counters -/

theorem countP_set_int (p : Int → Bool) :
    ∀ (l : List Int) (t : Nat), t < l.length → ∀ (v : Int),
      (((l.set t v).countP p : Nat) : Int) =
        (l.countP p : Int) + (if p v then 1 else 0) - (if p (l.getD t 0) then 1 else 0) := by
  intro l
  induction l with
  | nil => intro t ht; simp at ht
  | cons a l ih =>
    intro t ht v
    cases t with
    | zero =>
      simp only [List.set_cons_zero, List.countP_cons, List.getD_cons_zero]
      push_cast
      split_ifs <;> omega
    | succ t =>
      simp only [List.set_cons_succ, List.countP_cons, List.getD_cons_succ]
      have := ih t (by simpa using ht) v
      push_cast at this ⊢
      split_ifs at this ⊢ <;> omega

theorem countP_ones_lt (l : List Int) (t : Nat) (ht : t < l.length)
    (h1 : l.getD t 0 = 1) :
    (l.countP (fun x => decide (2 ≤ x)) : Int) + 1 ≤ l.countP (fun x => decide (1 ≤ x)) := by
  have hmono : (l.set t 0).countP (fun x => decide (2 ≤ x)) ≤
      (l.set t 0).countP (fun x => decide (1 ≤ x)) := by
    apply List.countP_mono_left
    intro a _ ha
    simp only [decide_eq_true_eq] at ha ⊢
    omega
  have h2 := countP_set_int (fun x => decide (2 ≤ x)) l t ht 0
  have h1' := countP_set_int (fun x => decide (1 ≤ x)) l t ht 0
  rw [h1] at h2 h1'
  norm_num at h2 h1'
  omega

theorem chiitoitsu_ge_neg_one (l : List Int) (hnn : ∀ x ∈ l, 0 ≤ x) (hsum : l.sum ≤ 14) :
    -1 ≤ calculate_shanten_for_chiitoitsu_hand l := by
  have hP : 2 * ((l.filter (fun x => decide (2 ≤ x))).length : Int) ≤ l.sum := by
    clear hsum
    induction l with
    | nil => simp
    | cons a t ih =>
      have ha := hnn a (List.mem_cons_self a t)
      have ih' := ih (fun x hx => hnn x (List.mem_cons_of_mem a hx))
      by_cases h : 2 ≤ a
      · rw [List.filter_cons_of_pos (by simpa using h)]
        simp only [List.length_cons, List.sum_cons]
        push_cast
        omega
      · rw [List.filter_cons_of_neg (by simpa using h)]
        simp only [List.sum_cons]
        omega
  have hmono : (l.filter (fun x => decide (2 ≤ x))).length ≤
      (l.filter (fun x => decide (1 ≤ x))).length := by
    rw [← List.countP_eq_length_filter, ← List.countP_eq_length_filter]
    apply List.countP_mono_left
    intro a _ ha
    simp only [decide_eq_true_eq] at ha ⊢
    omega
  simp only [calculate_shanten_for_chiitoitsu_hand, AGARI_STATE]
  split_ifs <;> push_cast <;> omega

theorem kokushi_ge_neg_one (l : List Int) : -1 ≤ calculate_shanten_for_kokushi_hand l := by
  have hT : (TERMINAL_AND_HONOR_INDICES.filter
      (fun i => decide (l.getD i 0 ≠ 0))).length ≤ 13 := by
    have := List.length_filter_le (fun i => decide (l.getD i 0 ≠ 0)) TERMINAL_AND_HONOR_INDICES
    simpa [TERMINAL_AND_HONOR_INDICES] using this
  simp only [calculate_shanten_for_kokushi_hand]
  split_ifs <;> push_cast <;> omega

theorem kokushi_le_13 (l : List Int) : calculate_shanten_for_kokushi_hand l ≤ 13 := by
  simp only [calculate_shanten_for_kokushi_hand]
  split_ifs <;> push_cast <;> omega


/-! ## Theorems for the frozen claims -/

/-- C1 (counterexample): the count array `[5, 0, …, 0]` violates the
claimed precondition "every entry at most 4", yet `calculate_shanten`
raises nothing and returns 8. -/
theorem C1_counterexample_entry_five_not_rejected :
    (([5, 0, 0, 0, 0, 0, 0, 0, 0, 0, 0, 0, 0, 0, 0, 0, 0,
       0, 0, 0, 0, 0, 0, 0, 0, 0, 0, 0, 0, 0, 0, 0, 0, 0] : List Int).sum ≤ 14 ∧
      ∃ x ∈ ([5, 0, 0, 0, 0, 0, 0, 0, 0, 0, 0, 0, 0, 0, 0, 0, 0,
        0, 0, 0, 0, 0, 0, 0, 0, 0, 0, 0, 0, 0, 0, 0, 0, 0] : List Int), 4 < x) ∧
    calculate_shanten [5, 0, 0, 0, 0, 0, 0, 0, 0, 0, 0, 0, 0, 0, 0, 0, 0,
      0, 0, 0, 0, 0, 0, 0, 0, 0, 0, 0, 0, 0, 0, 0, 0, 0] true true = Except.ok 8 := by
  constructor
  · constructor
    · decide
    · exact ⟨5, by decide, by decide⟩
  · rfl

/-- C1 (amended): `calculate` (hence `calculate_shanten`, for every flag
setting) raises `ValueError` exactly when the sum of counts exceeds 14;
entries below 0 or above 4 are not checked, and every input whose sum is
at most 14 returns a result without raising. -/
theorem C1_amended_raises_iff_sum_gt_14 (l : List Int) (u k : Bool) :
    (calculate_shanten_for_regular_hand l = Except.error "Too many tiles" ↔ 14 < l.sum) ∧
    (calculate_shanten l u k = Except.error "Too many tiles" ↔ 14 < l.sum) ∧
    (¬ 14 < l.sum → ∃ r, calculate_shanten l u k = Except.ok r) := by
  by_cases h : 14 < l.sum
  · have hreg : calculate_shanten_for_regular_hand l = Except.error "Too many tiles" := by
      unfold calculate_shanten_for_regular_hand calculate
      rw [if_pos h]
    refine ⟨by simp [hreg, h], ?_, ?_⟩
    · simp only [calculate_shanten, hreg]
      simp [h, Bind.bind, Except.bind]
    · intro hc; exact absurd h hc
  · have hreg : calculate_shanten_for_regular_hand l =
        Except.ok (regular_final_state l).min_shanten := by
      unfold calculate_shanten_for_regular_hand calculate
      rw [if_neg h]
    refine ⟨by simp [hreg, h], ?_, ?_⟩
    · simp only [calculate_shanten, hreg]
      simp [h, Bind.bind, Except.bind, pure, Except.pure]
    · intro _
      simp only [calculate_shanten, hreg]
      exact ⟨_, rfl⟩

/-- C2: on every valid 34-count array (length 34, entries in `0..4`, sum
in `1..14`) and for every flag setting, `calculate_shanten` returns an
integer in `[-1, 8]`. -/
theorem C2_result_in_range (l : List Int) (u k : Bool)
    (hlen : l.length = 34) (hbound : ∀ x ∈ l, 0 ≤ x ∧ x ≤ 4)
    (hsum1 : 1 ≤ l.sum) (hsum : l.sum ≤ 14) :
    ∃ r, calculate_shanten l u k = Except.ok r ∧ -1 ≤ r ∧ r ≤ 8 := by
  have hnn : ∀ x ∈ l, 0 ≤ x := fun x hx => (hbound x hx).1
  have hreg := regular_final_min_bounds l hlen hnn hsum
  have hchi := chiitoitsu_ge_neg_one l hnn hsum
  have hkok := kokushi_ge_neg_one l
  have hregeq : calculate_shanten_for_regular_hand l =
      Except.ok (regular_final_state l).min_shanten := by
    unfold calculate_shanten_for_regular_hand calculate
    rw [if_neg (by omega)]
  refine ⟨((if u then [calculate_shanten_for_chiitoitsu_hand l] else []) ++
      (if k then [calculate_shanten_for_kokushi_hand l] else [])).foldl min
      (regular_final_state l).min_shanten, ?_, ?_⟩
  · simp only [calculate_shanten, hregeq]
    rfl
  · rcases u <;> rcases k <;>
      simp only [List.foldl, if_true, if_false, List.nil_append, List.append_nil,
        List.cons_append] <;>
      omega

/-- C6: the regular solver copies the caller's array and undoes every
mutation of the copy before returning: the count array held by the solver
state after `calculate_shanten_for_regular_hand`'s search equals the input
array, element for element. -/
theorem C6_regular_solver_restores_tiles (tiles_34 : List Int) :
    (regular_final_state tiles_34).tiles = tiles_34 := by
  unfold regular_final_state scan
  simp only []
  exact (run_restores RUN_FUEL _ 0 (isoOK_calculate_start tiles_34 _ _)).1

/-- C10: the all-zero 34-count array (an empty hand) neither raises nor
yields the sentinel 8: the regular solver credits `(14 - 0) / 3 = 4`
implied melds and scores `8 - 2 * 4 = 0`, so `calculate_shanten` returns 0
with both flags at their defaults. -/
theorem C10_empty_hand_returns_zero :
    (List.replicate 34 (0 : Int)).sum = 0 ∧
    calculate_shanten (List.replicate 34 (0 : Int)) true true = Except.ok 0 := by
  exact ⟨by rfl, by rfl⟩

theorem C2_result_in_range_witness :
    (([2, 0, 0, 0, 0, 0, 0, 0, 0, 0, 0, 0, 0, 0, 0, 0, 0,
       0, 0, 0, 0, 0, 0, 0, 0, 0, 0, 0, 0, 0, 0, 0, 0, 0] : List Int).length = 34 ∧
      (∀ x ∈ ([2, 0, 0, 0, 0, 0, 0, 0, 0, 0, 0, 0, 0, 0, 0, 0, 0,
        0, 0, 0, 0, 0, 0, 0, 0, 0, 0, 0, 0, 0, 0, 0, 0, 0] : List Int), 0 ≤ x ∧ x ≤ 4) ∧
      1 ≤ ([2, 0, 0, 0, 0, 0, 0, 0, 0, 0, 0, 0, 0, 0, 0, 0, 0,
        0, 0, 0, 0, 0, 0, 0, 0, 0, 0, 0, 0, 0, 0, 0, 0, 0] : List Int).sum ∧
      ([2, 0, 0, 0, 0, 0, 0, 0, 0, 0, 0, 0, 0, 0, 0, 0, 0,
        0, 0, 0, 0, 0, 0, 0, 0, 0, 0, 0, 0, 0, 0, 0, 0, 0] : List Int).sum ≤ 14) ∧
    ∃ r, calculate_shanten [2, 0, 0, 0, 0, 0, 0, 0, 0, 0, 0, 0, 0, 0, 0, 0, 0,
      0, 0, 0, 0, 0, 0, 0, 0, 0, 0, 0, 0, 0, 0, 0, 0, 0] true true = Except.ok r ∧
      -1 ≤ r ∧ r ≤ 8 :=
  ⟨⟨by decide, by decide, by decide, by decide⟩,
    C2_result_in_range [2, 0, 0, 0, 0, 0, 0, 0, 0, 0, 0, 0, 0, 0, 0, 0, 0,
      0, 0, 0, 0, 0, 0, 0, 0, 0, 0, 0, 0, 0, 0, 0, 0, 0] true true
      (by decide) (by decide) (by decide) (by decide)⟩


theorem getD_set_self (l : List Int) (t : Nat) (v : Int) (h : t < l.length) :
    (l.set t v).getD t 0 = v := by
  rw [List.getD_eq_getElem _ _ (by simpa using h), List.getElem_set_self]

theorem length_filter_getD_set (p : Int → Bool) :
    ∀ (L : List Nat), L.Nodup → ∀ (l : List Int) (t : Nat), t < l.length → ∀ (v : Int),
      ((L.filter (fun i => p ((l.set t v).getD i 0))).length : Int) =
        ((L.filter (fun i => p (l.getD i 0))).length : Int) +
        (if t ∈ L then (if p v then 1 else 0) - (if p (l.getD t 0) then 1 else 0) else 0) := by
  intro L
  induction L with
  | nil => intro _ l t ht v; simp
  | cons i L ih =>
    intro hnd l t ht v
    have hmem : i ∉ L := (List.nodup_cons.mp hnd).1
    have hnd' : L.Nodup := (List.nodup_cons.mp hnd).2
    have hIH := ih hnd' l t ht v
    rcases eq_or_ne i t with hit | hit
    · subst hit
      have hhead : ((l.set i v).getD i 0) = v := getD_set_self l i v ht
      have hmem2 : i ∈ i :: L := List.mem_cons_self i L
      rw [List.filter_cons, List.filter_cons, hhead]
      rw [if_neg (by simpa using hmem)] at hIH
      simp only [if_pos hmem2]
      split_ifs <;> (try simp only [List.length_cons]) <;> (try push_cast) <;> omega
    · have hhead : ((l.set t v).getD i 0) = l.getD i 0 := getD_set_ne l t i v hit
      have hmem2 : (t ∈ i :: L) ↔ (t ∈ L) := by
        simp [List.mem_cons, Ne.symm hit]
      rw [List.filter_cons, List.filter_cons, hhead]
      by_cases htL : t ∈ L
      · rw [if_pos htL] at hIH
        rw [if_pos (hmem2.mpr htL)]
        split_ifs at hIH ⊢ <;> (try simp only [List.length_cons]) <;>
          (try push_cast at hIH ⊢) <;> omega
      · rw [if_neg htL] at hIH
        rw [if_neg (fun h => htL (hmem2.mp h))]
        split_ifs at hIH ⊢ <;> (try simp only [List.length_cons]) <;>
          (try push_cast at hIH ⊢) <;> omega

/-- C5 (counterexample): the hand with a single pair of type 0 is a valid
array of 2 tiles and is already complete (`-1`); adding one tile of type 1
yields shanten 1, so a single added tile moved the result by 2. -/
theorem C5_counterexample_pair_plus_tile :
    (([2, 0, 0, 0, 0, 0, 0, 0, 0, 0, 0, 0, 0, 0, 0, 0, 0,
       0, 0, 0, 0, 0, 0, 0, 0, 0, 0, 0, 0, 0, 0, 0, 0, 0] : List Int).sum ≤ 13 ∧
      (∀ x ∈ ([2, 0, 0, 0, 0, 0, 0, 0, 0, 0, 0, 0, 0, 0, 0, 0, 0,
        0, 0, 0, 0, 0, 0, 0, 0, 0, 0, 0, 0, 0, 0, 0, 0, 0] : List Int), 0 ≤ x ∧ x ≤ 4)) ∧
    ([2, 1, 0, 0, 0, 0, 0, 0, 0, 0, 0, 0, 0, 0, 0, 0, 0,
      0, 0, 0, 0, 0, 0, 0, 0, 0, 0, 0, 0, 0, 0, 0, 0, 0] : List Int) =
      ([2, 0, 0, 0, 0, 0, 0, 0, 0, 0, 0, 0, 0, 0, 0, 0, 0,
        0, 0, 0, 0, 0, 0, 0, 0, 0, 0, 0, 0, 0, 0, 0, 0, 0] : List Int).set 1
        (([2, 0, 0, 0, 0, 0, 0, 0, 0, 0, 0, 0, 0, 0, 0, 0, 0,
          0, 0, 0, 0, 0, 0, 0, 0, 0, 0, 0, 0, 0, 0, 0, 0, 0] : List Int).getD 1 0 + 1) ∧
    calculate_shanten [2, 0, 0, 0, 0, 0, 0, 0, 0, 0, 0, 0, 0, 0, 0, 0, 0,
      0, 0, 0, 0, 0, 0, 0, 0, 0, 0, 0, 0, 0, 0, 0, 0, 0] true true = Except.ok (-1) ∧
    calculate_shanten [2, 1, 0, 0, 0, 0, 0, 0, 0, 0, 0, 0, 0, 0, 0, 0, 0,
      0, 0, 0, 0, 0, 0, 0, 0, 0, 0, 0, 0, 0, 0, 0, 0, 0] true true = Except.ok 1 ∧
    ¬(|(1 : Int) - (-1)| ≤ 1) := by
  refine ⟨⟨by decide, by decide⟩, by decide, rfl, rfl, by decide⟩

set_option maxHeartbeats 1600000 in
/-- C5 (amended): adding a single tile changes the chiitoitsu and the
kokushi shanten numbers by at most 1 each; the combined
`calculate_shanten` does not satisfy the claimed bound (see the
counterexample), because the regular solver can jump from `-1` to `1`. -/
theorem C5_amended_componentwise_monotonicity (l : List Int) (t : Nat) :
    |calculate_shanten_for_chiitoitsu_hand (l.set t (l.getD t 0 + 1)) -
      calculate_shanten_for_chiitoitsu_hand l| ≤ 1 ∧
    |calculate_shanten_for_kokushi_hand (l.set t (l.getD t 0 + 1)) -
      calculate_shanten_for_kokushi_hand l| ≤ 1 := by
  rcases Nat.lt_or_ge t l.length with ht | ht
  · constructor
    · have e2 := countP_set_int (fun x => decide (2 ≤ x)) l t ht (l.getD t 0 + 1)
      have e1 := countP_set_int (fun x => decide (1 ≤ x)) l t ht (l.getD t 0 + 1)
      have hmono : l.countP (fun x => decide (2 ≤ x)) ≤ l.countP (fun x => decide (1 ≤ x)) := by
        apply List.countP_mono_left
        intro a _ ha
        simp only [decide_eq_true_eq] at ha ⊢
        omega
      simp only [calculate_shanten_for_chiitoitsu_hand, AGARI_STATE,
        ← List.countP_eq_length_filter]
      rw [abs_le]
      by_cases h1 : l.getD t 0 = 1
      · have hstrict := countP_ones_lt l t ht h1
        have he2 : (((l.set t (l.getD t 0 + 1)).countP (fun x => decide (2 ≤ x)) : Nat) : Int) =
            (l.countP (fun x => decide (2 ≤ x)) : Int) + 1 := by
          rw [e2, h1]; norm_num
        have he1 : (((l.set t (l.getD t 0 + 1)).countP (fun x => decide (1 ≤ x)) : Nat) : Int) =
            (l.countP (fun x => decide (1 ≤ x)) : Int) := by
          rw [e1, h1]; norm_num
        constructor <;> split_ifs <;> push_cast at he1 he2 hstrict hmono ⊢ <;> omega
      · simp only [decide_eq_true_eq] at e1 e2
        constructor <;> split_ifs at e1 e2 ⊢ <;> push_cast at e1 e2 hmono ⊢ <;> omega
    · have hnd : TERMINAL_AND_HONOR_INDICES.Nodup := by decide
      have hT : ((TERMINAL_AND_HONOR_INDICES.filter
            (fun i => decide ((l.set t (l.getD t 0 + 1)).getD i 0 ≠ 0))).length : Int) =
          ((TERMINAL_AND_HONOR_INDICES.filter (fun i => decide (l.getD i 0 ≠ 0))).length : Int) +
          (if t ∈ TERMINAL_AND_HONOR_INDICES then
            (if decide (l.getD t 0 + 1 ≠ 0) = true then (1 : Int) else 0) -
            (if decide (l.getD t 0 ≠ 0) = true then 1 else 0) else 0) :=
        length_filter_getD_set (fun x => decide (x ≠ 0))
          TERMINAL_AND_HONOR_INDICES hnd l t ht _
      have hD : ((TERMINAL_AND_HONOR_INDICES.filter
            (fun i => decide (2 ≤ (l.set t (l.getD t 0 + 1)).getD i 0))).length : Int) =
          ((TERMINAL_AND_HONOR_INDICES.filter (fun i => decide (2 ≤ l.getD i 0))).length : Int) +
          (if t ∈ TERMINAL_AND_HONOR_INDICES then
            (if decide (2 ≤ l.getD t 0 + 1) = true then (1 : Int) else 0) -
            (if decide (2 ≤ l.getD t 0) = true then 1 else 0) else 0) :=
        length_filter_getD_set (fun x => decide (2 ≤ x))
          TERMINAL_AND_HONOR_INDICES hnd l t ht _
      simp only [decide_eq_true_eq] at hT hD
      simp only [calculate_shanten_for_kokushi_hand]
      rw [abs_le]
      constructor <;> split_ifs at hT hD ⊢ <;> push_cast at hT hD ⊢ <;> omega
  · rw [List.set_eq_of_length_le ht]
    norm_num


theorem split_tile_eq (offset : Int) (red : Option Int) (d : Int) :
    split_tile offset red d =
      (if red ≠ none ∧ offset + (d - 1) * 4 = red.getD 0
        then offset + (d - 1) * 4 + 1 else offset + (d - 1) * 4) := rfl

theorem except_bind_ok {α β : Type} (x : α) (f : α → Except String β) :
    (Except.ok x >>= f) = f x := rfl

theorem split_string_go_digits_ok (offset : Int) (red : Option Int) :
    ∀ (D : List Char), DigitOnly D → ∀ (counts : Int → Int),
      ∃ out, split_string_go offset red D counts = Except.ok out := by
  intro D
  induction D with
  | nil => intro _ counts; exact ⟨[], rfl⟩
  | cons c cs ih =>
    intro hD counts
    have hc := hD c (List.mem_cons_self c cs)
    have hcs : DigitOnly cs := fun x hx => hD x (List.mem_cons_of_mem c hx)
    rw [split_string_go]
    by_cases hak : (c = 'r' ∨ c = '0') ∧ red ≠ none
    · rw [if_pos hak]
      obtain ⟨out, hout⟩ := ih hcs counts
      exact ⟨red.getD 0 :: out, by rw [hout]; rfl⟩
    · rw [if_neg hak, char_to_int, if_pos hc]
      obtain ⟨out, hout⟩ := ih hcs
        (fun k => if k = split_tile offset red ((c.toNat : Int) - 48)
          then counts k + 1 else counts k)
      refine ⟨(split_tile offset red ((c.toNat : Int) - 48) +
        counts (split_tile offset red ((c.toNat : Int) - 48))) :: out, ?_⟩
      show Except.map _ (split_string_go offset red cs
        (fun k => if k = split_tile offset red ((c.toNat : Int) - 48)
          then counts k + 1 else counts k)) = _
      rw [hout]
      rfl

theorem split_string_digits_ok (cs : List Char) (h : DigitOnly cs) (offset : Int)
    (red : Option Int) :
    ∃ out, split_string (some cs) offset red = Except.ok out := by
  rw [split_string]
  by_cases hc : cs = []
  · exact ⟨[], by rw [if_pos hc]⟩
  · rw [if_neg hc]
    exact split_string_go_digits_ok offset red cs h _

theorem one_line_split_digits :
    ∀ (s : List Char), (∀ c ∈ s, CodecChar c) →
      ∀ (st : List Char × List Char × List Char × List Char × List Char),
        DigitOnly st.1 → DigitOnly st.2.1 → DigitOnly st.2.2.1 →
        DigitOnly st.2.2.2.1 → DigitOnly st.2.2.2.2 →
        DigitOnly (s.foldl one_line_split_step st).1 ∧
        DigitOnly (s.foldl one_line_split_step st).2.1 ∧
        DigitOnly (s.foldl one_line_split_step st).2.2.1 ∧
        DigitOnly (s.foldl one_line_split_step st).2.2.2.1 ∧
        DigitOnly (s.foldl one_line_split_step st).2.2.2.2 := by
  intro s
  induction s with
  | nil => intro _ st h1 h2 h3 h4 h5; exact ⟨h1, h2, h3, h4, h5⟩
  | cons c cs ih =>
    intro hs st h1 h2 h3 h4 h5
    have hc := hs c (List.mem_cons_self c cs)
    have hcs : ∀ x ∈ cs, CodecChar x := fun x hx => hs x (List.mem_cons_of_mem c hx)
    rw [List.foldl_cons]
    obtain ⟨sou, pin, man, honors, pending⟩ := st
    simp only at h1 h2 h3 h4 h5
    have happ : ∀ (a b : List Char), DigitOnly a → DigitOnly b → DigitOnly (a ++ b) := by
      intro a b ha hb x hx
      rcases List.mem_append.mp hx with h | h
      · exact ha x h
      · exact hb x h
    have hnil : DigitOnly [] := by intro x hx; cases hx
    rw [one_line_split_step]
    by_cases hm : c = 'm'
    · rw [if_pos hm]; exact ih hcs _ h1 h2 (happ _ _ h3 h5) h4 hnil
    · rw [if_neg hm]
      by_cases hp : c = 'p'
      · rw [if_pos hp]; exact ih hcs _ h1 (happ _ _ h2 h5) h3 h4 hnil
      · rw [if_neg hp]
        by_cases hsc : c = 's'
        · rw [if_pos hsc]; exact ih hcs _ (happ _ _ h1 h5) h2 h3 h4 hnil
        · rw [if_neg hsc]
          by_cases hz : c = 'z' ∨ c = 'h'
          · rw [if_pos hz]; exact ih hcs _ h1 h2 h3 (happ _ _ h4 h5) hnil
          · rw [if_neg hz]
            have hdig : 48 ≤ c.toNat ∧ c.toNat ≤ 57 := by
              rcases hc with h | h | h | h | h | h
              · exact h
              · exact absurd h hm
              · exact absurd h hp
              · exact absurd h hsc
              · exact absurd (Or.inl h) hz
              · exact absurd (Or.inr h) hz
            refine ih hcs _ h1 h2 h3 h4 (happ _ _ h5 ?_)
            intro x hx
            rw [List.mem_singleton] at hx
            rw [hx]
            exact hdig

/-- C8 (counterexample): on the character `x` — neither a rank digit, an
aka marker, nor a suit letter — the codec raises `ValueError` from
`int(ch)` rather than returning a best-effort list: both
`one_line_string_to_136_array("xm")` and `string_to_136_array(man="x")`
fail. -/
theorem C8_counterexample_invalid_char_raises :
    one_line_string_to_136_array ['x', 'm'] false =
      Except.error "invalid literal for int" ∧
    string_to_136_array none none (some ['x']) none false =
      Except.error "invalid literal for int" := by
  exact ⟨rfl, rfl⟩

/-- C8 (amended): on every string made only of ASCII digits and the suit
letters `m`, `p`, `s`, `z`, `h`, the codec raises nothing and returns a
list of ids, for either aka setting. -/
theorem C8_amended_digit_letter_strings_parse (s : List Char)
    (h : ∀ c ∈ s, CodecChar c) (b : Bool) :
    ∃ out, one_line_string_to_136_array s b = Except.ok out := by
  have hsplit := one_line_split_digits s h ([], [], [], [], [])
    (by intro x hx; cases hx) (by intro x hx; cases hx) (by intro x hx; cases hx)
    (by intro x hx; cases hx) (by intro x hx; cases hx)
  obtain ⟨hsou, hpin, hman, hhon, -⟩ := hsplit
  simp only [one_line_string_to_136_array, string_to_136_array]
  obtain ⟨om, hm⟩ := split_string_digits_ok _ hman 0 (if b then some FIVE_RED_MAN else none)
  obtain ⟨op, hp⟩ := split_string_digits_ok _ hpin 36 (if b then some FIVE_RED_PIN else none)
  obtain ⟨os, hs⟩ := split_string_digits_ok _ hsou 72 (if b then some FIVE_RED_SOU else none)
  obtain ⟨oh, hh⟩ := split_string_digits_ok _ hhon 108 none
  refine ⟨om ++ op ++ os ++ oh, ?_⟩
  simp only [one_line_split] at hm hp hs hh ⊢
  rw [hm, except_bind_ok, hp, except_bind_ok, hs, except_bind_ok, hh, except_bind_ok]
  rfl

theorem C8_amended_digit_letter_strings_parse_witness :
    (∀ c ∈ ['1', '2', '3', 'm', '4', '5', '6', 'z'], CodecChar c) ∧
    ∃ out, one_line_string_to_136_array ['1', '2', '3', 'm', '4', '5', '6', 'z'] true =
      Except.ok out :=
  ⟨by decide, C8_amended_digit_letter_strings_parse
    ['1', '2', '3', 'm', '4', '5', '6', 'z'] (by decide) true⟩

/-- C7 (counterexample): the round trip is not lossless at the level of
136-ids.  Rendering the single id 1 (second copy of 1m) prints `1m`,
which parses back to id 0; and with aka enabled the well-formed string
`5555m` parses to ids whose re-rendering is `5556m`, so neither direction
of the round trip is the identity. -/
theorem C7_counterexample_round_trip_not_lossless :
    to_one_line_string [1] false = ['1', 'm'] ∧
    one_line_string_to_136_array ['1', 'm'] false = Except.ok [0] ∧
    ([0] : List Int) ≠ [1] ∧
    one_line_string_to_136_array ['5', '5', '5', '5', 'm'] true =
      Except.ok [17, 18, 19, 20] ∧
    to_one_line_string [17, 18, 19, 20] true = ['5', '5', '5', '6', 'm'] ∧
    (['5', '5', '5', '6', 'm'] : List Char) ≠ ['5', '5', '5', '5', 'm'] := by
  exact ⟨rfl, rfl, by decide, rfl, rfl, by decide⟩


theorem split_tile_cases (Off : Int) (red : Option Int) (d : Int) :
    split_tile Off red d = Off + (d - 1) * 4 ∨
    split_tile Off red d = Off + (d - 1) * 4 + 1 := by
  rw [split_tile]
  split_ifs with h
  · exact Or.inr rfl
  · exact Or.inl rfl

theorem countP_cons_le_int (p : Char → Bool) (c : Char) (cs : List Char) :
    (cs.countP p : Int) ≤ ((c :: cs).countP p : Int) := by
  rw [List.countP_cons]
  split_ifs <;> push_cast <;> omega

/-- Parsing a digit string: provided every character is the aka marker `0`
(with aka support on) or a rank digit, and the counter leaves room for
every rank's remaining occurrences (at most 4 ids per rank, one less when
the rank-5 base is bumped off the red id), the parse succeeds and each
output id has the type named by its character. -/
theorem parse_digits (Off : Int) (red : Option Int) (hOff : Off % 4 = 0) :
    ∀ (D : List Char) (counts : Int → Int),
      (∀ c ∈ D, (c = '0' ∧ red ≠ none ∧ red.getD 0 = Off + 16) ∨
        (49 ≤ c.toNat ∧ c.toNat ≤ 57)) →
      (∀ d : Int, 1 ≤ d → d ≤ 9 →
        0 ≤ counts (split_tile Off red d) ∧
        counts (split_tile Off red d) + (split_tile Off red d - (Off + (d - 1) * 4)) +
          (D.countP (fun c => decide ((c.toNat : Int) - 48 = d)) : Int) ≤ 4) →
      ∃ out, split_string_go Off red D counts = Except.ok out ∧
        out.map (fun i => i / 4) = D.map (typeOfChar Off) := by
  intro D
  induction D with
  | nil => intro counts _ _; exact ⟨[], rfl, rfl⟩
  | cons c cs ih =>
    intro counts hD hcnt
    have hc := hD c (List.mem_cons_self c cs)
    have hcs : ∀ x ∈ cs, (x = '0' ∧ red ≠ none ∧ red.getD 0 = Off + 16) ∨
        (49 ≤ x.toNat ∧ x.toNat ≤ 57) := fun x hx => hD x (List.mem_cons_of_mem c hx)
    rcases hc with ⟨hc0, hrne, hrval⟩ | hdig
    · -- the aka marker: append the red id, counter untouched
      rw [split_string_go, if_pos ⟨Or.inr hc0, hrne⟩]
      have hcnt' : ∀ d : Int, 1 ≤ d → d ≤ 9 →
          0 ≤ counts (split_tile Off red d) ∧
          counts (split_tile Off red d) + (split_tile Off red d - (Off + (d - 1) * 4)) +
            (cs.countP (fun c => decide ((c.toNat : Int) - 48 = d)) : Int) ≤ 4 := by
        intro d h1 h9
        have h := hcnt d h1 h9
        have hm := countP_cons_le_int (fun c => decide ((c.toNat : Int) - 48 = d)) c cs
        exact ⟨h.1, by omega⟩
      obtain ⟨out, hgo, hmap⟩ := ih counts hcs hcnt'
      refine ⟨red.getD 0 :: out, by rw [hgo]; rfl, ?_⟩
      rw [List.map_cons, List.map_cons, hmap]
      congr 1
      rw [hc0, typeOfChar, if_pos rfl, hrval]
      omega
    · -- an ordinary rank digit
      have h0 : ('0'.toNat) = 48 := rfl
      have hr : ('r'.toNat) = 114 := rfl
      have hcne0 : ¬(c = '0') := fun h => by rw [h, h0] at hdig; omega
      have hcner : ¬(c = 'r') := fun h => by rw [h, hr] at hdig; omega
      rw [split_string_go, if_neg (by
        rintro ⟨hor, -⟩
        rcases hor with h | h
        · exact hcner h
        · exact hcne0 h)]
      rw [char_to_int, if_pos ⟨by omega, hdig.2⟩]
      have h1 : (1 : Int) ≤ (c.toNat : Int) - 48 := by omega
      have h9 : ((c.toNat : Int) - 48) ≤ 9 := by omega
      have hcnt0 := hcnt ((c.toNat : Int) - 48) h1 h9
      have hccount :
          (((c :: cs).countP (fun x => decide ((x.toNat : Int) - 48 = (c.toNat : Int) - 48))) : Int) =
          ((cs.countP (fun x => decide ((x.toNat : Int) - 48 = (c.toNat : Int) - 48))) : Int) + 1 := by
        rw [List.countP_cons, if_pos (by simp)]
        push_cast
        ring
      have hB := split_tile_cases Off red ((c.toNat : Int) - 48)
      have hcnt' : ∀ d : Int, 1 ≤ d → d ≤ 9 →
          0 ≤ (fun k => if k = split_tile Off red ((c.toNat : Int) - 48)
              then counts k + 1 else counts k) (split_tile Off red d) ∧
          (fun k => if k = split_tile Off red ((c.toNat : Int) - 48)
              then counts k + 1 else counts k) (split_tile Off red d) +
            (split_tile Off red d - (Off + (d - 1) * 4)) +
            (cs.countP (fun c => decide ((c.toNat : Int) - 48 = d)) : Int) ≤ 4 := by
        intro d hd1 hd9
        have hcd := hcnt d hd1 hd9
        by_cases hdd : d = (c.toNat : Int) - 48
        · subst hdd
          simp only [if_pos rfl]
          rw [hccount] at hcd
          exact ⟨by omega, by omega⟩
        · have hBd := split_tile_cases Off red d
          have hne : split_tile Off red d ≠ split_tile Off red ((c.toNat : Int) - 48) := by
            rcases hBd with h | h <;> rcases hB with h' | h' <;> rw [h, h'] <;> omega
          simp only [if_neg hne]
          have hm := countP_cons_le_int (fun c => decide ((c.toNat : Int) - 48 = d)) c cs
          exact ⟨hcd.1, by omega⟩
      obtain ⟨out, hgo, hmap⟩ := ih (fun k =>
        if k = split_tile Off red ((c.toNat : Int) - 48)
          then counts k + 1 else counts k) hcs hcnt'
      refine ⟨(split_tile Off red ((c.toNat : Int) - 48) +
        counts (split_tile Off red ((c.toNat : Int) - 48))) :: out, ?_, ?_⟩
      · show Except.map _ (split_string_go Off red cs
          (fun k => if k = split_tile Off red ((c.toNat : Int) - 48)
            then counts k + 1 else counts k)) = _
        rw [hgo]
        rfl
      · rw [List.map_cons, List.map_cons, hmap]
        congr 1
        rw [typeOfChar, if_neg hcne0]
        rw [hccount] at hcnt0
        rcases hB with h | h <;> rw [h] at hcnt0 ⊢ <;> omega


theorem flatten_map_singleton {α β : Type} (f : α → List β) (g : α → β) :
    ∀ (l : List α), (∀ x ∈ l, f x = [g x]) → (l.map f).flatten = l.map g := by
  intro l
  induction l with
  | nil => intro _; rfl
  | cons a l ih =>
    intro h
    rw [List.map_cons, List.map_cons, List.flatten_cons,
      h a (List.mem_cons_self a l), ih (fun x hx => h x (List.mem_cons_of_mem a hx))]
    rfl

theorem intStr_rank (r : Int) (h1 : 1 ≤ r) (h9 : r ≤ 9) :
    intStr r = [Char.ofNat (48 + r.toNat)] := by
  interval_cases r <;> rfl

theorem charOfNat_toNat (r : Nat) (h1 : 1 ≤ r) (h9 : r ≤ 9) :
    (Char.ofNat (48 + r)).toNat = 48 + r := by
  interval_cases r <;> decide

theorem render_words_map (ms : List Int) (rf : Int) (pad : Bool) (suffix : Char)
    (h : ∀ j ∈ ms, 0 ≤ j ∧ j < 36) :
    render_words ms rf pad suffix =
      if ms = [] then [] else ms.map (renderChar rf pad) ++ [suffix] := by
  rw [render_words]
  by_cases hm : ms = []
  · rw [if_pos hm, if_pos hm]
  · rw [if_neg hm, if_neg hm]
    congr 1
    apply flatten_map_singleton
    intro j hj
    have hb := h j hj
    rw [renderChar]
    by_cases hrf : j = rf ∧ pad
    · rw [if_pos hrf, if_pos hrf]
    · rw [if_neg hrf, if_neg hrf]
      rw [intStr_rank (j / 4 + 1) (by omega) (by omega)]

theorem countP_le_interval (ms : List Int) (hnd : ms.Nodup) (p : Int → Bool)
    (lo hi : Int) (hlohi : lo ≤ hi + 1) (hp : ∀ j ∈ ms, p j = true → lo ≤ j ∧ j ≤ hi) :
    (ms.countP p : Int) ≤ hi + 1 - lo := by
  have h1 : (ms.filter p).Nodup := hnd.filter p
  have h3 : (ms.filter p).toFinset ⊆ Finset.Icc lo hi := by
    intro x hx
    have hx2 := List.mem_toFinset.mp hx
    have hmem := List.mem_of_mem_filter hx2
    have hpx := List.of_mem_filter hx2
    rw [Finset.mem_Icc]
    exact hp x hmem hpx
  have h4 := Finset.card_le_card h3
  rw [List.toFinset_card_of_nodup h1, Int.card_Icc] at h4
  rw [List.countP_eq_length_filter]
  omega

theorem renderChar_toNat (rf : Int) (pad : Bool) (j : Int) (hb : 0 ≤ j ∧ j < 36)
    (hne : ¬(j = rf ∧ pad)) :
    ((renderChar rf pad j).toNat : Int) = 48 + (j / 4 + 1) := by
  rw [renderChar, if_neg hne, charOfNat_toNat (j / 4 + 1).toNat (by omega) (by omega)]
  push_cast
  omega

/-- Counting one rank's characters in a rendered suit: at most 4, and at
most 3 when the suit's red five prints as `0` and the rank is 5. -/
theorem count_rendered (ms : List Int) (hnd : ms.Nodup) (hb : ∀ j ∈ ms, 0 ≤ j ∧ j < 36)
    (rf : Int) (pad : Bool) (d : Int) (hd1 : 1 ≤ d) (hd9 : d ≤ 9) :
    (((ms.map (renderChar rf pad)).countP
      (fun c => decide ((c.toNat : Int) - 48 = d)) : Nat) : Int) ≤ 4 ∧
    (pad = true → rf = 16 → d = 5 →
      (((ms.map (renderChar rf pad)).countP
        (fun c => decide ((c.toNat : Int) - 48 = d)) : Nat) : Int) ≤ 3) := by
  rw [List.countP_map]
  constructor
  · have := countP_le_interval ms hnd
      ((fun c => decide ((c.toNat : Int) - 48 = d)) ∘ renderChar rf pad)
      (4 * (d - 1)) (4 * (d - 1) + 3) (by omega) (by
      intro j hj hpj
      have hpj2 : ((renderChar rf pad j).toNat : Int) - 48 = d := by simpa using hpj
      by_cases hrf : j = rf ∧ pad
      · rw [renderChar, if_pos hrf] at hpj2
        have h0 : (('0'.toNat : Nat) : Int) = 48 := rfl
        rw [h0] at hpj2
        omega
      · rw [renderChar_toNat rf pad j (hb j hj) hrf] at hpj2
        omega)
    omega
  · intro hpad hrf16 hd5
    have := countP_le_interval ms hnd
      ((fun c => decide ((c.toNat : Int) - 48 = d)) ∘ renderChar rf pad)
      17 19 (by omega) (by
      intro j hj hpj
      have hpj2 : ((renderChar rf pad j).toNat : Int) - 48 = d := by simpa using hpj
      by_cases hrf : j = rf ∧ pad
      · rw [renderChar, if_pos hrf] at hpj2
        have h0 : (('0'.toNat : Nat) : Int) = 48 := rfl
        rw [h0] at hpj2
        omega
      · rw [renderChar_toNat rf pad j (hb j hj) hrf] at hpj2
        have hj16 : ¬(j = 16) := by
          intro h
          exact hrf ⟨by rw [h, hrf16], hpad⟩
        omega)
    omega

/-- Parsing one rendered suit: the parse succeeds and returns ids whose
types are the types of the suit's (normalized) input ids, in order. -/
theorem split_string_rendered (Off : Int) (hOff : Off % 4 = 0) (red : Option Int)
    (rf : Int) (pad : Bool)
    (hcase : (red = none ∧ (pad = false ∨ rf < 0)) ∨
      (red = some (Off + 16) ∧ pad = true ∧ rf = 16))
    (ms : List Int) (hnd : ms.Nodup) (hb : ∀ j ∈ ms, 0 ≤ j ∧ j < 36) :
    ∃ out, split_string (some (ms.map (renderChar rf pad))) Off red = Except.ok out ∧
      out.map (fun i => i / 4) = ms.map (fun j => Off / 4 + j / 4) := by
  have hD : ∀ c ∈ ms.map (renderChar rf pad),
      (c = '0' ∧ red ≠ none ∧ red.getD 0 = Off + 16) ∨
      (49 ≤ c.toNat ∧ c.toNat ≤ 57) := by
    intro c hc
    obtain ⟨j, hj, hcj⟩ := List.mem_map.mp hc
    by_cases hrf : j = rf ∧ pad
    · rcases hcase with ⟨hred, hbad⟩ | ⟨hred, hpad, hrf16⟩
      · rcases hbad with h | h
        · rw [h] at hrf; exact absurd hrf.2 (by simp)
        · have := (hb j hj).1; omega
      · left
        refine ⟨by rw [← hcj, renderChar, if_pos hrf], by rw [hred]; simp, by rw [hred]; rfl⟩
    · right
      have := renderChar_toNat rf pad j (hb j hj) hrf
      rw [← hcj]
      have hj4 := hb j hj
      omega
  have hcnt : ∀ d : Int, 1 ≤ d → d ≤ 9 →
      (0 : Int) ≤ (fun _ => (0 : Int)) (split_tile Off red d) ∧
      (fun _ => (0 : Int)) (split_tile Off red d) +
        (split_tile Off red d - (Off + (d - 1) * 4)) +
        (((ms.map (renderChar rf pad)).countP
          (fun c => decide ((c.toNat : Int) - 48 = d)) : Nat) : Int) ≤ 4 := by
    intro d hd1 hd9
    refine ⟨le_refl 0, ?_⟩
    have hz : (fun _ => (0 : Int)) (split_tile Off red d) = 0 := rfl
    rw [hz]
    have hcr := count_rendered ms hnd hb rf pad d hd1 hd9
    rcases hcase with ⟨hred, -⟩ | ⟨hred, hpad, hrf16⟩
    · have hst : split_tile Off red d = Off + (d - 1) * 4 := by
        rw [split_tile, if_neg (by rw [hred]; simp)]
      rw [hst]
      have := hcr.1
      omega
    · by_cases hd5 : d = 5
      · have hst : split_tile Off red d = Off + (d - 1) * 4 + 1 := by
          rw [split_tile, if_pos ⟨by rw [hred]; simp, by rw [hred, hd5]; norm_num⟩]
        rw [hst]
        have := hcr.2 hpad hrf16 hd5
        omega
      · have hst : split_tile Off red d = Off + (d - 1) * 4 := by
          rw [split_tile, if_neg ?_]
          rintro ⟨-, habs⟩
          rw [hred] at habs
          simp only [Option.getD_some] at habs
          omega
        rw [hst]
        have := hcr.1
        omega
  by_cases hms : ms = []
  · refine ⟨[], ?_, by rw [hms]; rfl⟩
    rw [split_string, if_pos (by rw [hms]; rfl)]
  · obtain ⟨out, hgo, hmap⟩ :=
      parse_digits Off red hOff (ms.map (renderChar rf pad)) (fun _ => 0) hD hcnt
    refine ⟨out, ?_, ?_⟩
    · rw [split_string, if_neg (by
        intro h
        exact hms (List.map_eq_nil_iff.mp h))]
      exact hgo
    · rw [hmap, List.map_map]
      apply List.map_congr_left
      intro j hj
      simp only [Function.comp_apply]
      by_cases hrf : j = rf ∧ pad
      · rcases hcase with ⟨-, hbad⟩ | ⟨-, -, hrf16⟩
        · rcases hbad with h | h
          · rw [h] at hrf; exact absurd hrf.2 (by simp)
          · have := (hb j hj).1; omega
        · rw [renderChar, if_pos hrf, typeOfChar, if_pos rfl]
          have : j = 16 := by rw [hrf.1, hrf16]
          omega
      · rw [typeOfChar, if_neg ?_]
        · rw [renderChar_toNat rf pad j (hb j hj) hrf]
          ring
        · intro h0
          have := renderChar_toNat rf pad j (hb j hj) hrf
          rw [h0] at this
          have h48 : (('0'.toNat : Nat) : Int) = 48 := rfl
          rw [h48] at this
          have := (hb j hj).1
          omega


theorem foldl_step_nonletter :
    ∀ (ds : List Char), (∀ c ∈ ds, NotLetter c) →
      ∀ (sou pin man hon pd : List Char),
        ds.foldl one_line_split_step (sou, pin, man, hon, pd) =
          (sou, pin, man, hon, pd ++ ds) := by
  intro ds
  induction ds with
  | nil => intro _ sou pin man hon pd; simp
  | cons c cs ih =>
    intro h sou pin man hon pd
    have hc := h c (List.mem_cons_self c cs)
    rw [List.foldl_cons]
    have hstep : one_line_split_step (sou, pin, man, hon, pd) c =
        (sou, pin, man, hon, pd ++ [c]) := by
      simp only [one_line_split_step]
      rw [if_neg hc.1, if_neg hc.2.1, if_neg hc.2.2.1, if_neg hc.2.2.2]
    rw [hstep, ih (fun x hx => h x (List.mem_cons_of_mem c hx))]
    simp

theorem consume_seg_m (D : List Char) (hD : ∀ c ∈ D, NotLetter c)
    (seg : List Char) (hseg : (seg = [] ∧ D = []) ∨ seg = D ++ ['m'])
    (sou pin man hon : List Char) :
    seg.foldl one_line_split_step (sou, pin, man, hon, []) =
      (sou, pin, man ++ D, hon, []) := by
  rcases hseg with ⟨h1, h2⟩ | h
  · rw [h1, h2]; simp
  · rw [h, List.foldl_append, foldl_step_nonletter D hD sou pin man hon []]
    simp [one_line_split_step]

theorem consume_seg_p (D : List Char) (hD : ∀ c ∈ D, NotLetter c)
    (seg : List Char) (hseg : (seg = [] ∧ D = []) ∨ seg = D ++ ['p'])
    (sou pin man hon : List Char) :
    seg.foldl one_line_split_step (sou, pin, man, hon, []) =
      (sou, pin ++ D, man, hon, []) := by
  rcases hseg with ⟨h1, h2⟩ | h
  · rw [h1, h2]; simp
  · rw [h, List.foldl_append, foldl_step_nonletter D hD sou pin man hon []]
    simp [one_line_split_step]

theorem consume_seg_s (D : List Char) (hD : ∀ c ∈ D, NotLetter c)
    (seg : List Char) (hseg : (seg = [] ∧ D = []) ∨ seg = D ++ ['s'])
    (sou pin man hon : List Char) :
    seg.foldl one_line_split_step (sou, pin, man, hon, []) =
      (sou ++ D, pin, man, hon, []) := by
  rcases hseg with ⟨h1, h2⟩ | h
  · rw [h1, h2]; simp
  · rw [h, List.foldl_append, foldl_step_nonletter D hD sou pin man hon []]
    simp [one_line_split_step]

theorem consume_seg_z (D : List Char) (hD : ∀ c ∈ D, NotLetter c)
    (seg : List Char) (hseg : (seg = [] ∧ D = []) ∨ seg = D ++ ['z'])
    (sou pin man hon : List Char) :
    seg.foldl one_line_split_step (sou, pin, man, hon, []) =
      (sou, pin, man, hon ++ D, []) := by
  rcases hseg with ⟨h1, h2⟩ | h
  · rw [h1, h2]; simp
  · rw [h, List.foldl_append, foldl_step_nonletter D hD sou pin man hon []]
    simp [one_line_split_step]

theorem rendered_not_letter (rf : Int) (pad : Bool) (ms : List Int)
    (hb : ∀ j ∈ ms, 0 ≤ j ∧ j < 36) :
    ∀ c ∈ ms.map (renderChar rf pad), NotLetter c := by
  intro c hc
  obtain ⟨j, hj, hcj⟩ := List.mem_map.mp hc
  by_cases hrf : j = rf ∧ pad
  · rw [← hcj, renderChar, if_pos hrf]
    exact ⟨by decide, by decide, by decide, by decide⟩
  · have htn := renderChar_toNat rf pad j (hb j hj) hrf
    have hj4 := hb j hj
    rw [← hcj]
    refine ⟨?_, ?_, ?_, ?_⟩
    · intro h; rw [h] at htn; have : (('m'.toNat : Nat) : Int) = 109 := rfl; omega
    · intro h; rw [h] at htn; have : (('p'.toNat : Nat) : Int) = 112 := rfl; omega
    · intro h; rw [h] at htn; have : (('s'.toNat : Nat) : Int) = 115 := rfl; omega
    · rintro (h | h)
      · rw [h] at htn; have : (('z'.toNat : Nat) : Int) = 122 := rfl; omega
      · rw [h] at htn; have : (('h'.toNat : Nat) : Int) = 104 := rfl; omega

theorem filter_partition4 (l : List Int) :
    (l.filter (fun t => decide (t < 36)) ++
      (l.filter (fun t => decide (36 ≤ t ∧ t < 72)) ++
        (l.filter (fun t => decide (72 ≤ t ∧ t < 108)) ++
          l.filter (fun t => decide (108 ≤ t))))).Perm l := by
  have hC := List.filter_append_perm (fun t => decide (t < 36)) l
  have hB := List.filter_append_perm (fun t => decide (36 ≤ t ∧ t < 72))
    (l.filter (fun t => !decide (t < 36)))
  have hA := List.filter_append_perm (fun t => decide (72 ≤ t ∧ t < 108))
    ((l.filter (fun t => !decide (t < 36))).filter
      (fun t => !decide (36 ≤ t ∧ t < 72)))
  have e2 : (l.filter (fun t => !decide (t < 36))).filter
      (fun t => decide (36 ≤ t ∧ t < 72)) = l.filter (fun t => decide (36 ≤ t ∧ t < 72)) := by
    rw [List.filter_filter]
    apply List.filter_congr
    intro t _
    rw [Bool.eq_iff_iff]
    simp only [Bool.and_eq_true, decide_eq_true_eq, Bool.not_eq_true', decide_eq_false_iff_not]
    omega
  have e3 : ((l.filter (fun t => !decide (t < 36))).filter
        (fun t => !decide (36 ≤ t ∧ t < 72))).filter
      (fun t => decide (72 ≤ t ∧ t < 108)) =
      l.filter (fun t => decide (72 ≤ t ∧ t < 108)) := by
    rw [List.filter_filter, List.filter_filter]
    apply List.filter_congr
    intro t _
    rw [Bool.eq_iff_iff]
    simp only [Bool.and_eq_true, decide_eq_true_eq, Bool.not_eq_true', decide_eq_false_iff_not]
    omega
  have e4 : ((l.filter (fun t => !decide (t < 36))).filter
        (fun t => !decide (36 ≤ t ∧ t < 72))).filter
      (fun t => !decide (72 ≤ t ∧ t < 108)) =
      l.filter (fun t => decide (108 ≤ t)) := by
    rw [List.filter_filter, List.filter_filter]
    apply List.filter_congr
    intro t _
    rw [Bool.eq_iff_iff]
    simp only [Bool.and_eq_true, decide_eq_true_eq, Bool.not_eq_true', decide_eq_false_iff_not]
    omega
  rw [← e2, ← e3, ← e4]
  exact (List.Perm.append_left _ ((List.Perm.append_left _ hA).trans hB)).trans hC


set_option maxHeartbeats 1600000 in
/-- C7 (amended): the round trip is NOT lossless on 136-ids (see the
counterexample), but for every list of distinct in-range ids and either
aka flag, parsing the rendered string back with the matching flag
succeeds and preserves the multiset of 34-types (`id / 4`). -/
theorem C7_amended_type_multiset_preserved (ids : List Int)
    (h : ∀ i ∈ ids, 0 ≤ i ∧ i < 136) (hnd : ids.Nodup) (b : Bool) :
    ∃ out, one_line_string_to_136_array (to_one_line_string ids b) b = Except.ok out ∧
      (out.map (fun i => i / 4)).Perm (ids.map (fun i => i / 4)) := by
  have hperm : (List.insertionSort (fun a b => a ≤ b) ids).Perm ids :=
    List.perm_insertionSort _ ids
  set L := List.insertionSort (fun a b => a ≤ b) ids with hL
  have hndL : L.Nodup := (hperm.nodup_iff).mpr hnd
  have hbL : ∀ t ∈ L, 0 ≤ t ∧ t < 136 := fun t ht => h t (hperm.subset ht)
  set manF := L.filter (fun t => decide (t < 36)) with hmanF
  set pinF := L.filter (fun t => decide (36 ≤ t ∧ t < 72)) with hpinF
  set souF := L.filter (fun t => decide (72 ≤ t ∧ t < 108)) with hsouF
  set honF := L.filter (fun t => decide (108 ≤ t)) with hhonF
  set msP := pinF.map (fun t => t - 36) with hmsP
  set msS := souF.map (fun t => t - 72) with hmsS
  set msH := honF.map (fun t => t - 108) with hmsH
  have hbM : ∀ j ∈ manF, 0 ≤ j ∧ j < 36 := by
    intro j hj
    have hm := List.mem_filter.mp hj
    have h1 := hbL j hm.1
    have h2 := of_decide_eq_true hm.2
    omega
  have hbP : ∀ j ∈ msP, 0 ≤ j ∧ j < 36 := by
    intro j hj
    obtain ⟨t, ht, rfl⟩ := List.mem_map.mp hj
    have hm := List.mem_filter.mp ht
    have h2 := of_decide_eq_true hm.2
    omega
  have hbS : ∀ j ∈ msS, 0 ≤ j ∧ j < 36 := by
    intro j hj
    obtain ⟨t, ht, rfl⟩ := List.mem_map.mp hj
    have hm := List.mem_filter.mp ht
    have h2 := of_decide_eq_true hm.2
    omega
  have hbH : ∀ j ∈ msH, 0 ≤ j ∧ j < 36 := by
    intro j hj
    obtain ⟨t, ht, rfl⟩ := List.mem_map.mp hj
    have hm := List.mem_filter.mp ht
    have h1 := hbL t hm.1
    have h2 := of_decide_eq_true hm.2
    omega
  have hndM : manF.Nodup := hndL.filter _
  have hndP : msP.Nodup := (hndL.filter _).map (fun a b hab => by omega)
  have hndS : msS.Nodup := (hndL.filter _).map (fun a b hab => by omega)
  have hndH : msH.Nodup := (hndL.filter _).map (fun a b hab => by omega)
  have hsegM := render_words_map manF FIVE_RED_MAN b 'm' hbM
  have hsegP := render_words_map msP (FIVE_RED_PIN - 36) b 'p' hbP
  have hsegS := render_words_map msS (FIVE_RED_SOU - 72) b 's' hbS
  have hsegH := render_words_map msH (-1 - 108) b 'z' hbH
  have hrender : to_one_line_string ids b =
      render_words manF FIVE_RED_MAN b 'm' ++
        render_words msP (FIVE_RED_PIN - 36) b 'p' ++
        render_words msS (FIVE_RED_SOU - 72) b 's' ++
        render_words msH (-1 - 108) b 'z' := by
    rw [hmsP, hmsS, hmsH, hmanF, hpinF, hsouF, hhonF, hL]
    rfl
  have hDM := rendered_not_letter FIVE_RED_MAN b manF hbM
  have hDP := rendered_not_letter (FIVE_RED_PIN - 36) b msP hbP
  have hDS := rendered_not_letter (FIVE_RED_SOU - 72) b msS hbS
  have hDH := rendered_not_letter (-1 - 108) b msH hbH
  have hsegM' : (render_words manF FIVE_RED_MAN b 'm' = [] ∧
      manF.map (renderChar FIVE_RED_MAN b) = []) ∨
      render_words manF FIVE_RED_MAN b 'm' =
        manF.map (renderChar FIVE_RED_MAN b) ++ ['m'] := by
    by_cases hm : manF = []
    · exact Or.inl ⟨by rw [hsegM, if_pos hm], by rw [hm]; rfl⟩
    · exact Or.inr (by rw [hsegM, if_neg hm])
  have hsegP' : (render_words msP (FIVE_RED_PIN - 36) b 'p' = [] ∧
      msP.map (renderChar (FIVE_RED_PIN - 36) b) = []) ∨
      render_words msP (FIVE_RED_PIN - 36) b 'p' =
        msP.map (renderChar (FIVE_RED_PIN - 36) b) ++ ['p'] := by
    by_cases hm : msP = []
    · exact Or.inl ⟨by rw [hsegP, if_pos hm], by rw [hm]; rfl⟩
    · exact Or.inr (by rw [hsegP, if_neg hm])
  have hsegS' : (render_words msS (FIVE_RED_SOU - 72) b 's' = [] ∧
      msS.map (renderChar (FIVE_RED_SOU - 72) b) = []) ∨
      render_words msS (FIVE_RED_SOU - 72) b 's' =
        msS.map (renderChar (FIVE_RED_SOU - 72) b) ++ ['s'] := by
    by_cases hm : msS = []
    · exact Or.inl ⟨by rw [hsegS, if_pos hm], by rw [hm]; rfl⟩
    · exact Or.inr (by rw [hsegS, if_neg hm])
  have hsegH' : (render_words msH (-1 - 108) b 'z' = [] ∧
      msH.map (renderChar (-1 - 108) b) = []) ∨
      render_words msH (-1 - 108) b 'z' =
        msH.map (renderChar (-1 - 108) b) ++ ['z'] := by
    by_cases hm : msH = []
    · exact Or.inl ⟨by rw [hsegH, if_pos hm], by rw [hm]; rfl⟩
    · exact Or.inr (by rw [hsegH, if_neg hm])
  have hfold : (to_one_line_string ids b).foldl one_line_split_step ([], [], [], [], []) =
      (msS.map (renderChar (FIVE_RED_SOU - 72) b),
        msP.map (renderChar (FIVE_RED_PIN - 36) b),
        manF.map (renderChar FIVE_RED_MAN b),
        msH.map (renderChar (-1 - 108) b), []) := by
    rw [hrender, List.foldl_append, List.foldl_append, List.foldl_append]
    rw [consume_seg_m _ hDM _ hsegM']
    rw [consume_seg_p _ hDP _ hsegP']
    rw [consume_seg_s _ hDS _ hsegS']
    rw [consume_seg_z _ hDH _ hsegH']
    simp
  have hcompS : (one_line_split (to_one_line_string ids b)).1 =
      msS.map (renderChar (FIVE_RED_SOU - 72) b) := by
    simp only [one_line_split]; rw [hfold]
  have hcompP : (one_line_split (to_one_line_string ids b)).2.1 =
      msP.map (renderChar (FIVE_RED_PIN - 36) b) := by
    simp only [one_line_split]; rw [hfold]
  have hcompM : (one_line_split (to_one_line_string ids b)).2.2.1 =
      manF.map (renderChar FIVE_RED_MAN b) := by
    simp only [one_line_split]; rw [hfold]
  have hcompH : (one_line_split (to_one_line_string ids b)).2.2.2 =
      msH.map (renderChar (-1 - 108) b) := by
    simp only [one_line_split]; rw [hfold]
  have hcaseM : ((if b then some FIVE_RED_MAN else none) = none ∧
      (b = false ∨ FIVE_RED_MAN < 0)) ∨
      ((if b then some FIVE_RED_MAN else none) = some ((0 : Int) + 16) ∧
        b = true ∧ FIVE_RED_MAN = 16) := by
    cases b
    · exact Or.inl ⟨rfl, Or.inl rfl⟩
    · exact Or.inr ⟨by norm_num [FIVE_RED_MAN], rfl, rfl⟩
  have hcaseP : ((if b then some FIVE_RED_PIN else none) = none ∧
      (b = false ∨ (FIVE_RED_PIN - 36) < 0)) ∨
      ((if b then some FIVE_RED_PIN else none) = some ((36 : Int) + 16) ∧
        b = true ∧ (FIVE_RED_PIN - 36) = 16) := by
    cases b
    · exact Or.inl ⟨rfl, Or.inl rfl⟩
    · exact Or.inr ⟨by norm_num [FIVE_RED_PIN], rfl, by norm_num [FIVE_RED_PIN]⟩
  have hcaseS : ((if b then some FIVE_RED_SOU else none) = none ∧
      (b = false ∨ (FIVE_RED_SOU - 72) < 0)) ∨
      ((if b then some FIVE_RED_SOU else none) = some ((72 : Int) + 16) ∧
        b = true ∧ (FIVE_RED_SOU - 72) = 16) := by
    cases b
    · exact Or.inl ⟨rfl, Or.inl rfl⟩
    · exact Or.inr ⟨by norm_num [FIVE_RED_SOU], rfl, by norm_num [FIVE_RED_SOU]⟩
  have hcaseH : ((none : Option Int) = none ∧
      (b = false ∨ ((-1 : Int) - 108) < 0)) ∨
      ((none : Option Int) = some ((108 : Int) + 16) ∧
        b = true ∧ ((-1 : Int) - 108) = 16) :=
    Or.inl ⟨rfl, Or.inr (by norm_num)⟩
  obtain ⟨outM, hParseM, hTypeM⟩ := split_string_rendered 0 (by norm_num)
    (if b then some FIVE_RED_MAN else none) FIVE_RED_MAN b hcaseM manF hndM hbM
  obtain ⟨outP, hParseP, hTypeP⟩ := split_string_rendered 36 (by norm_num)
    (if b then some FIVE_RED_PIN else none) (FIVE_RED_PIN - 36) b hcaseP msP hndP hbP
  obtain ⟨outS, hParseS, hTypeS⟩ := split_string_rendered 72 (by norm_num)
    (if b then some FIVE_RED_SOU else none) (FIVE_RED_SOU - 72) b hcaseS msS hndS hbS
  obtain ⟨outH, hParseH, hTypeH⟩ := split_string_rendered 108 (by norm_num)
    none (-1 - 108) b hcaseH msH hndH hbH
  refine ⟨outM ++ outP ++ outS ++ outH, ?_, ?_⟩
  · simp only [one_line_string_to_136_array]
    rw [hcompS, hcompP, hcompM, hcompH]
    simp only [string_to_136_array]
    rw [hParseM, except_bind_ok, hParseP, except_bind_ok, hParseS, except_bind_ok,
      hParseH, except_bind_ok]
    rfl
  · have hMM : outM.map (fun i => i / 4) = manF.map (fun i => i / 4) := by
      rw [hTypeM]
      apply List.map_congr_left
      intro j _
      norm_num
    have hPP : outP.map (fun i => i / 4) = pinF.map (fun i => i / 4) := by
      rw [hTypeP, hmsP, List.map_map]
      apply List.map_congr_left
      intro t ht
      have hm := List.mem_filter.mp ht
      have h2 := of_decide_eq_true hm.2
      simp only [Function.comp_apply]
      omega
    have hSS : outS.map (fun i => i / 4) = souF.map (fun i => i / 4) := by
      rw [hTypeS, hmsS, List.map_map]
      apply List.map_congr_left
      intro t ht
      have hm := List.mem_filter.mp ht
      have h2 := of_decide_eq_true hm.2
      simp only [Function.comp_apply]
      omega
    have hHH : outH.map (fun i => i / 4) = honF.map (fun i => i / 4) := by
      rw [hTypeH, hmsH, List.map_map]
      apply List.map_congr_left
      intro t ht
      have hm := List.mem_filter.mp ht
      have h2 := of_decide_eq_true hm.2
      simp only [Function.comp_apply]
      omega
    rw [List.map_append, List.map_append, List.map_append, hMM, hPP, hSS, hHH,
      ← List.map_append, ← List.map_append, ← List.map_append]
    rw [List.append_assoc, List.append_assoc]
    exact ((filter_partition4 L).trans hperm).map (fun i => i / 4)

theorem C7_amended_type_multiset_preserved_witness :
    ((∀ i ∈ ([1, 16, 135] : List Int), 0 ≤ i ∧ i < 136) ∧
      ([1, 16, 135] : List Int).Nodup) ∧
    ∃ out, one_line_string_to_136_array (to_one_line_string [1, 16, 135] true) true =
      Except.ok out ∧
      (out.map (fun i => i / 4)).Perm (([1, 16, 135] : List Int).map (fun i => i / 4)) :=
  ⟨⟨by decide, by decide⟩,
    C7_amended_type_multiset_preserved [1, 16, 135] (by decide) (by decide) true⟩


theorem indicator_range (i : Int) (h : 0 ≤ i ∧ i < 136) :
    0 ≤ indicator_to_dora_34 (i / 4) ∧ indicator_to_dora_34 (i / 4) < 34 := by
  simp only [indicator_to_dora_34, EAST, NORTH, HAKU]
  split_ifs <;> omega

theorem plus_dora_step_agree (t acc i : Int) (ht : 0 ≤ t ∧ t < 34)
    (hi : 0 ≤ i ∧ i < 136) :
    plus_dora_step t acc i = acc + (if indicator_to_dora_34 (i / 4) = t then 1 else 0) := by
  simp only [plus_dora_step, indicator_to_dora_34, EAST, NORTH, HAKU]
  split_ifs <;> (try contradiction) <;> omega

theorem plus_dora_foldl (t : Int) (ht : 0 ≤ t ∧ t < 34) :
    ∀ (I : List Int), (∀ i ∈ I, 0 ≤ i ∧ i < 136) → ∀ (acc : Int),
      I.foldl (plus_dora_step t) acc =
        acc + (I.countP (fun i => decide (indicator_to_dora_34 (i / 4) = t)) : Int) := by
  intro I
  induction I with
  | nil => intro _ acc; simp
  | cons i I ih =>
    intro h acc
    have hi := h i (List.mem_cons_self i I)
    rw [List.foldl_cons, plus_dora_step_agree t acc i ht hi,
      ih (fun x hx => h x (List.mem_cons_of_mem i hx)), List.countP_cons]
    simp only [decide_eq_true_eq]
    split_ifs <;> push_cast <;> omega

theorem mem_dict_set : ∀ (m : List (Int × Int)) (k v : Int) (kv : Int × Int),
    kv ∈ dict_set m k v → kv = (k, v) ∨ kv ∈ m := by
  intro m
  induction m with
  | nil =>
    intro k v kv hkv
    rw [dict_set] at hkv
    rcases List.mem_singleton.mp hkv with h
    exact Or.inl h
  | cons kv0 rest ih =>
    intro k v kv hkv
    rw [dict_set] at hkv
    by_cases h0 : kv0.1 = k
    · rw [if_pos h0] at hkv
      rcases List.mem_cons.mp hkv with h | h
      · exact Or.inl h
      · exact Or.inr (List.mem_cons_of_mem kv0 h)
    · rw [if_neg h0] at hkv
      rcases List.mem_cons.mp hkv with h | h
      · exact Or.inr (by rw [h]; exact List.mem_cons_self kv0 rest)
      · rcases ih k v kv h with h2 | h2
        · exact Or.inl h2
        · exact Or.inr (List.mem_cons_of_mem kv0 h2)

theorem keys_dict_set : ∀ (m : List (Int × Int)) (k v x : Int),
    x ∈ (dict_set m k v).map Prod.fst → x = k ∨ x ∈ m.map Prod.fst := by
  intro m k v x hx
  obtain ⟨kv, hkv, hfst⟩ := List.mem_map.mp hx
  rcases mem_dict_set m k v kv hkv with h | h
  · exact Or.inl (by rw [← hfst, h])
  · exact Or.inr (List.mem_map.mpr ⟨kv, h, hfst⟩)

theorem dict_set_keys_nodup : ∀ (m : List (Int × Int)) (k v : Int),
    (m.map Prod.fst).Nodup → ((dict_set m k v).map Prod.fst).Nodup := by
  intro m
  induction m with
  | nil => intro k v _; simp [dict_set]
  | cons kv0 rest ih =>
    intro k v hnd
    rw [List.map_cons, List.nodup_cons] at hnd
    rw [dict_set]
    by_cases h0 : kv0.1 = k
    · rw [if_pos h0, List.map_cons, List.nodup_cons]
      exact ⟨by rw [← h0]; exact hnd.1, hnd.2⟩
    · rw [if_neg h0, List.map_cons, List.nodup_cons]
      refine ⟨?_, ih k v hnd.2⟩
      intro hmem
      rcases keys_dict_set rest k v kv0.1 hmem with h | h
      · exact h0 h
      · exact hnd.1 h

theorem dict_get_set_self : ∀ (m : List (Int × Int)) (k v : Int),
    dict_get (dict_set m k v) k 0 = v := by
  intro m
  induction m with
  | nil => intro k v; simp [dict_set, dict_get]
  | cons kv0 rest ih =>
    intro k v
    rw [dict_set]
    by_cases h0 : kv0.1 = k
    · rw [if_pos h0, dict_get, if_pos rfl]
    · rw [if_neg h0, dict_get, if_neg h0, ih]

theorem dict_get_set_ne : ∀ (m : List (Int × Int)) (k v t : Int), t ≠ k →
    dict_get (dict_set m k v) t 0 = dict_get m t 0 := by
  intro m
  induction m with
  | nil =>
    intro k v t ht
    rw [dict_set, dict_get, dict_get, if_neg (fun h => ht h.symm), dict_get]
  | cons kv0 rest ih =>
    intro k v t ht
    rw [dict_set]
    by_cases h0 : kv0.1 = k
    · rw [if_pos h0, dict_get, if_neg (fun h => ht h.symm), dict_get,
        if_neg (fun h => ht (h.symm.trans h0))]
    · rw [if_neg h0, dict_get, dict_get]
      by_cases h1 : kv0.1 = t
      · rw [if_pos h1, if_pos h1]
      · rw [if_neg h1, if_neg h1, ih k v t ht]

theorem dict_get_not_mem : ∀ (m : List (Int × Int)) (t : Int),
    t ∉ m.map Prod.fst → dict_get m t 0 = 0 := by
  intro m
  induction m with
  | nil => intro t _; rfl
  | cons kv0 rest ih =>
    intro t ht
    rw [List.map_cons] at ht
    rw [dict_get, if_neg (fun h => ht (by rw [← h]; exact List.mem_cons_self _ _)), ih]
    intro h
    exact ht (List.mem_cons_of_mem _ h)


theorem build_fold_get (t : Int) : ∀ (I : List Int) (m : List (Int × Int)),
    dict_get (I.foldl (fun m indicator =>
      dict_set m (indicator_to_dora_34 (indicator / 4))
        (dict_get m (indicator_to_dora_34 (indicator / 4)) 0 + 1)) m) t 0 =
    dict_get m t 0 +
      (I.countP (fun i => decide (indicator_to_dora_34 (i / 4) = t)) : Int) := by
  intro I
  induction I with
  | nil => intro m; simp
  | cons i I ih =>
    intro m
    rw [List.foldl_cons, ih, List.countP_cons]
    simp only [decide_eq_true_eq]
    by_cases hd : indicator_to_dora_34 (i / 4) = t
    · rw [hd, dict_get_set_self, if_pos rfl]
      push_cast
      omega
    · rw [dict_get_set_ne _ _ _ _ (fun h => hd h.symm), if_neg hd]
      push_cast
      omega

theorem build_fold_keys : ∀ (I : List Int), (∀ i ∈ I, 0 ≤ i ∧ i < 136) →
    ∀ (m : List (Int × Int)), (∀ kv ∈ m, 0 ≤ kv.1 ∧ kv.1 < 34) →
      (m.map Prod.fst).Nodup →
      (∀ kv ∈ I.foldl (fun m indicator =>
        dict_set m (indicator_to_dora_34 (indicator / 4))
          (dict_get m (indicator_to_dora_34 (indicator / 4)) 0 + 1)) m,
        0 ≤ kv.1 ∧ kv.1 < 34) ∧
      ((I.foldl (fun m indicator =>
        dict_set m (indicator_to_dora_34 (indicator / 4))
          (dict_get m (indicator_to_dora_34 (indicator / 4)) 0 + 1)) m).map
          Prod.fst).Nodup := by
  intro I
  induction I with
  | nil => intro _ m hr hn; exact ⟨hr, hn⟩
  | cons i I ih =>
    intro h m hr hn
    have hi := h i (List.mem_cons_self i I)
    rw [List.foldl_cons]
    apply ih (fun x hx => h x (List.mem_cons_of_mem i hx))
    · intro kv hkv
      rcases mem_dict_set _ _ _ _ hkv with hkv2 | hkv2
      · rw [hkv2]
        exact indicator_range i hi
      · exact hr kv hkv2
    · exact dict_set_keys_nodup _ _ _ hn

theorem count_fold_shift (tiles : List Int) :
    ∀ (m : List (Int × Int)) (init : Int),
      m.foldl (fun total kv => total + tiles.getD kv.1.toNat 0 * kv.2) init =
        init + m.foldl (fun total kv => total + tiles.getD kv.1.toNat 0 * kv.2) 0 := by
  intro m
  induction m with
  | nil => intro init; simp
  | cons kv m ih =>
    intro init
    rw [List.foldl_cons, List.foldl_cons, ih, ih (0 + tiles.getD kv.1.toNat 0 * kv.2)]
    ring

theorem replicate_getD_zero : ∀ (n j : Nat), (List.replicate n (0 : Int)).getD j 0 = 0 := by
  intro n
  induction n with
  | zero => intro j; rfl
  | succ n ih =>
    intro j
    rw [List.replicate_succ]
    cases j with
    | zero => rfl
    | succ j => rw [List.getD_cons_succ, ih]

theorem count_singleton (t : Int) (ht : 0 ≤ t ∧ t < 34) :
    ∀ (m : List (Int × Int)), (∀ kv ∈ m, 0 ≤ kv.1 ∧ kv.1 < 34) →
      (m.map Prod.fst).Nodup →
      count_dora_for_hand ((List.replicate 34 (0 : Int)).set t.toNat 1) m =
        dict_get m t 0 := by
  intro m
  induction m with
  | nil => intro _ _; rfl
  | cons kv m ih =>
    intro hr hn
    have hkv := hr kv (List.mem_cons_self kv m)
    rw [List.map_cons, List.nodup_cons] at hn
    have hrest : count_dora_for_hand ((List.replicate 34 (0 : Int)).set t.toNat 1) m =
        dict_get m t 0 := ih (fun x hx => hr x (List.mem_cons_of_mem kv hx)) hn.2
    rw [count_dora_for_hand, List.foldl_cons, count_fold_shift]
    rw [count_dora_for_hand] at hrest
    rw [hrest]
    by_cases hd : kv.1 = t
    · have hget : ((List.replicate 34 (0 : Int)).set t.toNat 1).getD kv.1.toNat 0 = 1 := by
        rw [hd]
        apply getD_set_self
        simp
        omega
      have hnot : dict_get m t 0 = 0 := by
        apply dict_get_not_mem
        intro hmem
        exact hn.1 (by rw [hd]; exact hmem)
      rw [hget, dict_get, if_pos hd, hnot]
      ring
    · have hget : ((List.replicate 34 (0 : Int)).set t.toNat 1).getD kv.1.toNat 0 = 0 := by
        rw [getD_set_ne _ _ _ _ (by omega), replicate_getD_zero _ _]
      rw [hget, dict_get, if_neg hd]
      ring


/-- C9: the two dora-counting paths agree.  For an in-range tile id and
in-range indicator ids, `plus_dora` equals the number of indicators whose
mapped dora type (`indicator_to_dora_34`, which wraps 9 to 1 inside each
suit, North to East, and Chun to Haku) is the tile's type — equivalently,
`count_dora_for_hand` on the singleton hand of that type under
`build_dora_count_map` — plus 1 when the aka bonus applies. -/
theorem C9_dora_counting_agrees (x : Int) (I : List Int) (a : Bool)
    (hx : 0 ≤ x ∧ x < 136) (hI : ∀ i ∈ I, 0 ≤ i ∧ i < 136) :
    plus_dora x I a =
      (I.countP (fun i => decide (indicator_to_dora_34 (i / 4) = x / 4)) : Int) +
      (if a ∧ x ∈ AKA_DORAS then 1 else 0) ∧
    plus_dora x I a =
      count_dora_for_hand ((List.replicate 34 (0 : Int)).set (x / 4).toNat 1)
        (build_dora_count_map I) +
      (if a ∧ x ∈ AKA_DORAS then 1 else 0) := by
  have ht : 0 ≤ x / 4 ∧ x / 4 < 34 := by omega
  have h1 : plus_dora x I a =
      (if a ∧ x ∈ AKA_DORAS then (1 : Int) else 0) +
      (I.countP (fun i => decide (indicator_to_dora_34 (i / 4) = x / 4)) : Int) := by
    simp only [plus_dora]
    rw [plus_dora_foldl (x / 4) ht I hI]
    congr 1
    simp [is_aka_dora]
  constructor
  · rw [h1]; ring
  · have hkeys := build_fold_keys I hI []
      (by intro kv hkv; exact absurd hkv (List.not_mem_nil kv)) (by simp)
    have hbuild : build_dora_count_map I = I.foldl (fun m indicator =>
        dict_set m (indicator_to_dora_34 (indicator / 4))
          (dict_get m (indicator_to_dora_34 (indicator / 4)) 0 + 1)) [] := rfl
    rw [h1, hbuild, count_singleton (x / 4) ht _ hkeys.1 hkeys.2, build_fold_get,
      dict_get]
    ring

theorem C9_dora_counting_agrees_witness :
    (((0 : Int) ≤ 4 ∧ (4 : Int) < 136) ∧ (∀ i ∈ ([0, 1] : List Int), 0 ≤ i ∧ i < 136)) ∧
    (plus_dora 4 [0, 1] false =
      (([0, 1] : List Int).countP
        (fun i => decide (indicator_to_dora_34 (i / 4) = (4 : Int) / 4)) : Int) +
      (if false ∧ (4 : Int) ∈ AKA_DORAS then 1 else 0) ∧
    plus_dora 4 [0, 1] false =
      count_dora_for_hand ((List.replicate 34 (0 : Int)).set ((4 : Int) / 4).toNat 1)
        (build_dora_count_map [0, 1]) +
      (if false ∧ (4 : Int) ∈ AKA_DORAS then 1 else 0)) :=
  ⟨⟨by decide, by decide⟩, C9_dora_counting_agrees 4 [0, 1] false (by decide) (by decide)⟩
